import Mathlib

/-!
# Event system: a shallow embedding of the services and repositories

The Go program keeps all durable state in three PostgreSQL tables (`users`,
`events`, `participants`), created by `database.CreateTables`.  The embedding
represents the database as a record of three row lists plus the last value of
each `SERIAL` sequence, and every repository method as a function from a
database state (and the clock readings the method takes) to a result and a new
state.

Modelling conventions.

* A Go `error` result is an `Option Error` (`none` is `nil`); a Go `(T, error)`
  result is an `Except Error T`.
* `time.Now()` is a parameter; a method that reads the clock twice takes two.
* An `INSERT`, `UPDATE` or `DELETE` enforces the constraints that
  `CreateTables` declares on the table: primary key, `UNIQUE`, `REFERENCES`
  and `CHECK`.  A value drawn from a sequence by a failed `INSERT` is not
  given back.
* Column types are not modelled: every string, integer and timestamp is
  stored as given, so each value is taken to fit its column.
* The libraries the program calls are modelled by what they document:
  `bcrypt` is a parameter; a JWT is its content together with the key its
  signature was made with, parsed and validated as golang-jwt v5 does.  A
  number in its claims is a JSON number with its exact value; `jwt.Parse`
  reads it as the nearest `float64`, and the program converts that to an
  `int`.
* A `float64` value is the rational number it stands for; rounding to the
  nearest `float64` (`roundFloat64`) is spelled out, so that no property of
  floating-point arithmetic is assumed.
-/

namespace EventSystem

/-! ## Time -/

/-- An instant (`time.Time`), in nanoseconds since the Unix epoch. -/
abbrev Time := Int

/-- Number of nanoseconds in a second. -/
def Second : Int := 1000000000

/-- Number of nanoseconds in an hour (`time.Hour`). -/
def Hour : Int := 3600 * Second

/-- Seconds since the Unix epoch of an instant (`Time.Unix`), rounded down. -/
def Unix (t : Time) : Int := t / Second

/-! ## Models (package `models`) -/

/-- A row of `users` (`models.User`). -/
structure User where
  ID : Int
  Username : String
  Email : String
  Password : String
  CreatedAt : Time
  UpdatedAt : Time
deriving DecidableEq, Repr

/-- A row of `events` (`models.Event`). -/
structure Event where
  ID : Int
  Name : String
  Description : String
  Location : String
  StartTime : Time
  EndTime : Time
  Capacity : Int
  OrganizerID : Int
  Status : String
  CreatedAt : Time
  UpdatedAt : Time
deriving DecidableEq, Repr

/-- A row of `participants` (`models.Participant`). -/
structure Participant where
  ID : Int
  UserID : Int
  EventID : Int
  JoinedAt : Time
deriving DecidableEq, Repr

/-- The body of a create or update request (`models.EventRequest`). -/
structure EventRequest where
  Name : String
  Description : String
  Location : String
  StartTime : Time
  EndTime : Time
  Capacity : Int
deriving DecidableEq, Repr

/-- The event as returned to the caller (`models.EventResponse`). -/
structure EventResponse where
  ID : Int
  Name : String
  Description : String
  Location : String
  StartTime : Time
  EndTime : Time
  Capacity : Int
  OrganizerID : Int
  Status : String
  CreatedAt : Time
  UpdatedAt : Time
deriving DecidableEq, Repr

/-- The public fields of a user (`models.UserResponse`). -/
structure UserResponse where
  ID : Int
  Username : String
  Email : String
  CreatedAt : Time
deriving DecidableEq, Repr

/-- The body of a login request (`models.LoginRequest`). -/
structure LoginRequest where
  Email : String
  Password : String
deriving DecidableEq, Repr

/-- The body of a registration request (`models.RegisterRequest`). -/
structure RegisterRequest where
  Username : String
  Email : String
  Password : String
deriving DecidableEq, Repr

/-! ## Errors -/

/-- A constraint failure reported by the database engine. -/
inductive DBError where
  | uniqueViolation (constraintName : String)
  | foreignKeyViolation (constraintName : String)
  | checkViolation (constraintName : String)
deriving DecidableEq, Repr

/-- An error reported by `jwt.Parse` (golang-jwt v5). -/
inductive JWTError where
  | malformed
  | unverifiable
  | signatureInvalid
  | invalidType
  | expired
  | notValidYet
deriving DecidableEq, Repr

/-- A Go `error` value. -/
inductive Error where
  /-- The value of `errors.New(msg)`. -/
  | new (msg : String)
  /-- The value `sql.ErrNoRows`. -/
  | errNoRows
  /-- A constraint failure passed on from the database driver. -/
  | storage (e : DBError)
  /-- An error passed on from `jwt.Parse`. -/
  | jwt (e : JWTError)
deriving DecidableEq, Repr

deriving instance DecidableEq for Except

/-! ## The database (package `database`) -/

/-- A database state: the rows of the three tables of `CreateTables`, and the
last value handed out by the `SERIAL` sequence of each `id` column. -/
structure DB where
  users : List User
  events : List Event
  participants : List Participant
  usersSeq : Int
  eventsSeq : Int
  participantsSeq : Int
deriving DecidableEq, Repr

/-- The database right after `CreateTables`: no rows, sequences not yet used. -/
def DB.empty : DB :=
  { users := [], events := [], participants := [],
    usersSeq := 0, eventsSeq := 0, participantsSeq := 0 }

/-- The first row of `SELECT ... FROM events WHERE id = $1`. -/
def DB.eventByID (s : DB) (id : Int) : Option Event :=
  s.events.find? (fun e => e.ID = id)

/-- The value of `SELECT COUNT(*) FROM participants WHERE event_id = $1`. -/
def DB.participantCount (s : DB) (eventID : Int) : Nat :=
  s.participants.countP (fun p => p.EventID = eventID)

/-- The first row of
`SELECT id FROM participants WHERE user_id = $1 AND event_id = $2`. -/
def DB.participantRow (s : DB) (userID eventID : Int) : Option Participant :=
  s.participants.find? (fun p => p.UserID = userID ∧ p.EventID = eventID)

/-- The value of
`SELECT COUNT(*) FROM participants p JOIN events e ON p.event_id = e.id
 WHERE p.user_id = $1 AND e.end_time > $2`:
the number of pairs of a participant row of the user and an event row it joins
with whose end time is after the given instant. -/
def DB.activeEventsCount (s : DB) (userID : Int) (now : Time) : Nat :=
  (s.participants.map fun p =>
    if p.UserID = userID then
      s.events.countP (fun e => p.EventID = e.ID ∧ e.EndTime > now)
    else 0).sum

/-- Whether a row of `users` has the given id. -/
def DB.hasUser (s : DB) (id : Int) : Bool :=
  s.users.any (fun u => u.ID = id)

/-- Whether a row of `events` has the given id. -/
def DB.hasEvent (s : DB) (id : Int) : Bool :=
  s.events.any (fun e => e.ID = id)

/-- The statement
`INSERT INTO participants (user_id, event_id, joined_at) VALUES ($1, $2, $3)
 RETURNING id`.  The id is the next value of the sequence; the row is stored
unless it breaks the primary key, `unique_participant`, or one of the two
foreign keys. -/
def DB.insertParticipant (s : DB) (userID eventID : Int) (joinedAt : Time) :
    Except Error Int × DB :=
  let id := s.participantsSeq + 1
  let s1 := { s with participantsSeq := id }
  if s.participants.any (fun p => p.ID = id) then
    (.error (.storage (.uniqueViolation "participants_pkey")), s1)
  else if s.participants.any (fun p => p.UserID = userID ∧ p.EventID = eventID) then
    (.error (.storage (.uniqueViolation "unique_participant")), s1)
  else if !s.hasUser userID then
    (.error (.storage (.foreignKeyViolation "participants_user_id_fkey")), s1)
  else if !s.hasEvent eventID then
    (.error (.storage (.foreignKeyViolation "participants_event_id_fkey")), s1)
  else
    (.ok id,
      { s1 with participants := s.participants ++
          [{ ID := id, UserID := userID, EventID := eventID, JoinedAt := joinedAt }] })

/-- The statement
`DELETE FROM participants WHERE user_id = $1 AND event_id = $2 RETURNING id`:
every matching row is removed and the id of the first is returned, or
`sql.ErrNoRows` when none matches. -/
def DB.deleteParticipant (s : DB) (userID eventID : Int) : Except Error Int × DB :=
  match s.participantRow userID eventID with
  | none => (.error .errNoRows, s)
  | some p =>
    (.ok p.ID,
      { s with participants :=
          s.participants.filter (fun q => ¬ (q.UserID = userID ∧ q.EventID = eventID)) })

/-! ## Participant repository and service -/

namespace ParticipantRepository

/-- `ParticipantRepository.JoinEvent`: `now` is the clock reading passed to the
active-events query, `insertTime` the later reading stored as `joined_at`. -/
def JoinEvent (s : DB) (userID eventID : Int) (now insertTime : Time) :
    Option Error × DB :=
  match s.eventByID eventID with
  | none => (some (.new "event not found"), s)
  | some ev =>
    if ev.Status ≠ "open" then
      (some (.new "event is not open for registration"), s)
    else if (s.participantCount eventID : Int) ≥ ev.Capacity then
      (some (.new "event is at full capacity"), s)
    else if (s.participantRow userID eventID).isSome then
      (some (.new "user is already a participant of this event"), s)
    else if s.activeEventsCount userID now ≥ 5 then
      (some (.new "user has reached the maximum number of active events"), s)
    else
      match s.insertParticipant userID eventID insertTime with
      | (.error e, s1) => (some e, s1)
      | (.ok _, s1) => (none, s1)

/-- `ParticipantRepository.LeaveEvent`. -/
def LeaveEvent (s : DB) (userID eventID : Int) : Option Error × DB :=
  match s.participantRow userID eventID with
  | none => (some (.new "user is not a participant of this event"), s)
  | some _ =>
    match s.deleteParticipant userID eventID with
    | (.error e, s1) => (some e, s1)
    | (.ok _, s1) => (none, s1)

/-- `ParticipantRepository.IsParticipant`. -/
def IsParticipant (s : DB) (userID eventID : Int) : Except Error Bool :=
  match s.participantRow userID eventID with
  | none => .ok false
  | some _ => .ok true

/-- `ParticipantRepository.GetParticipantCount`. -/
def GetParticipantCount (s : DB) (eventID : Int) : Except Error Int :=
  .ok (s.participantCount eventID)

end ParticipantRepository

namespace ParticipantService

/-- `ParticipantService.JoinEvent` delegates to the repository. -/
def JoinEvent (s : DB) (userID eventID : Int) (now insertTime : Time) :
    Option Error × DB :=
  ParticipantRepository.JoinEvent s userID eventID now insertTime

/-- `ParticipantService.LeaveEvent` delegates to the repository. -/
def LeaveEvent (s : DB) (userID eventID : Int) : Option Error × DB :=
  ParticipantRepository.LeaveEvent s userID eventID

/-- `ParticipantService.IsParticipant` delegates to the repository. -/
def IsParticipant (s : DB) (userID eventID : Int) : Except Error Bool :=
  ParticipantRepository.IsParticipant s userID eventID

/-- `ParticipantService.GetParticipantCount` delegates to the repository. -/
def GetParticipantCount (s : DB) (eventID : Int) : Except Error Int :=
  ParticipantRepository.GetParticipantCount s eventID

end ParticipantService

/-! ## Further statements of the database -/

/-- The statement `INSERT INTO users (username, email, password, created_at,
updated_at) VALUES (...) RETURNING id`, under the primary key and the two
`UNIQUE` constraints of `users`. -/
def DB.insertUser (s : DB) (username email password : String) (createdAt updatedAt : Time) :
    Except Error Int × DB :=
  let id := s.usersSeq + 1
  let s1 := { s with usersSeq := id }
  if s.users.any (fun u => u.ID = id) then
    (.error (.storage (.uniqueViolation "users_pkey")), s1)
  else if s.users.any (fun u => u.Username = username) then
    (.error (.storage (.uniqueViolation "users_username_key")), s1)
  else if s.users.any (fun u => u.Email = email) then
    (.error (.storage (.uniqueViolation "users_email_key")), s1)
  else
    (.ok id,
      { s1 with users := s.users ++
          [{ ID := id, Username := username, Email := email, Password := password,
             CreatedAt := createdAt, UpdatedAt := updatedAt }] })

/-- The statement `INSERT INTO events (name, ..., updated_at) VALUES (...)
RETURNING id`, under `check_capacity`, `check_time`, the primary key and the
foreign key on `organizer_id`. -/
def DB.insertEvent (s : DB) (ev : Event) : Except Error Int × DB :=
  let id := s.eventsSeq + 1
  let s1 := { s with eventsSeq := id }
  if ¬ (ev.Capacity > 0) then
    (.error (.storage (.checkViolation "check_capacity")), s1)
  else if ¬ (ev.EndTime > ev.StartTime) then
    (.error (.storage (.checkViolation "check_time")), s1)
  else if s.events.any (fun e => e.ID = id) then
    (.error (.storage (.uniqueViolation "events_pkey")), s1)
  else if !s.hasUser ev.OrganizerID then
    (.error (.storage (.foreignKeyViolation "events_organizer_id_fkey")), s1)
  else
    (.ok id, { s1 with events := s.events ++ [{ ev with ID := id }] })

/-- The row that `UPDATE events SET name = $1, description = $2, location = $3,
start_time = $4, end_time = $5, capacity = $6, status = $7, updated_at = $8`
makes of a row it applies to: the eight columns come from the parameters, the
other three stay. -/
def Event.assign (old ev : Event) : Event :=
  { old with
    Name := ev.Name, Description := ev.Description, Location := ev.Location,
    StartTime := ev.StartTime, EndTime := ev.EndTime, Capacity := ev.Capacity,
    Status := ev.Status, UpdatedAt := ev.UpdatedAt }

/-- The statement `UPDATE events SET ... WHERE id = $9 AND organizer_id = $10
RETURNING id`, under `check_capacity` and `check_time`; `sql.ErrNoRows` when no
row matches. -/
def DB.updateEvent (s : DB) (ev : Event) : Except Error Int × DB :=
  match s.events.find? (fun e => e.ID = ev.ID ∧ e.OrganizerID = ev.OrganizerID) with
  | none => (.error .errNoRows, s)
  | some old =>
    if ¬ (ev.Capacity > 0) then
      (.error (.storage (.checkViolation "check_capacity")), s)
    else if ¬ (ev.EndTime > ev.StartTime) then
      (.error (.storage (.checkViolation "check_time")), s)
    else
      (.ok old.ID,
        { s with events := s.events.map fun e =>
            if e.ID = ev.ID ∧ e.OrganizerID = ev.OrganizerID then e.assign ev else e })

/-- The statement `DELETE FROM events WHERE id = $1 AND organizer_id = $2
RETURNING id`, under the foreign key of `participants.event_id`;
`sql.ErrNoRows` when no row matches. -/
def DB.deleteEvent (s : DB) (id organizerID : Int) : Except Error Int × DB :=
  match s.events.find? (fun e => e.ID = id ∧ e.OrganizerID = organizerID) with
  | none => (.error .errNoRows, s)
  | some old =>
    if s.participants.any (fun p => p.EventID = id) then
      (.error (.storage (.foreignKeyViolation "participants_event_id_fkey")), s)
    else
      (.ok old.ID,
        { s with events :=
            s.events.filter (fun e => ¬ (e.ID = id ∧ e.OrganizerID = organizerID)) })

/-! ## Event repository -/

namespace EventRepository

/-- The first lines of `EventRepository.Create`: the event is stamped with the
clock reading and an empty status becomes `open`. -/
def stamped (event : Event) (now : Time) : Event :=
  let event := { event with CreatedAt := now, UpdatedAt := now }
  if event.Status = "" then { event with Status := "open" } else event

/-- `EventRepository.Create`: stamps the event, fills an empty status with
`open`, inserts it, and hands back the event with its new id. -/
def Create (s : DB) (event : Event) (now : Time) : Except Error Event × DB :=
  let event := stamped event now
  match s.insertEvent event with
  | (.error e, s1) => (.error e, s1)
  | (.ok id, s1) => (.ok { event with ID := id }, s1)

/-- `EventRepository.GetByID`. -/
def GetByID (s : DB) (id : Int) : Except Error Event :=
  match s.eventByID id with
  | none => .error (.new "event not found")
  | some e => .ok e

/-- `EventRepository.Update`: stamps `updated_at` and runs the update; hands
back the event as stamped. -/
def Update (s : DB) (event : Event) (now : Time) : Except Error Event × DB :=
  let event := { event with UpdatedAt := now }
  match s.updateEvent event with
  | (.error .errNoRows, s1) =>
    (.error (.new "event not found or you are not the organizer"), s1)
  | (.error e, s1) => (.error e, s1)
  | (.ok _, s1) => (.ok event, s1)

/-- `EventRepository.Delete`. -/
def Delete (s : DB) (id organizerID : Int) : Option Error × DB :=
  if s.participantCount id > 0 then
    (some (.new "cannot delete event with participants"), s)
  else
    match s.deleteEvent id organizerID with
    | (.error .errNoRows, s1) =>
      (some (.new "event not found or you are not the organizer"), s1)
    | (.error e, s1) => (some e, s1)
    | (.ok _, s1) => (none, s1)

end EventRepository

/-! ## Event service -/

/-- The field-by-field copy of an event into a response that every method of
the event service ends with. -/
def Event.toResponse (e : Event) : EventResponse :=
  { ID := e.ID, Name := e.Name, Description := e.Description, Location := e.Location,
    StartTime := e.StartTime, EndTime := e.EndTime, Capacity := e.Capacity,
    OrganizerID := e.OrganizerID, Status := e.Status,
    CreatedAt := e.CreatedAt, UpdatedAt := e.UpdatedAt }

namespace EventService

/-- `EventService.CloseEvent`. -/
def CloseEvent (s : DB) (organizerID eventID : Int) (now : Time) :
    Except Error EventResponse × DB :=
  match EventRepository.GetByID s eventID with
  | .error e => (.error e, s)
  | .ok existingEvent =>
    if existingEvent.OrganizerID ≠ organizerID then
      (.error (.new "you are not the organizer of this event"), s)
    else if existingEvent.Status = "closed" then
      (.error (.new "event is already closed"), s)
    else
      match EventRepository.Update s { existingEvent with Status := "closed" } now with
      | (.error _, s1) => (.error (.new "error closing event"), s1)
      | (.ok ev, s1) => (.ok ev.toResponse, s1)

/-- `EventService.OpenEvent`. -/
def OpenEvent (s : DB) (organizerID eventID : Int) (now : Time) :
    Except Error EventResponse × DB :=
  match EventRepository.GetByID s eventID with
  | .error e => (.error e, s)
  | .ok existingEvent =>
    if existingEvent.OrganizerID ≠ organizerID then
      (.error (.new "you are not the organizer of this event"), s)
    else if existingEvent.Status = "open" then
      (.error (.new "event is already open"), s)
    else
      match EventRepository.Update s { existingEvent with Status := "open" } now with
      | (.error _, s1) => (.error (.new "error opening event"), s1)
      | (.ok ev, s1) => (.ok ev.toResponse, s1)

/-- The event object that `CreateEvent` builds from the request; the fields
the literal leaves out have Go's zero value. -/
def newEvent (req : EventRequest) (organizerID : Int) : Event :=
  { ID := 0, Name := req.Name, Description := req.Description, Location := req.Location,
    StartTime := req.StartTime, EndTime := req.EndTime, Capacity := req.Capacity,
    OrganizerID := organizerID, Status := "open", CreatedAt := 0, UpdatedAt := 0 }

/-- `EventService.CreateEvent`. -/
def CreateEvent (s : DB) (req : EventRequest) (organizerID : Int) (now : Time) :
    Except Error EventResponse × DB :=
  match EventRepository.Create s (newEvent req organizerID) now with
  | (.error _, s1) => (.error (.new "error creating event"), s1)
  | (.ok ev, s1) => (.ok ev.toResponse, s1)

/-- `EventService.GetEventByID`. -/
def GetEventByID (s : DB) (id : Int) : Except Error EventResponse :=
  match EventRepository.GetByID s id with
  | .error e => .error e
  | .ok event => .ok event.toResponse

/-- `EventService.UpdateEvent`. -/
def UpdateEvent (s : DB) (id : Int) (req : EventRequest) (organizerID : Int) (now : Time) :
    Except Error EventResponse × DB :=
  match EventRepository.GetByID s id with
  | .error e => (.error e, s)
  | .ok existingEvent =>
    if existingEvent.OrganizerID ≠ organizerID then
      (.error (.new "you are not the organizer of this event"), s)
    else
      let updated : Event :=
        { existingEvent with
          Name := req.Name, Description := req.Description, Location := req.Location,
          StartTime := req.StartTime, EndTime := req.EndTime, Capacity := req.Capacity }
      match EventRepository.Update s updated now with
      | (.error _, s1) => (.error (.new "error updating event"), s1)
      | (.ok ev, s1) => (.ok ev.toResponse, s1)

/-- `EventService.DeleteEvent` delegates to the repository. -/
def DeleteEvent (s : DB) (id organizerID : Int) : Option Error × DB :=
  EventRepository.Delete s id organizerID

end EventService

/-! ## User repository -/

namespace UserRepository

/-- `UserRepository.Create`: stamps the user, inserts it, and hands back the
user with its new id. -/
def Create (s : DB) (user : User) (now : Time) : Except Error User × DB :=
  let user := { user with CreatedAt := now, UpdatedAt := now }
  match s.insertUser user.Username user.Email user.Password user.CreatedAt user.UpdatedAt with
  | (.error e, s1) => (.error e, s1)
  | (.ok id, s1) => (.ok { user with ID := id }, s1)

/-- `UserRepository.GetByID`. -/
def GetByID (s : DB) (id : Int) : Except Error User :=
  match s.users.find? (fun u => u.ID = id) with
  | none => .error (.new "user not found")
  | some u => .ok u

/-- `UserRepository.GetByEmail`. -/
def GetByEmail (s : DB) (email : String) : Except Error User :=
  match s.users.find? (fun u => u.Email = email) with
  | none => .error (.new "user not found")
  | some u => .ok u

/-- `UserRepository.GetByUsername`. -/
def GetByUsername (s : DB) (username : String) : Except Error User :=
  match s.users.find? (fun u => u.Username = username) with
  | none => .error (.new "user not found")
  | some u => .ok u

end UserRepository

/-! ## Libraries: bcrypt and JWT -/

/-- The two functions of `golang.org/x/crypto/bcrypt` the program calls.
`GenerateFromPassword password salt` is the hash made with the random salt the
library draws, or `none` when the library reports an error;
`CompareHashAndPassword hash password` is `true` when the library returns
`nil`. -/
structure Bcrypt where
  GenerateFromPassword : String → Nat → Option String
  CompareHashAndPassword : String → String → Bool

/-- A value of a JWT claim: a JSON number with its exact value, a string, or
anything else.  In a claim map that `jwt.Parse` hands back, a number is the
`float64` that `encoding/json` has decoded the JSON number into. -/
inductive Claim where
  | number (x : ℚ)
  | string (s : String)
  | other
deriving DecidableEq, Repr

/-- The claim set `jwt.MapClaims`, a map from names to values. -/
abbrev MapClaims := List (String × Claim)

/-- The value `claims[key]` of a claim map (`none` is the nil interface of an
absent key). -/
def MapClaims.get (claims : MapClaims) (key : String) : Option Claim :=
  (claims.find? (fun kv => kv.1 = key)).map (fun kv => kv.2)

/-- The signing methods that golang-jwt registers. -/
inductive SigningMethod where
  | HS256 | HS384 | HS512
  | RS256 | RS384 | RS512
  | PS256 | PS384 | PS512
  | ES256 | ES384 | ES512
  | EdDSA
  | none
deriving DecidableEq, Repr

/-- Whether a signing method is a `*jwt.SigningMethodHMAC`. -/
def SigningMethod.isHMAC : SigningMethod → Bool
  | .HS256 | .HS384 | .HS512 => true
  | _ => false

/-- The content of a compact JWT: the method its header names (`none` when
the header names no registered method), its claims, and the key that made its
signature segment as the HMAC of this header and these claims (`none` when the
segment is no such HMAC).  The signature verifies under a key exactly when it
was made with that key. -/
structure Token where
  Method : Option SigningMethod
  Claims : MapClaims
  SignedWith : Option String
deriving DecidableEq, Repr

/-- A token string: either not of the form `header.claims.signature` with
decodable segments, or the compact form of a token. -/
inductive TokenString where
  | malformed
  | compact (t : Token)
deriving DecidableEq, Repr

/-- The `*jwt.Token` that `jwt.Parse` returns without error. -/
structure ParsedToken where
  Method : SigningMethod
  Claims : MapClaims
  Valid : Bool
deriving DecidableEq, Repr

/-! ### Numbers: `float64` and `int` -/

/-- The integer nearest to a rational that is not negative, the even one of
the two when it lies halfway between them. -/
def roundHalfEven (q : ℚ) : Int :=
  let f := ⌊q⌋
  if q - f < 1 / 2 then f
  else if 1 / 2 < q - f then f + 1
  else if f % 2 = 0 then f else f + 1

/-- The exponent of the leading binary digit of a positive rational: the
greatest `k` with `2 ^ k ≤ a`. -/
def log2Floor (a : ℚ) : Int :=
  let d : Int := (Nat.log2 a.num.natAbs : Int) - (Nat.log2 a.den : Int)
  if (2 : ℚ) ^ d ≤ a then d else d - 1

/-- The binary64 number nearest to a rational, ties to the even mantissa: 53
binary digits from the leading one on, and no digit below `2 ^ (-1074)`.  The
exponent is not bounded from above here; `float64` does that. -/
def roundFloat64 (x : ℚ) : ℚ :=
  if x = 0 then 0
  else
    let e := max (log2Floor |x| - 52) (-1074)
    let r : ℚ := roundHalfEven (|x| / 2 ^ e) * 2 ^ e
    if x < 0 then -r else r

/-- The `float64` that `strconv.ParseFloat`, and so `encoding/json`, reads a
decimal number as: the nearest binary64 number, or `none` (a range error) when
that is `2 ^ 1024` or more in magnitude. -/
def float64 (x : ℚ) : Option ℚ :=
  if (2 : ℚ) ^ (1024 : ℕ) ≤ |roundFloat64 x| then none else some (roundFloat64 x)

/-- The conversions `int(f)` and `int64(f)` of Go for a `float64`: the
fraction is discarded; for a value outside the 64-bit range Go leaves the
result to the implementation, and this is the result on amd64. -/
def intOfFloat64 (f : ℚ) : Int :=
  let n := f.num.tdiv f.den
  if -9223372036854775808 ≤ n ∧ n < 9223372036854775808 then n else -9223372036854775808

namespace jwt

/-- Whether `encoding/json` can decode a claim value: a number must be in the
range of `float64`. -/
def decodable : Claim → Bool
  | .number x => (float64 x).isSome
  | _ => true

/-- The value `encoding/json` decodes a claim value into: a number becomes the
nearest `float64`. -/
def decode : Claim → Claim
  | .number x => .number (roundFloat64 x)
  | c => c

/-- The instant of a numeric date, `newNumericDateFromSeconds(f)` of
golang-jwt v5: `math.Modf` splits `f` into its integer part and its fraction,
`time.Unix(int64(round), int64(frac*1e9))` makes the instant, and
`Truncate(TimePrecision)` rounds it down to the second. -/
def numericDate (f : ℚ) : Time :=
  let round : ℚ := f.num.tdiv f.den
  let frac : ℚ := f - round
  let t : Time := intOfFloat64 round * Second + intOfFloat64 (roundFloat64 (frac * 1000000000))
  (t / Second) * Second

/-- The check of a registered date claim by the validator of golang-jwt v5,
on decoded claims: an absent claim and the number zero are not checked, a
claim that is not a number is an error, and otherwise `ok` decides on the
instant the number names. -/
def checkDate (claims : MapClaims) (key : String) (ok : Time → Bool) (e : JWTError) :
    Option JWTError :=
  match claims.get key with
  | none => none
  | some (.number f) => if f = 0 then none else if ok (numericDate f) then none else some e
  | some _ => some .invalidType

/-- The default `Validator.Validate` of golang-jwt v5 at clock reading `now`:
`exp` must be after `now`, `nbf` must not be after `now`. -/
def Validate (claims : MapClaims) (now : Time) : Option JWTError :=
  match checkDate claims "exp" (fun t => now < t) .expired with
  | some e => some e
  | none => checkDate claims "nbf" (fun t => ¬ (now < t)) .notValidYet

/-- The function `jwt.Parse(tokenString, keyFunc)` of golang-jwt v5 with no
parser option: decode the token (a number out of the range of `float64` makes
the claims undecodable), ask `keyFunc` for the key, verify the signature with
the header's method, validate the decoded claims at clock reading `now`. -/
def Parse (tokenString : TokenString) (keyFunc : SigningMethod → Except Error String)
    (now : Time) : Except Error ParsedToken :=
  match tokenString with
  | .malformed => .error (.jwt .malformed)
  | .compact t =>
    if ¬ t.Claims.all (fun kv => decodable kv.2) then .error (.jwt .malformed)
    else
      let claims : MapClaims := t.Claims.map fun kv => (kv.1, decode kv.2)
      match t.Method with
      | none => .error (.jwt .unverifiable)
      | some m =>
        match keyFunc m with
        | .error _ => .error (.jwt .unverifiable)
        | .ok key =>
          if ¬ (m.isHMAC ∧ t.SignedWith = some key) then .error (.jwt .signatureInvalid)
          else
            match Validate claims now with
            | some e => .error (.jwt e)
            | none => .ok { Method := m, Claims := claims, Valid := true }

end jwt

/-! ## Authentication service -/

/-- What a Go call with results `(T, error)` does: it returns a value and a
nil error, it returns an error, or it panics. -/
inductive Outcome (α : Type) where
  | ok (v : α)
  | error (e : Error)
  | panicked
deriving DecidableEq, Repr

/-- The response of a registration or a login (`models.TokenResponse`). -/
structure TokenResponse where
  Token : TokenString
  ExpiresAt : Time
  User : UserResponse
deriving DecidableEq, Repr

namespace AuthService

/-- The signing key: the environment variable `JWT_SECRET` (`env`, empty when
unset), or the default when that is empty. -/
def jwtSecret (env : String) : String :=
  if env = "" then "your-secret-key" else env

/-- `AuthService.generateToken` at clock reading `now`.  The claims `id` and
`exp` are Go integers, which `encoding/json` writes as exact JSON numbers.
`SignedString` cannot fail for HS256 with a byte-slice key, so the error
result is always `nil`. -/
def generateToken (env : String) (user : User) (now : Time) : Except Error (TokenString × Time) :=
  let expiresAt := now + 24 * Hour
  let claims : MapClaims :=
    [("id", .number user.ID), ("username", .string user.Username),
     ("email", .string user.Email), ("exp", .number (Unix expiresAt))]
  .ok (.compact { Method := some .HS256, Claims := claims, SignedWith := some (jwtSecret env) },
       expiresAt)

/-- `AuthService.ValidateToken`: `parseTime` is the clock reading of the
library's validator, `now` the later reading of the method's own expiry
check, which compares `float64(time.Now().Unix())` with the decoded `exp`.
The two unchecked type assertions panic on an absent or non-numeric claim; the
result is `int(...)` of the decoded `id`. -/
def ValidateToken (env : String) (tokenString : TokenString) (parseTime now : Time) :
    Outcome Int :=
  let keyFunc : SigningMethod → Except Error String := fun m =>
    if m.isHMAC then .ok (jwtSecret env) else .error (.new "unexpected signing method")
  match jwt.Parse tokenString keyFunc parseTime with
  | .error e => .error e
  | .ok token =>
    if token.Valid then
      match token.Claims.get "exp" with
      | some (.number exp) =>
        if roundFloat64 (Unix now) > exp then .error (.new "token expired")
        else
          match token.Claims.get "id" with
          | some (.number id) => .ok (intOfFloat64 id)
          | _ => .panicked
      | _ => .panicked
    else .error (.new "invalid token")

/-- The public fields of a user, as the service copies them into a response. -/
def userResponse (user : User) : UserResponse :=
  { ID := user.ID, Username := user.Username, Email := user.Email, CreatedAt := user.CreatedAt }

/-- The user object that `Register` builds from the request and the hash; the
fields the literal leaves out have Go's zero value. -/
def newUser (req : RegisterRequest) (hashedPassword : String) : User :=
  { ID := 0, Username := req.Username, Email := req.Email, Password := hashedPassword,
    CreatedAt := 0, UpdatedAt := 0 }

/-- `AuthService.Register`: `salt` is the randomness bcrypt draws, `now` the
clock reading of the insert, `tokenTime` the later reading of `generateToken`. -/
def Register (bc : Bcrypt) (env : String) (s : DB) (req : RegisterRequest) (salt : Nat)
    (now tokenTime : Time) : Except Error TokenResponse × DB :=
  match UserRepository.GetByUsername s req.Username with
  | .ok _ => (.error (.new "username already exists"), s)
  | .error _ =>
    match UserRepository.GetByEmail s req.Email with
    | .ok _ => (.error (.new "email already exists"), s)
    | .error _ =>
      match bc.GenerateFromPassword req.Password salt with
      | none => (.error (.new "error processing registration"), s)
      | some hashedPassword =>
        match UserRepository.Create s (newUser req hashedPassword) now with
        | (.error _, s1) => (.error (.new "error processing registration"), s1)
        | (.ok user, s1) =>
          match generateToken env user tokenTime with
          | .error _ => (.error (.new "error processing registration"), s1)
          | .ok (token, expiresAt) =>
            (.ok { Token := token, ExpiresAt := expiresAt, User := userResponse user }, s1)

/-- `AuthService.Login` at clock reading `now`. -/
def Login (bc : Bcrypt) (env : String) (s : DB) (req : LoginRequest) (now : Time) :
    Except Error TokenResponse :=
  match UserRepository.GetByEmail s req.Email with
  | .error _ => .error (.new "invalid email or password")
  | .ok user =>
    if ¬ bc.CompareHashAndPassword user.Password req.Password then
      .error (.new "invalid email or password")
    else
      match generateToken env user now with
      | .error _ => .error (.new "error processing login")
      | .ok (token, expiresAt) =>
        .ok { Token := token, ExpiresAt := expiresAt, User := userResponse user }

end AuthService

/-! ## Controllers -/

set_option linter.dupNamespace false in
/-- The text `err.Error()` of an error.  For an `errors.New` value it is the
message; the texts of driver and library errors are not modelled beyond a
tag. -/
def Error.Error : Error → String
  | .new msg => msg
  | .errNoRows => "sql: no rows in result set"
  | .storage _ => "pq: constraint violation"
  | .jwt _ => "token is invalid"

/-- A `*fiber.Error`: a status code (a Go `int`) and a message. -/
structure FiberError where
  Code : Int
  Message : String
deriving DecidableEq, Repr

namespace AuthController

/-- `AuthController.Login`.  `body` is what `BodyParser` makes of the request
body (`none` when it fails); a result `ok r` is the response `200` with JSON
`r`. -/
def Login (bc : Bcrypt) (env : String) (s : DB) (body : Option LoginRequest) (now : Time) :
    Except FiberError TokenResponse :=
  match body with
  | none => .error { Code := 400, Message := "Invalid request body" }
  | some req =>
    if req.Email = "" ∨ req.Password = "" then
      .error { Code := 400, Message := "Email and password are required" }
    else
      match AuthService.Login bc env s req now with
      | .error err => .error { Code := 401, Message := err.Error }
      | .ok response => .ok response

end AuthController

/-! ## Well-formed states and runs of the service -/

/-- The constraints that `CreateTables` puts on the three tables, as a
predicate on states: primary keys, the `UNIQUE` and `CHECK` constraints, the
foreign keys, and that no row carries an id its sequence has not yet issued. -/
structure DB.Valid (s : DB) : Prop where
  users_pkey : s.users.Pairwise (fun a b => a.ID ≠ b.ID)
  users_seq : ∀ u ∈ s.users, u.ID ≤ s.usersSeq
  users_username_key : s.users.Pairwise (fun a b => a.Username ≠ b.Username)
  users_email_key : s.users.Pairwise (fun a b => a.Email ≠ b.Email)
  events_pkey : s.events.Pairwise (fun a b => a.ID ≠ b.ID)
  events_seq : ∀ e ∈ s.events, e.ID ≤ s.eventsSeq
  check_capacity : ∀ e ∈ s.events, e.Capacity > 0
  check_time : ∀ e ∈ s.events, e.EndTime > e.StartTime
  events_organizer_id_fkey : ∀ e ∈ s.events, s.hasUser e.OrganizerID = true
  participants_pkey : s.participants.Pairwise (fun a b => a.ID ≠ b.ID)
  participants_seq : ∀ p ∈ s.participants, p.ID ≤ s.participantsSeq
  unique_participant :
    s.participants.Pairwise (fun a b => ¬ (a.UserID = b.UserID ∧ a.EventID = b.EventID))
  participants_user_id_fkey : ∀ p ∈ s.participants, s.hasUser p.UserID = true
  participants_event_id_fkey : ∀ p ∈ s.participants, s.hasEvent p.EventID = true

/-- A call of one of the state-changing operations of the three services,
with its arguments and the clock readings it takes. -/
inductive Op where
  | Register (req : RegisterRequest) (salt : Nat) (now tokenTime : Time)
  | CreateEvent (req : EventRequest) (organizerID : Int) (now : Time)
  | UpdateEvent (id : Int) (req : EventRequest) (organizerID : Int) (now : Time)
  | CloseEvent (organizerID eventID : Int) (now : Time)
  | OpenEvent (organizerID eventID : Int) (now : Time)
  | DeleteEvent (id organizerID : Int)
  | JoinEvent (userID eventID : Int) (now insertTime : Time)
  | LeaveEvent (userID eventID : Int)
deriving DecidableEq, Repr

/-- The state a call leaves behind, whether it returned an error or not. -/
def Op.apply (bc : Bcrypt) (env : String) (s : DB) : Op → DB
  | .Register req salt now tokenTime => (AuthService.Register bc env s req salt now tokenTime).2
  | .CreateEvent req organizerID now => (EventService.CreateEvent s req organizerID now).2
  | .UpdateEvent id req organizerID now => (EventService.UpdateEvent s id req organizerID now).2
  | .CloseEvent organizerID eventID now => (EventService.CloseEvent s organizerID eventID now).2
  | .OpenEvent organizerID eventID now => (EventService.OpenEvent s organizerID eventID now).2
  | .DeleteEvent id organizerID => (EventService.DeleteEvent s id organizerID).2
  | .JoinEvent userID eventID now insertTime =>
    (ParticipantService.JoinEvent s userID eventID now insertTime).2
  | .LeaveEvent userID eventID => (ParticipantService.LeaveEvent s userID eventID).2

/-- The states the service can bring the database into from the empty one,
by calls each of which satisfies `allowed` in the state it is made in. -/
inductive ReachableBy (bc : Bcrypt) (env : String) (allowed : DB → Op → Prop) : DB → Prop where
  | empty : ReachableBy bc env allowed DB.empty
  | step (s : DB) (op : Op) :
      ReachableBy bc env allowed s → allowed s op → ReachableBy bc env allowed (op.apply bc env s)

/-- The states reachable from the empty database by any sequence of calls. -/
def Reachable (bc : Bcrypt) (env : String) : DB → Prop :=
  ReachableBy bc env (fun _ _ => True)

/-- The state after a sequence of calls, made one after the other. -/
def DB.run (bc : Bcrypt) (env : String) (s : DB) (ops : List Op) : DB :=
  ops.foldl (fun s op => op.apply bc env s) s

/-! ## Sample data -/

/-- A bcrypt stand-in for evaluating the model: the hash is the password
behind a marker. -/
def sampleBcrypt : Bcrypt where
  GenerateFromPassword := fun password _ => some ("$2a$" ++ password)
  CompareHashAndPassword := fun hash password => hash = "$2a$" ++ password

/-- A sample user. -/
def alice : User :=
  { ID := 1, Username := "alice", Email := "alice@example.org", Password := "$2a$wonderland",
    CreatedAt := 10, UpdatedAt := 10 }

/-- A second sample user. -/
def bob : User :=
  { ID := 2, Username := "bob", Email := "bob@example.org", Password := "$2a$builder",
    CreatedAt := 20, UpdatedAt := 20 }

/-- A sample event of capacity two, organised by the first sample user. -/
def picnic : Event :=
  { ID := 1, Name := "picnic", Description := "", Location := "park",
    StartTime := 1000, EndTime := 2000, Capacity := 2, OrganizerID := 1, Status := "open",
    CreatedAt := 30, UpdatedAt := 30 }

/-- A sample state: two users, one open event, nobody has joined. -/
def sampleDB : DB :=
  { users := [alice, bob], events := [picnic], participants := [],
    usersSeq := 2, eventsSeq := 1, participantsSeq := 0 }

/-! ## Properties of states and calls, in the words of the specification -/

/-- Every event has at most as many participant rows as its capacity. -/
def DB.WithinCapacity (s : DB) : Prop :=
  ∀ ev ∈ s.events, (s.participantCount ev.ID : Int) ≤ ev.Capacity

/-- The call does not ask for a capacity below the number of participant rows
the event has: a condition on `UpdateEvent`, none on the other operations. -/
def Op.keepsCapacity (s : DB) : Op → Prop
  | .UpdateEvent id req _ _ => (s.participantCount id : Int) ≤ req.Capacity
  | _ => True

/-- None of the five guards of `JoinEvent` fails: the event exists, it is
open, it has fewer participant rows than its capacity, the user has no row for
it, and the user has fewer than five rows in events that end after `now`. -/
def JoinGuardsPass (s : DB) (userID eventID : Int) (now : Time) : Prop :=
  ∃ ev, s.eventByID eventID = some ev ∧ ev.Status = "open" ∧
    (s.participantCount eventID : Int) < ev.Capacity ∧
    s.participantRow userID eventID = none ∧
    s.activeEventsCount userID now < 5

/-- A registration request of the first sample user. -/
def aliceRequest : RegisterRequest :=
  { Username := "alice", Email := "alice@example.org", Password := "wonderland" }

/-- A registration request of the second sample user. -/
def bobRequest : RegisterRequest :=
  { Username := "bob", Email := "bob@example.org", Password := "builder" }

/-- A request for an event of the given capacity. -/
def picnicRequest (capacity : Int) : EventRequest :=
  { Name := "picnic", Description := "", Location := "park",
    StartTime := 1000, EndTime := 2000, Capacity := capacity }

/-- A run in which two users join an event of capacity two and the organizer
then updates the capacity to one. -/
def overbookedRun : List Op :=
  [.Register aliceRequest 0 10 10, .Register bobRequest 0 20 20,
   .CreateEvent (picnicRequest 2) 1 30,
   .JoinEvent 1 1 40 40, .JoinEvent 2 1 50 50,
   .UpdateEvent 1 (picnicRequest 1) 1 60]

/-- A run in which one user joins an event of capacity one. -/
def fullRun : List Op :=
  [.Register aliceRequest 0 10 10, .CreateEvent (picnicRequest 1) 1 30, .JoinEvent 1 1 40 40]

/-- The sample state with the capacity of its event lowered to one. -/
def soloDB : DB :=
  { sampleDB with events := [{ picnic with Capacity := 1 }] }

/-! ## The public listing -/

/-- The rows of
`SELECT ... FROM events WHERE status = 'open' ORDER BY start_time ASC`:
the open events sorted by start time, rows with equal start times in table
order (one of the orders the engine may return them in). -/
def DB.openEventsByStart (s : DB) : List Event :=
  (s.events.filter (fun e => e.Status = "open")).insertionSort
    (fun a b => a.StartTime ≤ b.StartTime)

/-- `EventRepository.GetAllPublic`. -/
def EventRepository.GetAllPublic (s : DB) : Except Error (List Event) :=
  .ok s.openEventsByStart

/-- `EventService.GetAllPublicEvents`: every event of the repository's
answer is copied into a response, in the same order. -/
def EventService.GetAllPublicEvents (s : DB) : Except Error (List EventResponse) :=
  match EventRepository.GetAllPublic s with
  | .error e => .error e
  | .ok events => .ok (events.map Event.toResponse)

/-! ## The event controller -/

/-- Go's zero `time.Time`, January 1 of year 1, 00:00:00 UTC. -/
def zeroTime : Time := -62135596800 * Second

/-- `Time.IsZero`. -/
def IsZero (t : Time) : Bool := t = zeroTime

namespace EventController

/-- `EventController.CreateEvent`.  `userID` is the value
`ctx.Locals("userID").(int)` (`none` when the assertion fails), `body` what
`BodyParser` makes of the request body (the error text when it fails); a
result `ok (code, r)` is the response with that status and JSON `r`. -/
def CreateEvent (s : DB) (userID : Option Int) (body : Except String EventRequest)
    (now : Time) : Except FiberError (Nat × EventResponse) × DB :=
  match userID with
  | none => (.error { Code := 401, Message := "Unauthorized" }, s)
  | some userID =>
    match body with
    | .error err => (.error { Code := 400, Message := "Invalid request body" ++ err }, s)
    | .ok req =>
      if req.Name = "" ∨ IsZero req.StartTime ∨ IsZero req.EndTime ∨ req.Capacity ≤ 0 then
        (.error { Code := 400,
                  Message := "Name, start time, end time, and capacity are required" }, s)
      else if ¬ (req.EndTime > req.StartTime) then
        (.error { Code := 400, Message := "End time must be after start time" }, s)
      else
        match EventService.CreateEvent s req userID now with
        | (.error err, s1) => (.error { Code := 500, Message := err.Error }, s1)
        | (.ok event, s1) => (.ok (201, event), s1)

/-- `EventController.UpdateEvent`.  `id` is the value of
`strconv.Atoi(ctx.Params("id"))` (`none` when it fails); the other arguments
are as for `CreateEvent`. -/
def UpdateEvent (s : DB) (userID : Option Int) (id : Option Int)
    (body : Except String EventRequest) (now : Time) :
    Except FiberError (Nat × EventResponse) × DB :=
  match userID with
  | none => (.error { Code := 401, Message := "Unauthorized" }, s)
  | some userID =>
    match id with
    | none => (.error { Code := 400, Message := "Invalid event ID" }, s)
    | some id =>
      match body with
      | .error _ => (.error { Code := 400, Message := "Invalid request body" }, s)
      | .ok req =>
        if req.Name = "" ∨ IsZero req.StartTime ∨ IsZero req.EndTime ∨ req.Capacity ≤ 0 then
          (.error { Code := 400,
                    Message := "Name, start time, end time, and capacity are required" }, s)
        else if ¬ (req.EndTime > req.StartTime) then
          (.error { Code := 400, Message := "End time must be after start time" }, s)
        else
          match EventService.UpdateEvent s id req userID now with
          | (.error err, s1) => (.error { Code := 500, Message := err.Error }, s1)
          | (.ok event, s1) => (.ok (200, event), s1)

end EventController

/-! ## Further properties of states and calls -/

/-- The status of every event is one of the two the service writes. -/
def DB.StatusKnown (s : DB) : Prop :=
  ∀ ev ∈ s.events, ev.Status = "open" ∨ ev.Status = "closed"

/-- The call keeps the count of a user's active events at time `t` from
growing behind the back of the join guard: a `JoinEvent` reads the clock no
later than `t`, and an `UpdateEvent` does not move the end of an event that
has participant rows to a later time; no condition on the other
operations. -/
def Op.keepsQuota (t : Time) (s : DB) : Op → Prop
  | .JoinEvent _ _ now _ => now ≤ t
  | .UpdateEvent id req _ _ =>
    ∀ old, s.eventByID id = some old → req.EndTime ≤ old.EndTime ∨ s.participantCount id = 0
  | _ => True

/-- The number of participant rows of a user in events whose end time is
after `t`. -/
def DB.activeRows (s : DB) (userID : Int) (t : Time) : Nat :=
  s.participants.countP fun p =>
    p.UserID = userID ∧ s.events.any (fun e => e.ID = p.EventID ∧ e.EndTime > t)

/-! ## Further sample data -/

/-- A registration request of a third sample user. -/
def carolRequest : RegisterRequest :=
  { Username := "carol", Email := "carol@example.org", Password := "singing" }

/-- The request for the event of the end-to-end scenario: capacity one, from
one hour to two hours after `now`. -/
def scenarioRequest (now : Time) : EventRequest :=
  { Name := "E", Description := "", Location := "",
    StartTime := now + Hour, EndTime := now + 2 * Hour, Capacity := 1 }

/-- The end-to-end scenario: on the empty database user A registers (with
request `reqA`) and creates event E, users B and C register, and then B
joins, C joins, B leaves and C joins again.  Call number `k` reads the clock
as `clock k`; the ids are those the responses carry.  The value is the list of
the error results of the last four calls, or `none` when a registration or the
creation fails. -/
def endToEnd (bc : Bcrypt) (env : String) (reqA reqB reqC : RegisterRequest) (now : Time)
    (clock : Nat → Time) : Option (List (Option Error)) :=
  match AuthService.Register bc env DB.empty reqA 0 (clock 0) (clock 1) with
  | (.error _, _) => none
  | (.ok a, s1) =>
    match EventService.CreateEvent s1 (scenarioRequest now) a.User.ID (clock 2) with
    | (.error _, _) => none
    | (.ok e, s2) =>
      match AuthService.Register bc env s2 reqB 0 (clock 3) (clock 4) with
      | (.error _, _) => none
      | (.ok b, s3) =>
        match AuthService.Register bc env s3 reqC 0 (clock 5) (clock 6) with
        | (.error _, _) => none
        | (.ok c, s4) =>
          let r1 := ParticipantService.JoinEvent s4 b.User.ID e.ID (clock 7) (clock 8)
          let r2 := ParticipantService.JoinEvent r1.2 c.User.ID e.ID (clock 9) (clock 10)
          let r3 := ParticipantService.LeaveEvent r2.2 b.User.ID e.ID
          let r4 := ParticipantService.JoinEvent r3.2 c.User.ID e.ID (clock 11) (clock 12)
          some [r1.1, r2.1, r3.1, r4.1]

/-- A request for an event with the given start and end. -/
def talkRequest (start finish : Time) : EventRequest :=
  { Name := "talk", Description := "", Location := "hall",
    StartTime := start, EndTime := finish, Capacity := 10 }

/-- A run in which a user joins, at time 100, an event that ended at time 50
and five events that end at time 2000, and the organizer then moves the end of
the first event to time 3000. -/
def extendedRun : List Op :=
  [.Register aliceRequest 0 1 1,
   .CreateEvent (talkRequest 10 50) 1 2,
   .CreateEvent (talkRequest 1000 2000) 1 3,
   .CreateEvent (talkRequest 1000 2000) 1 4,
   .CreateEvent (talkRequest 1000 2000) 1 5,
   .CreateEvent (talkRequest 1000 2000) 1 6,
   .CreateEvent (talkRequest 1000 2000) 1 7,
   .JoinEvent 1 1 100 100, .JoinEvent 1 2 100 100, .JoinEvent 1 3 100 100,
   .JoinEvent 1 4 100 100, .JoinEvent 1 5 100 100, .JoinEvent 1 6 100 100,
   .UpdateEvent 1 (talkRequest 10 3000) 1 110]

/-- A token signed with the default secret by HS256 for user 7 that expires
at second 2000000000 and is not valid before second 1900000000. -/
def postdatedToken : Token :=
  { Method := some .HS256,
    Claims := [("id", .number 7), ("exp", .number 2000000000), ("nbf", .number 1900000000)],
    SignedWith := some "your-secret-key" }

/-! ## The authentication middleware -/

namespace strings

/-- `strings.HasPrefix(s, pre)` of Go's standard library. -/
def HasPrefix (s pre : String) : Bool :=
  pre.toList.isPrefixOf s.toList

/-- `strings.TrimPrefix(s, pre)` of Go's standard library: `s` without the
leading `pre`, or `s` itself when it does not start with `pre`. -/
def TrimPrefix (s pre : String) : String :=
  if HasPrefix s pre then String.mk (s.toList.drop pre.length) else s

end strings

/-- What the `Protected` middleware does with a request: it stores a user id
under the key `userID` of the request's locals and calls the next handler, it
returns a `*fiber.Error` without calling the next handler, or it panics. -/
inductive Guarded where
  | next (userID : Int)
  | error (e : FiberError)
  | panicked
deriving DecidableEq, Repr

namespace middleware

/-- The handler that `middleware.Protected` returns, on a request whose
`Authorization` header is `authorization` (empty when the header is absent).
`decode` is the reading of a token string as a token, the first step of
`jwt.Parse`; `parseTime` and `now` are the two clock readings of
`ValidateToken`. -/
def Protected (env : String) (decode : String → TokenString) (authorization : String)
    (parseTime now : Time) : Guarded :=
  if authorization = "" then
    .error { Code := 401, Message := "Unauthorized" }
  else if ¬ strings.HasPrefix authorization "Bearer " then
    .error { Code := 401, Message := "Invalid authorization format" }
  else
    let token := strings.TrimPrefix authorization "Bearer "
    match AuthService.ValidateToken env (decode token) parseTime now with
    | .error _ => .error { Code := 401, Message := "Invalid or expired token" }
    | .panicked => .panicked
    | .ok userID => .next userID

end middleware

/-! ## The protected event routes -/

/-- What a route does with a request: it answers, with a response or with the
`*fiber.Error` that becomes one, and leaves a database state, or it panics. -/
inductive Served (α : Type) where
  | answered (r : Except FiberError α) (s : DB)
  | panicked
deriving DecidableEq, Repr

namespace routes

/-- The route `events.Post("/", protectedMiddleware, eventController.CreateEvent)`
of `SetupRoutes`: the middleware runs first, and the handler runs only when
the middleware calls it, with the user id the middleware has stored under
`userID`.  The first five arguments are those of the middleware. -/
def CreateEvent (env : String) (decode : String → TokenString) (authorization : String)
    (parseTime tokenNow : Time) (s : DB) (body : Except String EventRequest) (now : Time) :
    Served (Nat × EventResponse) :=
  match middleware.Protected env decode authorization parseTime tokenNow with
  | .error e => .answered (.error e) s
  | .panicked => .panicked
  | .next userID =>
    let r := EventController.CreateEvent s (some userID) body now
    .answered r.1 r.2

/-- The route `events.Put("/:id<int>", protectedMiddleware,
eventController.UpdateEvent)` of `SetupRoutes`. -/
def UpdateEvent (env : String) (decode : String → TokenString) (authorization : String)
    (parseTime tokenNow : Time) (s : DB) (id : Option Int) (body : Except String EventRequest)
    (now : Time) : Served (Nat × EventResponse) :=
  match middleware.Protected env decode authorization parseTime tokenNow with
  | .error e => .answered (.error e) s
  | .panicked => .panicked
  | .next userID =>
    let r := EventController.UpdateEvent s (some userID) id body now
    .answered r.1 r.2

end routes

/-! ## The registration handler -/

namespace AuthController

/-- `AuthController.Register`.  `body` is what `BodyParser` makes of the
request body (`none` when it fails); a result `ok (code, r)` is the response
with status `code` and JSON `r`.  The clock readings and the salt are those of
`AuthService.Register`. -/
def Register (bc : Bcrypt) (env : String) (s : DB) (body : Option RegisterRequest) (salt : Nat)
    (now tokenTime : Time) : Except FiberError (Nat × TokenResponse) × DB :=
  match body with
  | none => (.error { Code := 400, Message := "Invalid request body" }, s)
  | some req =>
    if req.Username = "" ∨ req.Email = "" ∨ req.Password = "" then
      (.error { Code := 400, Message := "Username, email, and password are required" }, s)
    else
      match AuthService.Register bc env s req salt now tokenTime with
      | (.error err, s1) => (.error { Code := 400, Message := err.Error }, s1)
      | (.ok response, s1) => (.ok (201, response), s1)

end AuthController

/-! ## The error handler -/

/-- An error value as a handler hands it to Fiber: a `*fiber.Error`, or an
error of any other type, of which only the text of its `Error()` matters. -/
inductive HandlerError where
  | fiber (e : FiberError)
  | other (message : String)
deriving DecidableEq, Repr

set_option linter.dupNamespace false in
/-- The text `err.Error()`; for a `*fiber.Error` it is the message. -/
def HandlerError.Error : HandlerError → String
  | .fiber e => e.Message
  | .other message => message

/-- The JSON object `fiber.Map{"error": ..., "message": ...}`. -/
structure ErrorBody where
  error : Bool
  message : String
deriving DecidableEq, Repr

/-- The response as the error handler leaves it: the status code the response
carries and the body set with `c.JSON`. -/
structure ErrorReply where
  Status : Int
  Body : ErrorBody
deriving DecidableEq, Repr

/-- The status code of a fasthttp response in which `SetStatusCode` has stored
`statusCode` (`ResponseHeader.StatusCode`): a stored zero is the unset value
and reads as `200`. -/
def fasthttp.StatusCode (statusCode : Int) : Int :=
  if statusCode = 0 then 200 else statusCode

namespace config

/-- `config.ErrorHandler`: `c.Status(code)` stores the code in the fasthttp
response, `c.JSON` sets the body. -/
def ErrorHandler (err : HandlerError) : ErrorReply :=
  let code : Int :=
    match err with
    | .fiber e => e.Code
    | .other _ => 500
  { Status := fasthttp.StatusCode code, Body := { error := true, message := err.Error } }

end config

/-! ## An event with its participants -/

/-- The response `models.EventWithParticipantsResponse`. -/
structure EventWithParticipantsResponse where
  Event : EventResponse
  Participants : List UserResponse
deriving DecidableEq, Repr

/-- `EventRepository.GetParticipantsByEventID`: the rows of
`SELECT u.id, u.username, u.email, u.created_at FROM users u
 JOIN participants p ON u.id = p.user_id WHERE p.event_id = $1`,
one for every pair of a user row and a participant row that join, each scanned
into a `UserResponse`.  The query has no `ORDER BY`; the rows come in the
order of the users. -/
def EventRepository.GetParticipantsByEventID (s : DB) (eventID : Int) :
    Except Error (List UserResponse) :=
  .ok (s.users.flatMap fun u =>
    (s.participants.filter fun p => u.ID = p.UserID ∧ p.EventID = eventID).map fun _ =>
      { ID := u.ID, Username := u.Username, Email := u.Email, CreatedAt := u.CreatedAt })

/-- `EventService.GetEventWithParticipants`. -/
def EventService.GetEventWithParticipants (s : DB) (id organizerID : Int) :
    Except Error EventWithParticipantsResponse :=
  match EventRepository.GetByID s id with
  | .error e => .error e
  | .ok event =>
    if event.OrganizerID ≠ organizerID then
      .error (.new "you are not the organizer of this event")
    else
      match EventRepository.GetParticipantsByEventID s id with
      | .error e => .error e
      | .ok participants => .ok { Event := event.toResponse, Participants := participants }

/-! ## Properties of states and libraries used by the later results -/

/-- The three tables of `s1` hold the same rows as those of `s`. -/
def DB.SameTables (s s1 : DB) : Prop :=
  s1.users = s.users ∧ s1.events = s.events ∧ s1.participants = s.participants

/-- What the program relies on from bcrypt: a hash the library made matches
the password it was made from, and it is not that password itself. -/
structure Bcrypt.Sound (bc : Bcrypt) : Prop where
  compare_generated : ∀ password salt hash,
    bc.GenerateFromPassword password salt = some hash →
      bc.CompareHashAndPassword hash password = true
  hash_ne_password : ∀ password salt hash,
    bc.GenerateFromPassword password salt = some hash → hash ≠ password

/-! ## Sample data for the middleware, the handlers and the token check -/

/-- A token signed with the default secret by HS256 for user 7 that carries
no `exp` claim. -/
def tokenWithoutExp : Token :=
  { Method := some .HS256, Claims := [("id", .number 7)],
    SignedWith := some "your-secret-key" }

/-- A token signed with the default secret by HS256 that expires at second
2000000000 and carries no `id` claim. -/
def tokenWithoutID : Token :=
  { Method := some .HS256, Claims := [("exp", .number 2000000000)],
    SignedWith := some "your-secret-key" }

/-- A token signed with the default secret by HS256 that expires at second
2000000000 and whose `id` claim is a string. -/
def tokenWithTextID : Token :=
  { Method := some .HS256, Claims := [("id", .string "7"), ("exp", .number 2000000000)],
    SignedWith := some "your-secret-key" }

/-- A token signed with the default secret by HS256 for user 7 that expires
at second 2000000000. -/
def goodToken : Token :=
  { Method := some .HS256, Claims := [("id", .number 7), ("exp", .number 2000000000)],
    SignedWith := some "your-secret-key" }

/-- A token signed with the default secret by HS256 whose `id` claim is
`2 ^ 53 + 1` and that expires at second 2000000000. -/
def tokenWithBigID : Token :=
  { Method := some .HS256,
    Claims := [("id", .number 9007199254740993), ("exp", .number 2000000000)],
    SignedWith := some "your-secret-key" }

/-- A token signed with the default secret by HS256 whose `id` claim is the
number 7.5 and that expires at second 2000000000. -/
def tokenWithFractionID : Token :=
  { Method := some .HS256,
    Claims := [("id", .number (15 / 2)), ("exp", .number 2000000000)],
    SignedWith := some "your-secret-key" }

/-- A token signed with the default secret by HS256 for user 7 that expires
at second `2 ^ 53`. -/
def tokenAtPrecisionEdge : Token :=
  { Method := some .HS256,
    Claims := [("id", .number 7), ("exp", .number 9007199254740992)],
    SignedWith := some "your-secret-key" }

/-- A token signed with the default secret by HS256 for user 7 that expires
at second `2 ^ 53 + 1`. -/
def tokenBeyondPrecision : Token :=
  { Method := some .HS256,
    Claims := [("id", .number 7), ("exp", .number 9007199254740993)],
    SignedWith := some "your-secret-key" }

/-- A token signed with the default secret by HS256 for user 7 that expires
at second 2000000000 and carries a further claim with the number `2 ^ 1024`. -/
def tokenOutOfRange : Token :=
  { Method := some .HS256,
    Claims := [("id", .number 7), ("exp", .number 2000000000),
               ("weight", .number (2 ^ (1024 : ℕ)))],
    SignedWith := some "your-secret-key" }

/-- A stand-in for the decoding of token strings: four strings name the four
sample tokens, every other string is malformed. -/
def sampleDecode (tokenString : String) : TokenString :=
  if tokenString = "good" then .compact goodToken
  else if tokenString = "no-exp" then .compact tokenWithoutExp
  else if tokenString = "no-id" then .compact tokenWithoutID
  else if tokenString = "text-id" then .compact tokenWithTextID
  else .malformed

/-- A registration request with a username of two characters. -/
def shortNameRequest : RegisterRequest :=
  { Username := "ab", Email := "ab@example.org", Password := "secret1" }

/-- A registration request with a password of five characters. -/
def shortPasswordRequest : RegisterRequest :=
  { Username := "carol", Email := "carol@example.org", Password := "12345" }

/-- The sample state after the second sample user has joined the sample
event. -/
def joinedDB : DB :=
  { sampleDB with
    participants := [{ ID := 1, UserID := 2, EventID := 1, JoinedAt := 40 }],
    participantsSeq := 1 }

/-! ## Basic facts about the database statements -/

theorem DB.empty_valid : DB.empty.Valid := by
  constructor <;> simp [DB.empty]

theorem sampleDB_valid : sampleDB.Valid := by
  constructor <;> simp [sampleDB, alice, bob, picnic, DB.hasUser, DB.hasEvent]

theorem DB.eventByID_hasEvent {s : DB} {id : Int} {ev : Event}
    (h : s.eventByID id = some ev) : s.hasEvent id = true := by
  unfold DB.eventByID at h
  have hm := List.mem_of_find?_eq_some h
  have hp := List.find?_some h
  simp only [DB.hasEvent, List.any_eq_true]
  exact ⟨ev, hm, hp⟩

theorem DB.eventByID_id {s : DB} {id : Int} {ev : Event}
    (h : s.eventByID id = some ev) : ev.ID = id := by
  unfold DB.eventByID at h
  simpa using List.find?_some h

theorem DB.participantRow_none {s : DB} {userID eventID : Int}
    (h : s.participantRow userID eventID = none) :
    s.participants.any (fun p => p.UserID = userID ∧ p.EventID = eventID) = false := by
  unfold DB.participantRow at h
  rw [List.find?_eq_none] at h
  rw [Bool.eq_false_iff]
  intro hany
  obtain ⟨p, hp, hq⟩ := List.any_eq_true.mp hany
  exact h p hp hq

/-- In a valid state the primary key of `participants` accepts the next id. -/
theorem DB.Valid.next_participant_fresh {s : DB} (hs : s.Valid) :
    s.participants.any (fun p => p.ID = s.participantsSeq + 1) = false := by
  rw [Bool.eq_false_iff]
  intro hany
  obtain ⟨p, hp, hq⟩ := List.any_eq_true.mp hany
  have := hs.participants_seq p hp
  simp at hq
  omega

/-- The insert of a participant row succeeds in a valid state when the pair is
new and both referenced rows exist. -/
theorem DB.insertParticipant_ok {s : DB} (hs : s.Valid) {userID eventID : Int} (joinedAt : Time)
    (hrow : s.participantRow userID eventID = none) (hu : s.hasUser userID = true)
    (he : s.hasEvent eventID = true) :
    s.insertParticipant userID eventID joinedAt =
      (.ok (s.participantsSeq + 1),
        { s with
          participantsSeq := s.participantsSeq + 1,
          participants := s.participants ++
            [{ ID := s.participantsSeq + 1, UserID := userID, EventID := eventID,
               JoinedAt := joinedAt }] }) := by
  simp only [DB.insertParticipant, hs.next_participant_fresh, DB.participantRow_none hrow, hu, he]
  simp

/-- The insert of a participant row fails on the foreign key when the user
does not exist (and the pair is new, in a valid state). -/
theorem DB.insertParticipant_no_user {s : DB} (hs : s.Valid) {userID eventID : Int}
    (joinedAt : Time) (hrow : s.participantRow userID eventID = none)
    (hu : s.hasUser userID = false) :
    s.insertParticipant userID eventID joinedAt =
      (.error (.storage (.foreignKeyViolation "participants_user_id_fkey")),
        { s with participantsSeq := s.participantsSeq + 1 }) := by
  simp only [DB.insertParticipant, hs.next_participant_fresh, DB.participantRow_none hrow, hu]
  simp

/-! ## Joining an event -/

/-- When every guard passes, `JoinEvent` is the insert. -/
theorem ParticipantRepository.JoinEvent_of_guards {s : DB} {userID eventID : Int} {now : Time}
    (insertTime : Time) (h : JoinGuardsPass s userID eventID now) :
    ParticipantRepository.JoinEvent s userID eventID now insertTime =
      match s.insertParticipant userID eventID insertTime with
      | (.error e, s1) => (some e, s1)
      | (.ok _, s1) => (none, s1) := by
  obtain ⟨ev, hev, hopen, hcap, hrow, hact⟩ := h
  simp only [ParticipantRepository.JoinEvent, hev, hopen, hrow]
  simp [not_le.mpr hcap, Nat.not_le.mpr hact]

/-- C1 (as amended): `JoinEvent` checks its five guards in the stated order
and returns the error of the first that fails; in a state that satisfies the
schema it returns no error exactly when no guard fails and the user exists,
and when no guard fails and the user does not exist it returns the error of
the foreign key on `user_id`. -/
theorem JoinEvent_guard_order (s : DB) (hs : s.Valid) (userID eventID : Int)
    (now insertTime : Time) :
    (s.eventByID eventID = none →
      (ParticipantService.JoinEvent s userID eventID now insertTime).1 =
        some (.new "event not found")) ∧
    (∀ ev, s.eventByID eventID = some ev → ev.Status ≠ "open" →
      (ParticipantService.JoinEvent s userID eventID now insertTime).1 =
        some (.new "event is not open for registration")) ∧
    (∀ ev, s.eventByID eventID = some ev → ev.Status = "open" →
      (s.participantCount eventID : Int) ≥ ev.Capacity →
      (ParticipantService.JoinEvent s userID eventID now insertTime).1 =
        some (.new "event is at full capacity")) ∧
    (∀ ev, s.eventByID eventID = some ev → ev.Status = "open" →
      (s.participantCount eventID : Int) < ev.Capacity →
      (∃ p ∈ s.participants, p.UserID = userID ∧ p.EventID = eventID) →
      (ParticipantService.JoinEvent s userID eventID now insertTime).1 =
        some (.new "user is already a participant of this event")) ∧
    (∀ ev, s.eventByID eventID = some ev → ev.Status = "open" →
      (s.participantCount eventID : Int) < ev.Capacity →
      (¬ ∃ p ∈ s.participants, p.UserID = userID ∧ p.EventID = eventID) →
      s.activeEventsCount userID now ≥ 5 →
      (ParticipantService.JoinEvent s userID eventID now insertTime).1 =
        some (.new "user has reached the maximum number of active events")) ∧
    ((ParticipantService.JoinEvent s userID eventID now insertTime).1 = none ↔
      JoinGuardsPass s userID eventID now ∧ s.hasUser userID = true) ∧
    (JoinGuardsPass s userID eventID now → s.hasUser userID = false →
      (ParticipantService.JoinEvent s userID eventID now insertTime).1 =
        some (.storage (.foreignKeyViolation "participants_user_id_fkey"))) := by
  refine ⟨?_, ?_, ?_, ?_, ?_, ?_, ?_⟩
  rotate_right
  · intro hg hu
    obtain ⟨ev, hev, -, -, hrow, -⟩ := id hg
    rw [ParticipantService.JoinEvent, ParticipantRepository.JoinEvent_of_guards insertTime hg,
      DB.insertParticipant_no_user hs insertTime hrow hu]
  · intro h
    simp [ParticipantService.JoinEvent, ParticipantRepository.JoinEvent, h]
  · intro ev h hst
    simp [ParticipantService.JoinEvent, ParticipantRepository.JoinEvent, h, hst]
  · intro ev h hst hcap
    simp [ParticipantService.JoinEvent, ParticipantRepository.JoinEvent, h, hst, hcap]
  · intro ev h hst hcap hrow
    have hsome : (s.participantRow userID eventID).isSome = true := by
      simpa [DB.participantRow] using hrow
    simp [ParticipantService.JoinEvent, ParticipantRepository.JoinEvent, h, hst,
      not_le.mpr hcap, hsome]
  · intro ev h hst hcap hrow hact
    have hnone : s.participantRow userID eventID = none := by
      simpa [DB.participantRow] using hrow
    simp [ParticipantService.JoinEvent, ParticipantRepository.JoinEvent, h, hst,
      not_le.mpr hcap, hnone, hact]
  · constructor
    · intro hr
      simp only [ParticipantService.JoinEvent, ParticipantRepository.JoinEvent] at hr
      cases hev : s.eventByID eventID with
      | none => simp [hev] at hr
      | some ev =>
        simp only [hev] at hr
        split_ifs at hr with h1 h2 h3 h4
        simp only [DB.insertParticipant] at hr
        split_ifs at hr with h5 h6 h7 h8
        refine ⟨⟨ev, hev, ?_, ?_, ?_, ?_⟩, ?_⟩
        · simpa using h1
        · simpa using h2
        · simpa using h3
        · simpa using h4
        · simpa using h7
    · rintro ⟨hg, hu⟩
      obtain ⟨ev, hev, -, -, hrow, -⟩ := id hg
      rw [ParticipantService.JoinEvent, ParticipantRepository.JoinEvent_of_guards insertTime hg,
        DB.insertParticipant_ok hs insertTime hrow hu (DB.eventByID_hasEvent hev)]

/-- C1, the claim as stated fails: in the sample state no guard fails for the
unknown user 7 and the open event 1, yet `JoinEvent` returns the error of the
foreign key on `user_id`. -/
theorem JoinEvent_unknown_user_rejected :
    sampleDB.Valid ∧ JoinGuardsPass sampleDB 7 1 0 ∧
    (ParticipantService.JoinEvent sampleDB 7 1 0 0).1 =
      some (.storage (.foreignKeyViolation "participants_user_id_fkey")) := by
  refine ⟨sampleDB_valid, ⟨picnic, by decide, by decide, by decide, by decide, by decide⟩, ?_⟩
  decide

/-- C1, the amended statement at the sample state: the known user 2 joins
the open event 1. -/
theorem JoinEvent_guard_order_witness :
    (ParticipantService.JoinEvent sampleDB 2 1 0 0).1 = none :=
  (JoinEvent_guard_order sampleDB sampleDB_valid 2 1 0 0).2.2.2.2.2.1.mpr
    ⟨⟨picnic, by decide, by decide, by decide, by decide, by decide⟩, by decide⟩

/-! ## The schema is preserved by every statement -/

theorem DB.hasUser_iff {s : DB} {id : Int} : s.hasUser id = true ↔ ∃ u ∈ s.users, u.ID = id := by
  simp [DB.hasUser]

theorem DB.hasEvent_iff {s : DB} {id : Int} :
    s.hasEvent id = true ↔ ∃ e ∈ s.events, e.ID = id := by
  simp [DB.hasEvent]

theorem DB.insertUser_valid {s : DB} (hs : s.Valid) (username email password : String)
    (createdAt updatedAt : Time) :
    (s.insertUser username email password createdAt updatedAt).2.Valid := by
  have hseq : ∀ u ∈ s.users, u.ID ≤ s.usersSeq + 1 := fun u hu => by
    have := hs.users_seq u hu; omega
  unfold DB.insertUser
  simp only []
  split_ifs with h1 h2 h3
  · exact { hs with users_seq := hseq }
  · exact { hs with users_seq := hseq }
  · exact { hs with users_seq := hseq }
  · simp only [List.any_eq_true, decide_eq_true_eq, not_exists, not_and] at h1 h2 h3
    have hmono : ∀ id, s.hasUser id = true →
        DB.hasUser { s with usersSeq := s.usersSeq + 1, users := s.users ++
          [{ ID := s.usersSeq + 1, Username := username, Email := email, Password := password,
             CreatedAt := createdAt, UpdatedAt := updatedAt }] } id = true := by
      intro id h
      rw [DB.hasUser_iff] at h ⊢
      obtain ⟨u, hu, hid⟩ := h
      exact ⟨u, List.mem_append_left _ hu, hid⟩
    refine { hs with users_pkey := ?_, users_seq := ?_, users_username_key := ?_,
                     users_email_key := ?_, events_organizer_id_fkey := ?_,
                     participants_user_id_fkey := ?_ }
    · simp only [List.pairwise_append, List.pairwise_cons, List.Pairwise.nil, List.mem_singleton]
      exact ⟨hs.users_pkey, by simp, fun a ha b hb => by subst hb; exact h1 a ha⟩
    · intro u hu
      simp only [List.mem_append, List.mem_singleton] at hu
      rcases hu with hu | rfl
      · exact hseq u hu
      · exact le_refl _
    · simp only [List.pairwise_append, List.pairwise_cons, List.Pairwise.nil, List.mem_singleton]
      exact ⟨hs.users_username_key, by simp, fun a ha b hb => by subst hb; exact h2 a ha⟩
    · simp only [List.pairwise_append, List.pairwise_cons, List.Pairwise.nil, List.mem_singleton]
      exact ⟨hs.users_email_key, by simp, fun a ha b hb => by subst hb; exact h3 a ha⟩
    · intro e he
      exact hmono _ (hs.events_organizer_id_fkey e he)
    · intro p hp
      exact hmono _ (hs.participants_user_id_fkey p hp)

theorem DB.insertEvent_valid {s : DB} (hs : s.Valid) (ev : Event) :
    (s.insertEvent ev).2.Valid := by
  have hseq : ∀ e ∈ s.events, e.ID ≤ s.eventsSeq + 1 := fun e he => by
    have := hs.events_seq e he; omega
  unfold DB.insertEvent
  simp only []
  split_ifs with h1 h2 h3 h4
  · exact { hs with events_seq := hseq }
  · exact { hs with events_seq := hseq }
  rotate_left
  · exact { hs with events_seq := hseq }
  · exact { hs with events_seq := hseq }
  · simp only [List.any_eq_true, decide_eq_true_eq, not_exists, not_and] at h3
    simp only [Bool.not_eq_true, Bool.not_eq_eq_eq_not, Bool.not_false, Bool.not_true,
      Bool.not_eq_false] at h4
    have hmono : ∀ id, s.hasEvent id = true →
        DB.hasEvent { s with eventsSeq := s.eventsSeq + 1, events := s.events ++
          [{ ev with ID := s.eventsSeq + 1 }] } id = true := by
      intro id h
      rw [DB.hasEvent_iff] at h ⊢
      obtain ⟨e, he, hid⟩ := h
      exact ⟨e, List.mem_append_left _ he, hid⟩
    refine { hs with events_pkey := ?_, events_seq := ?_, check_capacity := ?_,
                     check_time := ?_, events_organizer_id_fkey := ?_,
                     participants_event_id_fkey := ?_ }
    · simp only [List.pairwise_append, List.pairwise_cons, List.Pairwise.nil, List.mem_singleton]
      exact ⟨hs.events_pkey, by simp, fun a ha b hb => by subst hb; exact h3 a ha⟩
    · intro e he
      simp only [List.mem_append, List.mem_singleton] at he
      rcases he with he | rfl
      · exact hseq e he
      · exact le_refl _
    · intro e he
      simp only [List.mem_append, List.mem_singleton] at he
      rcases he with he | rfl
      · exact hs.check_capacity e he
      · exact h1
    · intro e he
      simp only [List.mem_append, List.mem_singleton] at he
      rcases he with he | rfl
      · exact hs.check_time e he
      · exact h2
    · intro e he
      simp only [List.mem_append, List.mem_singleton] at he
      rcases he with he | rfl
      · exact hs.events_organizer_id_fkey e he
      · exact h4
    · intro p hp
      exact hmono _ (hs.participants_event_id_fkey p hp)

theorem DB.updateEvent_valid {s : DB} (hs : s.Valid) (ev : Event) :
    (s.updateEvent ev).2.Valid := by
  unfold DB.updateEvent
  split
  · exact hs
  · split_ifs with h1 h2
    rotate_left
    · exact hs
    · exact hs
    · have hid : ∀ e : Event,
          (if e.ID = ev.ID ∧ e.OrganizerID = ev.OrganizerID then e.assign ev else e).ID = e.ID := by
        intro e; split_ifs <;> rfl
      have horg : ∀ e : Event,
          (if e.ID = ev.ID ∧ e.OrganizerID = ev.OrganizerID then e.assign ev else e).OrganizerID
            = e.OrganizerID := by
        intro e; split_ifs <;> rfl
      refine { hs with events_pkey := ?_, events_seq := ?_, check_capacity := ?_,
                       check_time := ?_, events_organizer_id_fkey := ?_,
                       participants_event_id_fkey := ?_ }
      · simp only [List.pairwise_map, hid]
        exact hs.events_pkey
      · intro e he
        obtain ⟨e0, he0, rfl⟩ := List.mem_map.mp he
        rw [hid]
        exact hs.events_seq e0 he0
      · intro e he
        obtain ⟨e0, he0, rfl⟩ := List.mem_map.mp he
        split_ifs
        · exact h1
        · exact hs.check_capacity e0 he0
      · intro e he
        obtain ⟨e0, he0, rfl⟩ := List.mem_map.mp he
        split_ifs
        · exact h2
        · exact hs.check_time e0 he0
      · intro e he
        obtain ⟨e0, he0, rfl⟩ := List.mem_map.mp he
        rw [horg]
        exact hs.events_organizer_id_fkey e0 he0
      · intro p hp
        have h := hs.participants_event_id_fkey p hp
        rw [DB.hasEvent_iff] at h ⊢
        obtain ⟨e, he, hpid⟩ := h
        exact ⟨_, List.mem_map.mpr ⟨e, he, rfl⟩, by rw [hid]; exact hpid⟩

theorem DB.deleteEvent_valid {s : DB} (hs : s.Valid) (id organizerID : Int) :
    (s.deleteEvent id organizerID).2.Valid := by
  unfold DB.deleteEvent
  split
  · exact hs
  · split_ifs with h1
    · exact hs
    · simp only [List.any_eq_true, decide_eq_true_eq, not_exists, not_and] at h1
      refine { hs with events_pkey := ?_, events_seq := ?_, check_capacity := ?_,
                       check_time := ?_, events_organizer_id_fkey := ?_,
                       participants_event_id_fkey := ?_ }
      · exact hs.events_pkey.sublist (List.filter_sublist _)
      · intro e he
        exact hs.events_seq e (List.mem_of_mem_filter he)
      · intro e he
        exact hs.check_capacity e (List.mem_of_mem_filter he)
      · intro e he
        exact hs.check_time e (List.mem_of_mem_filter he)
      · intro e he
        exact hs.events_organizer_id_fkey e (List.mem_of_mem_filter he)
      · intro p hp
        have h := hs.participants_event_id_fkey p hp
        rw [DB.hasEvent_iff] at h ⊢
        obtain ⟨e, he, hpid⟩ := h
        refine ⟨e, List.mem_filter.mpr ⟨he, ?_⟩, hpid⟩
        have hne : e.ID ≠ id := fun heq => h1 p hp (hpid.symm ▸ heq)
        simp [hne]

theorem DB.insertParticipant_valid {s : DB} (hs : s.Valid) (userID eventID : Int)
    (joinedAt : Time) : (s.insertParticipant userID eventID joinedAt).2.Valid := by
  have hseq : ∀ p ∈ s.participants, p.ID ≤ s.participantsSeq + 1 := fun p hp => by
    have := hs.participants_seq p hp; omega
  unfold DB.insertParticipant
  simp only []
  split_ifs with h1 h2 h3 h4
  · exact { hs with participants_seq := hseq }
  · exact { hs with participants_seq := hseq }
  · exact { hs with participants_seq := hseq }
  · exact { hs with participants_seq := hseq }
  · simp only [List.any_eq_true, decide_eq_true_eq, not_exists, not_and] at h1 h2
    simp only [Bool.not_eq_true, Bool.not_eq_eq_eq_not, Bool.not_false, Bool.not_true,
      Bool.not_eq_false] at h3 h4
    refine { hs with participants_pkey := ?_, participants_seq := ?_, unique_participant := ?_,
                     participants_user_id_fkey := ?_, participants_event_id_fkey := ?_ }
    · simp only [List.pairwise_append, List.pairwise_cons, List.Pairwise.nil, List.mem_singleton]
      exact ⟨hs.participants_pkey, by simp, fun a ha b hb => by subst hb; exact h1 a ha⟩
    · intro p hp
      simp only [List.mem_append, List.mem_singleton] at hp
      rcases hp with hp | rfl
      · exact hseq p hp
      · exact le_refl _
    · simp only [List.pairwise_append, List.pairwise_cons, List.Pairwise.nil, List.mem_singleton]
      exact ⟨hs.unique_participant, by simp,
        fun a ha b hb => by subst hb; exact fun h => h2 a ha h.1 h.2⟩
    · intro p hp
      simp only [List.mem_append, List.mem_singleton] at hp
      rcases hp with hp | rfl
      · exact hs.participants_user_id_fkey p hp
      · exact h3
    · intro p hp
      simp only [List.mem_append, List.mem_singleton] at hp
      rcases hp with hp | rfl
      · exact hs.participants_event_id_fkey p hp
      · exact h4

theorem DB.deleteParticipant_valid {s : DB} (hs : s.Valid) (userID eventID : Int) :
    (s.deleteParticipant userID eventID).2.Valid := by
  unfold DB.deleteParticipant
  split
  · exact hs
  · refine { hs with participants_pkey := ?_, participants_seq := ?_, unique_participant := ?_,
                     participants_user_id_fkey := ?_, participants_event_id_fkey := ?_ }
    · exact hs.participants_pkey.sublist (List.filter_sublist _)
    · intro p hp
      exact hs.participants_seq p (List.mem_of_mem_filter hp)
    · exact hs.unique_participant.sublist (List.filter_sublist _)
    · intro p hp
      exact hs.participants_user_id_fkey p (List.mem_of_mem_filter hp)
    · intro p hp
      exact hs.participants_event_id_fkey p (List.mem_of_mem_filter hp)

/-! ## The state a service call leaves behind -/

theorem UserRepository.createUser_state (s : DB) (user : User) (now : Time) :
    (UserRepository.Create s user now).2 =
      (s.insertUser user.Username user.Email user.Password now now).2 := by
  unfold UserRepository.Create
  simp only []
  split <;> simp [*]

theorem AuthService.Register_state (bc : Bcrypt) (env : String) (s : DB) (req : RegisterRequest)
    (salt : Nat) (now tokenTime : Time) :
    (AuthService.Register bc env s req salt now tokenTime).2 = s ∨
    ∃ hashedPassword, bc.GenerateFromPassword req.Password salt = some hashedPassword ∧
      (AuthService.Register bc env s req salt now tokenTime).2 =
        (s.insertUser req.Username req.Email hashedPassword now now).2 := by
  unfold AuthService.Register
  split
  · exact Or.inl rfl
  · split
    · exact Or.inl rfl
    · split
      · exact Or.inl rfl
      · rename_i hashedPassword hgen
        refine Or.inr ⟨hashedPassword, hgen, ?_⟩
        have hc := UserRepository.createUser_state s (AuthService.newUser req hashedPassword) now
        split
        · rename_i h
          rw [h] at hc
          exact hc
        · rename_i h
          rw [h] at hc
          simpa only [AuthService.generateToken] using hc

theorem EventRepository.createEvent_state (s : DB) (event : Event) (now : Time) :
    (EventRepository.Create s event now).2 =
      (s.insertEvent (EventRepository.stamped event now)).2 := by
  unfold EventRepository.Create
  simp only []
  split <;> simp [*]

theorem EventService.CreateEvent_state (s : DB) (req : EventRequest) (organizerID : Int)
    (now : Time) :
    (EventService.CreateEvent s req organizerID now).2 =
      (s.insertEvent (EventRepository.stamped (EventService.newEvent req organizerID) now)).2 := by
  have hc := EventRepository.createEvent_state s (EventService.newEvent req organizerID) now
  unfold EventService.CreateEvent
  split
  · rename_i h
    rw [h] at hc
    exact hc
  · rename_i h
    rw [h] at hc
    exact hc

theorem EventRepository.Update_state (s : DB) (event : Event) (now : Time) :
    (EventRepository.Update s event now).2 = (s.updateEvent { event with UpdatedAt := now }).2 := by
  unfold EventRepository.Update
  simp only []
  split <;> simp [*]

theorem EventRepository.Delete_state (s : DB) (id organizerID : Int) :
    (EventRepository.Delete s id organizerID).2 = s ∨
    (s.participantCount id = 0 ∧
      (EventRepository.Delete s id organizerID).2 = (s.deleteEvent id organizerID).2) := by
  unfold EventRepository.Delete
  split_ifs with h
  · exact Or.inl rfl
  · refine Or.inr ⟨by omega, ?_⟩
    split <;> simp [*]

theorem ParticipantRepository.JoinEvent_state (s : DB) (userID eventID : Int)
    (now insertTime : Time) :
    (ParticipantRepository.JoinEvent s userID eventID now insertTime).2 = s ∨
    (JoinGuardsPass s userID eventID now ∧
      (ParticipantRepository.JoinEvent s userID eventID now insertTime).2 =
        (s.insertParticipant userID eventID insertTime).2) := by
  by_cases hg : JoinGuardsPass s userID eventID now
  · refine Or.inr ⟨hg, ?_⟩
    rw [ParticipantRepository.JoinEvent_of_guards insertTime hg]
    split <;> simp [*]
  · left
    unfold ParticipantRepository.JoinEvent
    split
    · rfl
    · rename_i ev hev
      split_ifs with h1 h2 h3 h4
      · rfl
      · rfl
      · rfl
      · rfl
      · exfalso
        apply hg
        refine ⟨ev, hev, by simpa using h1, by simpa using h2, by simpa using h3, by simpa using h4⟩

theorem ParticipantRepository.LeaveEvent_state (s : DB) (userID eventID : Int) :
    (ParticipantRepository.LeaveEvent s userID eventID).2 =
      (s.deleteParticipant userID eventID).2 := by
  unfold ParticipantRepository.LeaveEvent
  split
  · rename_i h
    simp [DB.deleteParticipant, h]
  · split <;> simp [*]

theorem EventService.UpdateEvent_state (s : DB) (id : Int) (req : EventRequest)
    (organizerID : Int) (now : Time) :
    (EventService.UpdateEvent s id req organizerID now).2 = s ∨
    ∃ old : Event, s.eventByID id = some old ∧ old.OrganizerID = organizerID ∧
      (EventService.UpdateEvent s id req organizerID now).2 =
        (s.updateEvent
          { old with
            Name := req.Name, Description := req.Description, Location := req.Location,
            StartTime := req.StartTime, EndTime := req.EndTime, Capacity := req.Capacity,
            UpdatedAt := now }).2 := by
  unfold EventService.UpdateEvent EventRepository.GetByID
  cases hev : s.eventByID id with
  | none => exact Or.inl rfl
  | some old =>
    simp only []
    split_ifs with horg
    · exact Or.inl rfl
    · refine Or.inr ⟨old, rfl, not_not.mp horg, ?_⟩
      have hu := EventRepository.Update_state s
        { old with
          Name := req.Name, Description := req.Description, Location := req.Location,
          StartTime := req.StartTime, EndTime := req.EndTime, Capacity := req.Capacity } now
      split
      · rename_i h
        rw [h] at hu
        exact hu
      · rename_i h
        rw [h] at hu
        exact hu

theorem EventService.CloseEvent_state (s : DB) (organizerID eventID : Int) (now : Time) :
    (EventService.CloseEvent s organizerID eventID now).2 = s ∨
    ∃ old : Event, s.eventByID eventID = some old ∧ old.OrganizerID = organizerID ∧
      (EventService.CloseEvent s organizerID eventID now).2 =
        (s.updateEvent { old with Status := "closed", UpdatedAt := now }).2 := by
  unfold EventService.CloseEvent EventRepository.GetByID
  cases hev : s.eventByID eventID with
  | none => exact Or.inl rfl
  | some old =>
    simp only []
    split_ifs with horg hst
    · exact Or.inl rfl
    · exact Or.inl rfl
    · refine Or.inr ⟨old, rfl, not_not.mp horg, ?_⟩
      have hu := EventRepository.Update_state s { old with Status := "closed" } now
      split
      · rename_i h
        rw [h] at hu
        exact hu
      · rename_i h
        rw [h] at hu
        exact hu

theorem EventService.OpenEvent_state (s : DB) (organizerID eventID : Int) (now : Time) :
    (EventService.OpenEvent s organizerID eventID now).2 = s ∨
    ∃ old : Event, s.eventByID eventID = some old ∧ old.OrganizerID = organizerID ∧
      (EventService.OpenEvent s organizerID eventID now).2 =
        (s.updateEvent { old with Status := "open", UpdatedAt := now }).2 := by
  unfold EventService.OpenEvent EventRepository.GetByID
  cases hev : s.eventByID eventID with
  | none => exact Or.inl rfl
  | some old =>
    simp only []
    split_ifs with horg hst
    · exact Or.inl rfl
    · exact Or.inl rfl
    · refine Or.inr ⟨old, rfl, not_not.mp horg, ?_⟩
      have hu := EventRepository.Update_state s { old with Status := "open" } now
      split
      · rename_i h
        rw [h] at hu
        exact hu
      · rename_i h
        rw [h] at hu
        exact hu

/-- Every service call leaves a state that satisfies the schema. -/
theorem Op.apply_valid (bc : Bcrypt) (env : String) {s : DB} (hs : s.Valid) (op : Op) :
    (op.apply bc env s).Valid := by
  cases op with
  | Register req salt now tokenTime =>
    rcases AuthService.Register_state bc env s req salt now tokenTime with h | ⟨hp, -, h⟩
    · simpa only [Op.apply, h] using hs
    · simpa only [Op.apply, h] using DB.insertUser_valid hs _ _ _ _ _
  | CreateEvent req organizerID now =>
    simpa only [Op.apply, EventService.CreateEvent_state] using DB.insertEvent_valid hs _
  | UpdateEvent id req organizerID now =>
    rcases EventService.UpdateEvent_state s id req organizerID now with h | ⟨old, -, -, h⟩
    · simpa only [Op.apply, h] using hs
    · simpa only [Op.apply, h] using DB.updateEvent_valid hs _
  | CloseEvent organizerID eventID now =>
    rcases EventService.CloseEvent_state s organizerID eventID now with h | ⟨old, -, -, h⟩
    · simpa only [Op.apply, h] using hs
    · simpa only [Op.apply, h] using DB.updateEvent_valid hs _
  | OpenEvent organizerID eventID now =>
    rcases EventService.OpenEvent_state s organizerID eventID now with h | ⟨old, -, -, h⟩
    · simpa only [Op.apply, h] using hs
    · simpa only [Op.apply, h] using DB.updateEvent_valid hs _
  | DeleteEvent id organizerID =>
    rcases EventRepository.Delete_state s id organizerID with h | ⟨-, h⟩
    · simpa only [Op.apply, EventService.DeleteEvent, h] using hs
    · simpa only [Op.apply, EventService.DeleteEvent, h] using DB.deleteEvent_valid hs _ _
  | JoinEvent userID eventID now insertTime =>
    rcases ParticipantRepository.JoinEvent_state s userID eventID now insertTime with h | ⟨-, h⟩
    · simpa only [Op.apply, ParticipantService.JoinEvent, h] using hs
    · simpa only [Op.apply, ParticipantService.JoinEvent, h] using
        DB.insertParticipant_valid hs _ _ _
  | LeaveEvent userID eventID =>
    simpa only [Op.apply, ParticipantService.LeaveEvent,
      ParticipantRepository.LeaveEvent_state] using DB.deleteParticipant_valid hs _ _

/-- Every state the service can reach satisfies the schema. -/
theorem ReachableBy.valid {bc : Bcrypt} {env : String} {allowed : DB → Op → Prop} {s : DB}
    (h : ReachableBy bc env allowed s) : s.Valid := by
  induction h with
  | empty => exact DB.empty_valid
  | step s op _ _ ih => exact Op.apply_valid bc env ih op

/-! ## Capacity -/

/-- In a valid state the rows of `events` are determined by their id. -/
theorem DB.Valid.event_eq_of_id {s : DB} (hs : s.Valid) {a b : Event}
    (ha : a ∈ s.events) (hb : b ∈ s.events) (h : a.ID = b.ID) : a = b := by
  by_contra hne
  exact hs.events_pkey.forall (fun _ _ hxy => Ne.symm hxy) ha hb hne h

/-- In a valid state the lookup by id finds every row of `events`. -/
theorem DB.Valid.eventByID_of_mem {s : DB} (hs : s.Valid) {ev : Event} (h : ev ∈ s.events) :
    s.eventByID ev.ID = some ev := by
  cases hf : s.eventByID ev.ID with
  | none =>
    unfold DB.eventByID at hf
    rw [List.find?_eq_none] at hf
    exact absurd (by simp) (hf ev h)
  | some x =>
    have hx : x ∈ s.events := List.mem_of_find?_eq_some hf
    rw [hs.event_eq_of_id hx h (DB.eventByID_id hf)]

/-- In a valid state no participant row refers to an event id that the
sequence has not issued yet. -/
theorem DB.Valid.participantCount_fresh {s : DB} (hs : s.Valid) :
    s.participantCount (s.eventsSeq + 1) = 0 := by
  unfold DB.participantCount
  rw [List.countP_eq_zero]
  intro p hp
  have h := hs.participants_event_id_fkey p hp
  rw [DB.hasEvent_iff] at h
  obtain ⟨e, he, hid⟩ := h
  have := hs.events_seq e he
  simp only [decide_eq_true_eq]
  omega

theorem DB.insertUser_withinCapacity {s : DB} (hc : s.WithinCapacity)
    (username email password : String) (createdAt updatedAt : Time) :
    (s.insertUser username email password createdAt updatedAt).2.WithinCapacity := by
  unfold DB.insertUser
  simp only []
  split_ifs <;> exact hc

theorem DB.insertEvent_withinCapacity {s : DB} (hs : s.Valid) (hc : s.WithinCapacity)
    (ev : Event) : (s.insertEvent ev).2.WithinCapacity := by
  unfold DB.insertEvent
  simp only []
  split_ifs with h1 h2 h3 h4
  · exact hc
  · exact hc
  rotate_left
  · exact hc
  · exact hc
  · intro e he
    simp only [List.mem_append, List.mem_singleton] at he
    rcases he with he | rfl
    · exact hc e he
    · have h0 := hs.participantCount_fresh
      simp only [DB.participantCount] at h0 ⊢
      rw [h0]
      exact le_of_lt h1

theorem DB.updateEvent_withinCapacity {s : DB} (hc : s.WithinCapacity) (ev : Event)
    (hcap : (s.participantCount ev.ID : Int) ≤ ev.Capacity) :
    (s.updateEvent ev).2.WithinCapacity := by
  unfold DB.updateEvent
  split
  · exact hc
  · split_ifs with h1 h2
    rotate_left
    · exact hc
    · exact hc
    · intro e he
      obtain ⟨e0, he0, rfl⟩ := List.mem_map.mp he
      split_ifs with hhit
      · have : (e0.assign ev).ID = ev.ID := hhit.1
        show ((s.participantCount (e0.assign ev).ID : Int)) ≤ (e0.assign ev).Capacity
        rw [this]
        exact hcap
      · exact hc e0 he0

theorem DB.deleteEvent_withinCapacity {s : DB} (hc : s.WithinCapacity) (id organizerID : Int) :
    (s.deleteEvent id organizerID).2.WithinCapacity := by
  unfold DB.deleteEvent
  split
  · exact hc
  · split_ifs
    · exact hc
    · intro e he
      exact hc e (List.mem_of_mem_filter he)

theorem DB.deleteParticipant_withinCapacity {s : DB} (hc : s.WithinCapacity)
    (userID eventID : Int) : (s.deleteParticipant userID eventID).2.WithinCapacity := by
  unfold DB.deleteParticipant
  split
  · exact hc
  · intro e he
    have h := hc e he
    have hle : (s.participants.filter
        (fun q => ¬ (q.UserID = userID ∧ q.EventID = eventID))).countP (fun p => p.EventID = e.ID)
          ≤ s.participants.countP (fun p => p.EventID = e.ID) :=
      (List.filter_sublist _).countP_le _
    simp only [DB.participantCount] at h ⊢
    omega

/-- A join whose guards pass keeps every event within its capacity. -/
theorem DB.insertParticipant_withinCapacity {s : DB} (hs : s.Valid) (hc : s.WithinCapacity)
    {userID eventID : Int} {now : Time} (joinedAt : Time)
    (hg : JoinGuardsPass s userID eventID now) :
    (s.insertParticipant userID eventID joinedAt).2.WithinCapacity := by
  obtain ⟨ev, hev, -, hcap, -, -⟩ := hg
  unfold DB.insertParticipant
  simp only []
  split_ifs
  · exact hc
  · exact hc
  · exact hc
  · exact hc
  · intro e he
    have h := hc e he
    simp only [DB.participantCount, List.countP_append, List.countP_cons, List.countP_nil] at h ⊢
    by_cases hid : eventID = e.ID
    · have hee : s.eventByID e.ID = some e := hs.eventByID_of_mem he
      rw [← hid, hev] at hee
      cases hee
      simp only [DB.participantCount] at hcap
      simp only [hid, decide_True, if_true] at hcap ⊢
      push_cast
      omega
    · simp only [hid, decide_False]
      simpa using h

theorem Op.apply_withinCapacity (bc : Bcrypt) (env : String) {s : DB} (hs : s.Valid)
    (hc : s.WithinCapacity) (op : Op) (hop : op.keepsCapacity s) :
    (op.apply bc env s).WithinCapacity := by
  cases op with
  | Register req salt now tokenTime =>
    rcases AuthService.Register_state bc env s req salt now tokenTime with h | ⟨hp, -, h⟩
    · simpa only [Op.apply, h] using hc
    · simpa only [Op.apply, h] using DB.insertUser_withinCapacity hc _ _ _ _ _
  | CreateEvent req organizerID now =>
    simpa only [Op.apply, EventService.CreateEvent_state] using
      DB.insertEvent_withinCapacity hs hc _
  | UpdateEvent id req organizerID now =>
    rcases EventService.UpdateEvent_state s id req organizerID now with h | ⟨old, hold, -, h⟩
    · simpa only [Op.apply, h] using hc
    · simp only [Op.apply, h]
      apply DB.updateEvent_withinCapacity hc
      show (s.participantCount old.ID : Int) ≤ req.Capacity
      rw [DB.eventByID_id hold]
      exact hop
  | CloseEvent organizerID eventID now =>
    rcases EventService.CloseEvent_state s organizerID eventID now with h | ⟨old, hold, -, h⟩
    · simpa only [Op.apply, h] using hc
    · simp only [Op.apply, h]
      apply DB.updateEvent_withinCapacity hc
      exact hc old (List.mem_of_find?_eq_some hold)
  | OpenEvent organizerID eventID now =>
    rcases EventService.OpenEvent_state s organizerID eventID now with h | ⟨old, hold, -, h⟩
    · simpa only [Op.apply, h] using hc
    · simp only [Op.apply, h]
      apply DB.updateEvent_withinCapacity hc
      exact hc old (List.mem_of_find?_eq_some hold)
  | DeleteEvent id organizerID =>
    rcases EventRepository.Delete_state s id organizerID with h | ⟨-, h⟩
    · simpa only [Op.apply, EventService.DeleteEvent, h] using hc
    · simpa only [Op.apply, EventService.DeleteEvent, h] using
        DB.deleteEvent_withinCapacity hc _ _
  | JoinEvent userID eventID now insertTime =>
    rcases ParticipantRepository.JoinEvent_state s userID eventID now insertTime with h | ⟨hg, h⟩
    · simpa only [Op.apply, ParticipantService.JoinEvent, h] using hc
    · simpa only [Op.apply, ParticipantService.JoinEvent, h] using
        DB.insertParticipant_withinCapacity hs hc insertTime hg
  | LeaveEvent userID eventID =>
    simpa only [Op.apply, ParticipantService.LeaveEvent,
      ParticipantRepository.LeaveEvent_state] using DB.deleteParticipant_withinCapacity hc _ _

theorem ReachableBy.run {bc : Bcrypt} {env : String} {s : DB}
    (h : ReachableBy bc env (fun _ _ => True) s) (ops : List Op) :
    ReachableBy bc env (fun _ _ => True) (s.run bc env ops) := by
  induction ops generalizing s with
  | nil => exact h
  | cons op ops ih => exact ih (ReachableBy.step s op h trivial)

/-- C2 (as amended): in every state reachable from the empty database by
service calls none of which is an `UpdateEvent` asking for a capacity below
the event's current number of participant rows, every event has at most as
many participant rows as its capacity; and in any state a `JoinEvent` on an
open event that has as many participant rows as its capacity fails with
`event is at full capacity`. -/
theorem capacity_respected (bc : Bcrypt) (env : String) :
    (∀ s, ReachableBy bc env Op.keepsCapacity s →
      ∀ ev ∈ s.events, (s.participantCount ev.ID : Int) ≤ ev.Capacity) ∧
    (∀ (s : DB) (userID eventID : Int) (now insertTime : Time) (ev : Event),
      s.eventByID eventID = some ev → ev.Status = "open" →
      (s.participantCount eventID : Int) = ev.Capacity →
      (ParticipantService.JoinEvent s userID eventID now insertTime).1 =
        some (.new "event is at full capacity")) := by
  constructor
  · intro s h
    have hv := h.valid
    induction h with
    | empty => intro ev hev; simp [DB.empty] at hev
    | step s op hr hop ih => exact Op.apply_withinCapacity bc env hr.valid (ih hr.valid) op hop
  · intro s userID eventID now insertTime ev hev hopen hfull
    simp [ParticipantService.JoinEvent, ParticipantRepository.JoinEvent, hev, hopen, hfull]

/-- C2, the claim as stated fails: after two users have joined an event of
capacity two and the organizer has updated its capacity to one, the reachable
state holds two participant rows for an event of capacity one. -/
theorem capacity_exceeded_after_update :
    Reachable sampleBcrypt "" (DB.empty.run sampleBcrypt "" overbookedRun) ∧
    ∃ ev ∈ (DB.empty.run sampleBcrypt "" overbookedRun).events,
      ev.Capacity = 1 ∧ (DB.empty.run sampleBcrypt "" overbookedRun).participantCount ev.ID = 2 := by
  refine ⟨ReachableBy.run ReachableBy.empty _, ?_⟩
  decide

/-- C2, the amended statement on the run in which one user fills an event of
capacity one: the event is within capacity and the next join is refused. -/
theorem capacity_respected_witness :
    (∀ ev ∈ (DB.empty.run sampleBcrypt "" fullRun).events,
      ((DB.empty.run sampleBcrypt "" fullRun).participantCount ev.ID : Int) ≤ ev.Capacity) ∧
    (ParticipantService.JoinEvent (DB.empty.run sampleBcrypt "" fullRun) 2 1 50 50).1 =
      some (.new "event is at full capacity") :=
  ⟨(capacity_respected sampleBcrypt "").1 _
      (ReachableBy.step _ (.JoinEvent 1 1 40 40)
        (ReachableBy.step _ (.CreateEvent (picnicRequest 1) 1 30)
          (ReachableBy.step _ (.Register aliceRequest 0 10 10) ReachableBy.empty trivial)
          trivial)
        trivial),
    (capacity_respected sampleBcrypt "").2 _ 2 1 50 50 { picnic with Capacity := 1 }
      (by decide) (by decide) (by decide)⟩

/-! ## Joining twice -/

/-- A successful join is the insert of one row, and nothing else changes. -/
theorem ParticipantRepository.JoinEvent_success {s : DB} {userID eventID : Int}
    {now insertTime : Time}
    (h : (ParticipantRepository.JoinEvent s userID eventID now insertTime).1 = none) :
    JoinGuardsPass s userID eventID now ∧
    (ParticipantRepository.JoinEvent s userID eventID now insertTime).2 =
      { s with
        participantsSeq := s.participantsSeq + 1,
        participants := s.participants ++
          [{ ID := s.participantsSeq + 1, UserID := userID, EventID := eventID,
             JoinedAt := insertTime }] } := by
  have hg : JoinGuardsPass s userID eventID now := by
    by_contra hg
    unfold ParticipantRepository.JoinEvent at h
    cases hev : s.eventByID eventID with
    | none => simp [hev] at h
    | some ev =>
      simp only [hev] at h
      split_ifs at h with h1 h2 h3 h4
      exact hg ⟨ev, hev, by simpa using h1, by simpa using h2, by simpa using h3,
        by simpa using h4⟩
  refine ⟨hg, ?_⟩
  rw [ParticipantRepository.JoinEvent_of_guards insertTime hg] at h ⊢
  unfold DB.insertParticipant at h ⊢
  simp only [] at h ⊢
  split_ifs at h ⊢
  rfl

/-- C3 (as amended): after a successful `JoinEvent` of a user for an event, a
second `JoinEvent` of the same user for the same event fails and changes
nothing, so the participant count stays as it was: the error is
`user is already a participant of this event` when the event still has fewer
participant rows than its capacity, and `event is at full capacity` when the
first join filled it. -/
theorem JoinEvent_twice (s : DB) (userID eventID : Int) (now insertTime now2 insertTime2 : Time)
    (h : (ParticipantService.JoinEvent s userID eventID now insertTime).1 = none) :
    ∃ ev, s.eventByID eventID = some ev ∧
      ((((ParticipantService.JoinEvent s userID eventID now insertTime).2.participantCount
          eventID : Nat) : Int) < ev.Capacity →
        (ParticipantService.JoinEvent
          (ParticipantService.JoinEvent s userID eventID now insertTime).2
          userID eventID now2 insertTime2).1 =
            some (.new "user is already a participant of this event")) ∧
      (ev.Capacity ≤
          (((ParticipantService.JoinEvent s userID eventID now insertTime).2.participantCount
            eventID : Nat) : Int) →
        (ParticipantService.JoinEvent
          (ParticipantService.JoinEvent s userID eventID now insertTime).2
          userID eventID now2 insertTime2).1 = some (.new "event is at full capacity")) ∧
      (ParticipantService.JoinEvent
          (ParticipantService.JoinEvent s userID eventID now insertTime).2
          userID eventID now2 insertTime2).2 =
        (ParticipantService.JoinEvent s userID eventID now insertTime).2 ∧
      ParticipantService.GetParticipantCount
          (ParticipantService.JoinEvent
            (ParticipantService.JoinEvent s userID eventID now insertTime).2
            userID eventID now2 insertTime2).2 eventID =
        ParticipantService.GetParticipantCount
          (ParticipantService.JoinEvent s userID eventID now insertTime).2 eventID := by
  obtain ⟨⟨ev, hev, hopen, -, -, -⟩, hs1⟩ := ParticipantRepository.JoinEvent_success h
  simp only [ParticipantService.JoinEvent] at *
  rw [hs1]
  have hev1 : DB.eventByID
      { s with
        participantsSeq := s.participantsSeq + 1,
        participants := s.participants ++
          [{ ID := s.participantsSeq + 1, UserID := userID, EventID := eventID,
             JoinedAt := insertTime }] } eventID = some ev := hev
  have hrow1 : (DB.participantRow
      { s with
        participantsSeq := s.participantsSeq + 1,
        participants := s.participants ++
          [{ ID := s.participantsSeq + 1, UserID := userID, EventID := eventID,
             JoinedAt := insertTime }] } userID eventID).isSome = true := by
    simp [DB.participantRow]
  have hstate : (ParticipantRepository.JoinEvent
      { s with
        participantsSeq := s.participantsSeq + 1,
        participants := s.participants ++
          [{ ID := s.participantsSeq + 1, UserID := userID, EventID := eventID,
             JoinedAt := insertTime }] } userID eventID now2 insertTime2).2 =
      { s with
        participantsSeq := s.participantsSeq + 1,
        participants := s.participants ++
          [{ ID := s.participantsSeq + 1, UserID := userID, EventID := eventID,
             JoinedAt := insertTime }] } := by
    simp only [ParticipantRepository.JoinEvent, hev1, hopen, hrow1]
    simp only [ne_eq, not_true_eq_false, if_false, if_true]
    split_ifs <;> rfl
  refine ⟨ev, hev, ?_, ?_, hstate, by rw [hstate]⟩
  · intro hlt
    simp only [ParticipantRepository.JoinEvent, hev1, hopen, hrow1]
    simp [not_le.mpr hlt]
  · intro hge
    simp only [ParticipantRepository.JoinEvent, hev1, hopen]
    simp [hge]

/-- C3, the claim as stated fails: in the sample state with an event of
capacity one, user 2 joins event 1, and the second join is refused with
`event is at full capacity`, not with the conflict error. -/
theorem second_join_of_full_event :
    (ParticipantService.JoinEvent soloDB 2 1 0 0).1 = none ∧
    (ParticipantService.JoinEvent (ParticipantService.JoinEvent soloDB 2 1 0 0).2 2 1 5 5).1 =
      some (.new "event is at full capacity") := by
  decide

/-- C3, the amended statement at the sample state: user 2 joins event 1 and
the second join changes nothing. -/
theorem JoinEvent_twice_witness :
    (ParticipantService.JoinEvent sampleDB 2 1 0 0).1 = none ∧
    (ParticipantService.JoinEvent (ParticipantService.JoinEvent sampleDB 2 1 0 0).2 2 1 5 5).2 =
      (ParticipantService.JoinEvent sampleDB 2 1 0 0).2 :=
  ⟨by decide, (JoinEvent_twice sampleDB 2 1 0 0 5 5 (by decide)).elim fun _ h => h.2.2.2.1⟩

/-! ## The effect of a join -/

/-- C4 (as amended): in a state that satisfies the schema, when the user
exists and all five guards pass, `JoinEvent` returns no error and appends
exactly one participant row, for this user and event and with `joined_at` the
clock reading of the insert; afterwards `IsParticipant` is true, the
participant count of the event is one more than before, and the earlier
participant rows, the events and the users are unchanged. -/
theorem JoinEvent_inserts_row (s : DB) (hs : s.Valid) (userID eventID : Int)
    (now insertTime : Time) (hg : JoinGuardsPass s userID eventID now)
    (hu : s.hasUser userID = true) :
    (ParticipantService.JoinEvent s userID eventID now insertTime).1 = none ∧
    (∃ id, (ParticipantService.JoinEvent s userID eventID now insertTime).2.participants =
      s.participants ++
        [{ ID := id, UserID := userID, EventID := eventID, JoinedAt := insertTime }]) ∧
    (ParticipantService.JoinEvent s userID eventID now insertTime).2.events = s.events ∧
    (ParticipantService.JoinEvent s userID eventID now insertTime).2.users = s.users ∧
    ParticipantService.IsParticipant
      (ParticipantService.JoinEvent s userID eventID now insertTime).2 userID eventID =
        .ok true ∧
    (∃ n : Int, ParticipantService.GetParticipantCount s eventID = .ok n ∧
      ParticipantService.GetParticipantCount
        (ParticipantService.JoinEvent s userID eventID now insertTime).2 eventID =
          .ok (n + 1)) := by
  obtain ⟨ev, hev, -, -, hrow, -⟩ := id hg
  have hj : ParticipantService.JoinEvent s userID eventID now insertTime =
      (none, { s with
        participantsSeq := s.participantsSeq + 1,
        participants := s.participants ++
          [{ ID := s.participantsSeq + 1, UserID := userID, EventID := eventID,
             JoinedAt := insertTime }] }) := by
    rw [ParticipantService.JoinEvent, ParticipantRepository.JoinEvent_of_guards insertTime hg,
      DB.insertParticipant_ok hs insertTime hrow hu (DB.eventByID_hasEvent hev)]
  rw [hj]
  refine ⟨rfl, ⟨_, rfl⟩, rfl, rfl, ?_, _, rfl, ?_⟩
  · simp [ParticipantService.IsParticipant, ParticipantRepository.IsParticipant,
      DB.participantRow]
    split
    · rename_i h
      simp [List.find?_eq_none] at h
    · rfl
  · simp [ParticipantService.GetParticipantCount, ParticipantRepository.GetParticipantCount,
      DB.participantCount, List.countP_append]

/-- C4, the claim as stated fails: in the sample state all five guards pass
for the unknown user 9 and event 1, yet `JoinEvent` inserts no row and the
user is not a participant afterwards. -/
theorem JoinEvent_unknown_user_no_row :
    sampleDB.Valid ∧ JoinGuardsPass sampleDB 9 1 0 ∧
    (ParticipantService.JoinEvent sampleDB 9 1 0 0).2.participants = sampleDB.participants ∧
    ParticipantService.IsParticipant (ParticipantService.JoinEvent sampleDB 9 1 0 0).2 9 1 =
      .ok false := by
  refine ⟨sampleDB_valid, ⟨picnic, by decide, by decide, by decide, by decide, by decide⟩, ?_, ?_⟩
  · decide
  · decide

/-- C4, the amended statement at the sample state: user 2 joins event 1 at
clock reading 7. -/
theorem JoinEvent_inserts_row_witness :
    (ParticipantService.JoinEvent sampleDB 2 1 0 7).1 = none ∧
    ParticipantService.IsParticipant (ParticipantService.JoinEvent sampleDB 2 1 0 7).2 2 1 =
      .ok true :=
  have h := JoinEvent_inserts_row sampleDB sampleDB_valid 2 1 0 7
    ⟨picnic, by decide, by decide, by decide, by decide, by decide⟩ (by decide)
  ⟨h.1, h.2.2.2.2.1⟩

/-! ## Organizer-only operations and deletion -/

/-- In a valid state no row of `events` has the id of an event organised by
someone else together with the caller as organizer. -/
theorem DB.Valid.no_row_for_other_organizer {s : DB} (hs : s.Valid) {id caller : Int}
    {ev : Event} (hev : s.eventByID id = some ev) (hne : ev.OrganizerID ≠ caller) :
    s.events.find? (fun e => e.ID = id ∧ e.OrganizerID = caller) = none := by
  rw [List.find?_eq_none]
  intro e he hhit
  simp only [decide_eq_true_eq] at hhit
  have hmem : ev ∈ s.events := List.mem_of_find?_eq_some hev
  have : e = ev := hs.event_eq_of_id he hmem (hhit.1.trans (DB.eventByID_id hev).symm)
  exact hne (this ▸ hhit.2)

/-- C5: for an existing event and a caller who is not its organizer,
`UpdateEvent` (with any request body), `CloseEvent` and `OpenEvent` fail with
`you are not the organizer of this event`, and `DeleteEvent` fails with
`cannot delete event with participants` or
`event not found or you are not the organizer`; none of them changes the
state. -/
theorem non_organizer_rejected (s : DB) (hs : s.Valid) (id caller : Int) (ev : Event)
    (hev : s.eventByID id = some ev) (hne : ev.OrganizerID ≠ caller)
    (req : EventRequest) (now : Time) :
    EventService.UpdateEvent s id req caller now =
      (.error (.new "you are not the organizer of this event"), s) ∧
    EventService.CloseEvent s caller id now =
      (.error (.new "you are not the organizer of this event"), s) ∧
    EventService.OpenEvent s caller id now =
      (.error (.new "you are not the organizer of this event"), s) ∧
    (EventService.DeleteEvent s id caller =
        (some (.new "cannot delete event with participants"), s) ∨
      EventService.DeleteEvent s id caller =
        (some (.new "event not found or you are not the organizer"), s)) := by
  refine ⟨?_, ?_, ?_, ?_⟩
  · simp [EventService.UpdateEvent, EventRepository.GetByID, hev, hne]
  · simp [EventService.CloseEvent, EventRepository.GetByID, hev, hne]
  · simp [EventService.OpenEvent, EventRepository.GetByID, hev, hne]
  · by_cases hcount : s.participantCount id > 0
    · left
      simp [EventService.DeleteEvent, EventRepository.Delete, hcount]
    · right
      simp only [EventService.DeleteEvent, EventRepository.Delete, if_neg hcount, DB.deleteEvent,
        hs.no_row_for_other_organizer hev hne]

/-- C5 at the sample state: user 2 is not the organizer of event 1. -/
theorem non_organizer_rejected_witness :
    EventService.UpdateEvent sampleDB 1 (picnicRequest 0) 2 50 =
      (.error (.new "you are not the organizer of this event"), sampleDB) ∧
    EventService.CloseEvent sampleDB 2 1 50 =
      (.error (.new "you are not the organizer of this event"), sampleDB) :=
  have h := non_organizer_rejected sampleDB sampleDB_valid 1 2 picnic (by decide) (by decide)
    (picnicRequest 0) 50
  ⟨h.1, h.2.1⟩

/-- C6: when at least one participant row refers to the event id,
`DeleteEvent` fails with `cannot delete event with participants` and changes
nothing, whoever the caller is and whether or not an event with that id
exists: the participant check comes before the organizer and existence
check. -/
theorem DeleteEvent_with_participants (s : DB) (id caller : Int)
    (h : ∃ p ∈ s.participants, p.EventID = id) :
    EventService.DeleteEvent s id caller =
      (some (.new "cannot delete event with participants"), s) := by
  have hpos : s.participantCount id > 0 := by
    obtain ⟨p, hp, hid⟩ := h
    exact List.countP_pos_iff.mpr ⟨p, hp, by simpa using hid⟩
  simp [EventService.DeleteEvent, EventRepository.Delete, hpos]

/-- C6 on the run in which user 1 has joined event 1: neither the organizer 1
nor the stranger 2 can delete it. -/
theorem DeleteEvent_with_participants_witness :
    (EventService.DeleteEvent (DB.empty.run sampleBcrypt "" fullRun) 1 1).1 =
      some (.new "cannot delete event with participants") ∧
    (EventService.DeleteEvent (DB.empty.run sampleBcrypt "" fullRun) 1 2).1 =
      some (.new "cannot delete event with participants") :=
  ⟨congrArg Prod.fst (DeleteEvent_with_participants (DB.empty.run sampleBcrypt "" fullRun) 1 1
      (by decide)),
   congrArg Prod.fst (DeleteEvent_with_participants (DB.empty.run sampleBcrypt "" fullRun) 1 2
      (by decide))⟩

/-- C7: in a state that satisfies the schema, when the event exists, has no
participant row and is organised by the caller, `DeleteEvent` returns no
error and removes exactly that row of `events`; users and participants are
unchanged, and `GetEventByID` then fails with `event not found`. -/
theorem DeleteEvent_removes_event (s : DB) (hs : s.Valid) (id caller : Int) (ev : Event)
    (hev : s.eventByID id = some ev) (hcount : s.participantCount id = 0)
    (horg : ev.OrganizerID = caller) :
    (EventService.DeleteEvent s id caller).1 = none ∧
    (EventService.DeleteEvent s id caller).2.events = s.events.erase ev ∧
    (∀ e, e ∈ (EventService.DeleteEvent s id caller).2.events ↔ e ∈ s.events ∧ e ≠ ev) ∧
    (EventService.DeleteEvent s id caller).2.users = s.users ∧
    (EventService.DeleteEvent s id caller).2.participants = s.participants ∧
    EventService.GetEventByID (EventService.DeleteEvent s id caller).2 id =
      .error (.new "event not found") := by
  have hmem : ev ∈ s.events := List.mem_of_find?_eq_some hev
  have hid : ev.ID = id := DB.eventByID_id hev
  have hnone : s.participants.any (fun p => p.EventID = id) = false := by
    rw [Bool.eq_false_iff]
    intro hany
    obtain ⟨p, hp, hq⟩ := List.any_eq_true.mp hany
    have : 0 < s.participantCount id := List.countP_pos_iff.mpr ⟨p, hp, hq⟩
    omega
  have hfind : ∃ old, s.events.find? (fun e => e.ID = id ∧ e.OrganizerID = caller) = some old := by
    cases hf : s.events.find? (fun e => e.ID = id ∧ e.OrganizerID = caller) with
    | none =>
      rw [List.find?_eq_none] at hf
      exact absurd (by simp [hid, horg]) (hf ev hmem)
    | some old => exact ⟨old, rfl⟩
  obtain ⟨old, hold⟩ := hfind
  have hfilter : s.events.filter (fun e => ¬ (e.ID = id ∧ e.OrganizerID = caller)) =
      s.events.erase ev := by
    have hnodup : s.events.Nodup :=
      hs.events_pkey.imp (fun {a b} hab heq => hab (congrArg Event.ID heq))
    rw [hnodup.erase_eq_filter]
    apply List.filter_congr
    intro e he
    by_cases hee : e = ev
    · subst hee
      simp [hid, horg]
    · have : e.ID ≠ id := fun h => hee (hs.event_eq_of_id he hmem (h.trans hid.symm))
      simp [hee, this]
  have hstate : EventService.DeleteEvent s id caller =
      (none, { s with events := s.events.erase ev }) := by
    simp only [EventService.DeleteEvent, EventRepository.Delete, hcount, DB.deleteEvent, hold,
      hnone, hfilter]
    simp
  rw [hstate]
  have hnodup : s.events.Nodup :=
    hs.events_pkey.imp (fun {a b} hab heq => hab (congrArg Event.ID heq))
  refine ⟨rfl, rfl, ?_, rfl, rfl, ?_⟩
  · intro e
    simp only [hnodup.mem_erase_iff]
    tauto
  · simp only [EventService.GetEventByID, EventRepository.GetByID, DB.eventByID]
    have : (s.events.erase ev).find? (fun e => e.ID = id) = none := by
      rw [List.find?_eq_none]
      intro e he hh
      simp only [decide_eq_true_eq] at hh
      have hme := (hnodup.mem_erase_iff.mp he)
      exact hme.1 (hs.event_eq_of_id hme.2 hmem (hh.trans hid.symm))
    rw [this]

/-- C7 at the sample state: the organizer 1 deletes event 1, which nobody has
joined. -/
theorem DeleteEvent_removes_event_witness :
    (EventService.DeleteEvent sampleDB 1 1).1 = none ∧
    EventService.GetEventByID (EventService.DeleteEvent sampleDB 1 1).2 1 =
      .error (.new "event not found") :=
  have h := DeleteEvent_removes_event sampleDB sampleDB_valid 1 1 picnic (by decide) (by decide)
    (by decide)
  ⟨h.1, h.2.2.2.2.2⟩

/-! ## Login -/

/-- C8 (as amended): a login whose email matches no user and a login whose
email matches a user but whose password the stored hash does not match both
make `Login` return the error `invalid email or password`; the `Login`
handler answers each of them with status 401 and that message when the
request's email and password are non-empty, and with status 400 and
`Email and password are required` when one of them is empty, whether the
email exists or not. -/
theorem Login_failure_uniform (bc : Bcrypt) (env : String) (s : DB) (r1 r2 : LoginRequest)
    (now1 now2 : Time) (h1 : ∀ u ∈ s.users, u.Email ≠ r1.Email)
    (h2 : ∃ u, UserRepository.GetByEmail s r2.Email = .ok u ∧
      bc.CompareHashAndPassword u.Password r2.Password = false) :
    AuthService.Login bc env s r1 now1 = .error (.new "invalid email or password") ∧
    AuthService.Login bc env s r2 now2 = .error (.new "invalid email or password") ∧
    (r1.Email ≠ "" ∧ r1.Password ≠ "" →
      AuthController.Login bc env s (some r1) now1 =
        .error { Code := 401, Message := "invalid email or password" }) ∧
    (r2.Email ≠ "" ∧ r2.Password ≠ "" →
      AuthController.Login bc env s (some r2) now2 =
        .error { Code := 401, Message := "invalid email or password" }) ∧
    (r1.Email = "" ∨ r1.Password = "" →
      AuthController.Login bc env s (some r1) now1 =
        .error { Code := 400, Message := "Email and password are required" }) ∧
    (r2.Email = "" ∨ r2.Password = "" →
      AuthController.Login bc env s (some r2) now2 =
        .error { Code := 400, Message := "Email and password are required" }) := by
  have e1 : AuthService.Login bc env s r1 now1 = .error (.new "invalid email or password") := by
    have hnone : s.users.find? (fun u => u.Email = r1.Email) = none := by
      rw [List.find?_eq_none]
      intro u hu
      simpa using h1 u hu
    simp [AuthService.Login, UserRepository.GetByEmail, hnone]
  have e2 : AuthService.Login bc env s r2 now2 = .error (.new "invalid email or password") := by
    obtain ⟨u, hu, hcmp⟩ := h2
    simp [AuthService.Login, hu, hcmp]
  refine ⟨e1, e2, ?_, ?_, ?_, ?_⟩
  · rintro ⟨ha, hb⟩
    simp [AuthController.Login, ha, hb, e1, Error.Error]
  · rintro ⟨ha, hb⟩
    simp [AuthController.Login, ha, hb, e2, Error.Error]
  · intro h
    simp [AuthController.Login, h]
  · intro h
    simp [AuthController.Login, h]

/-- C8, the claim as stated fails: in the sample state the email
`nobody@example.org` matches no user, and the handler answers a login with
that email and an empty password with status 400, not 401. -/
theorem Login_empty_password_400 :
    (∀ u ∈ sampleDB.users, u.Email ≠ "nobody@example.org") ∧
    AuthController.Login sampleBcrypt "" sampleDB
        (some { Email := "nobody@example.org", Password := "" }) 0 =
      .error { Code := 400, Message := "Email and password are required" } := by
  constructor
  · decide
  · rfl

/-- C8, the amended statement at the sample state: an unknown email, and the
email of the first sample user with a wrong password. -/
theorem Login_failure_uniform_witness :
    AuthController.Login sampleBcrypt "" sampleDB
        (some { Email := "nobody@example.org", Password := "guess" }) 0 =
      .error { Code := 401, Message := "invalid email or password" } ∧
    AuthController.Login sampleBcrypt "" sampleDB
        (some { Email := "alice@example.org", Password := "guess" }) 0 =
      .error { Code := 401, Message := "invalid email or password" } :=
  have h := Login_failure_uniform sampleBcrypt "" sampleDB
    { Email := "nobody@example.org", Password := "guess" }
    { Email := "alice@example.org", Password := "guess" } 0 0 (by decide)
    ⟨alice, by decide, by decide⟩
  ⟨h.2.2.1 ⟨by decide, by decide⟩, h.2.2.2.1 ⟨by decide, by decide⟩⟩

/-! ## Registration -/

theorem DB.insertUser_users_mono (s : DB) (username email password : String)
    (createdAt updatedAt : Time) {u : User} (hu : u ∈ s.users) :
    u ∈ (s.insertUser username email password createdAt updatedAt).2.users := by
  unfold DB.insertUser
  simp only []
  split_ifs
  · exact hu
  · exact hu
  · exact hu
  · exact List.mem_append_left _ hu

theorem DB.insertEvent_users (s : DB) (ev : Event) : (s.insertEvent ev).2.users = s.users := by
  unfold DB.insertEvent
  simp only []
  split_ifs <;> rfl

theorem DB.updateEvent_users (s : DB) (ev : Event) : (s.updateEvent ev).2.users = s.users := by
  unfold DB.updateEvent
  split
  · rfl
  · split_ifs <;> rfl

theorem DB.deleteEvent_users (s : DB) (id organizerID : Int) :
    (s.deleteEvent id organizerID).2.users = s.users := by
  unfold DB.deleteEvent
  split
  · rfl
  · split_ifs <;> rfl

theorem DB.insertParticipant_users (s : DB) (userID eventID : Int) (joinedAt : Time) :
    (s.insertParticipant userID eventID joinedAt).2.users = s.users := by
  unfold DB.insertParticipant
  simp only []
  split_ifs <;> rfl

theorem DB.deleteParticipant_users (s : DB) (userID eventID : Int) :
    (s.deleteParticipant userID eventID).2.users = s.users := by
  unfold DB.deleteParticipant
  split <;> rfl

/-- No service call removes or changes a row of `users`. -/
theorem Op.apply_users_mono (bc : Bcrypt) (env : String) (s : DB) (op : Op) {u : User}
    (hu : u ∈ s.users) : u ∈ (op.apply bc env s).users := by
  cases op with
  | Register req salt now tokenTime =>
    rcases AuthService.Register_state bc env s req salt now tokenTime with h | ⟨hp, -, h⟩
    · simpa only [Op.apply, h] using hu
    · simpa only [Op.apply, h] using DB.insertUser_users_mono s _ _ _ _ _ hu
  | CreateEvent req organizerID now =>
    simpa only [Op.apply, EventService.CreateEvent_state, DB.insertEvent_users] using hu
  | UpdateEvent id req organizerID now =>
    rcases EventService.UpdateEvent_state s id req organizerID now with h | ⟨old, -, -, h⟩
    · simpa only [Op.apply, h] using hu
    · simpa only [Op.apply, h, DB.updateEvent_users] using hu
  | CloseEvent organizerID eventID now =>
    rcases EventService.CloseEvent_state s organizerID eventID now with h | ⟨old, -, -, h⟩
    · simpa only [Op.apply, h] using hu
    · simpa only [Op.apply, h, DB.updateEvent_users] using hu
  | OpenEvent organizerID eventID now =>
    rcases EventService.OpenEvent_state s organizerID eventID now with h | ⟨old, -, -, h⟩
    · simpa only [Op.apply, h] using hu
    · simpa only [Op.apply, h, DB.updateEvent_users] using hu
  | DeleteEvent id organizerID =>
    rcases EventRepository.Delete_state s id organizerID with h | ⟨-, h⟩
    · simpa only [Op.apply, EventService.DeleteEvent, h] using hu
    · simpa only [Op.apply, EventService.DeleteEvent, h, DB.deleteEvent_users] using hu
  | JoinEvent userID eventID now insertTime =>
    rcases ParticipantRepository.JoinEvent_state s userID eventID now insertTime with h | ⟨-, h⟩
    · simpa only [Op.apply, ParticipantService.JoinEvent, h] using hu
    · simpa only [Op.apply, ParticipantService.JoinEvent, h, DB.insertParticipant_users] using hu
  | LeaveEvent userID eventID =>
    simpa only [Op.apply, ParticipantService.LeaveEvent,
      ParticipantRepository.LeaveEvent_state, DB.deleteParticipant_users] using hu

theorem DB.run_users_mono (bc : Bcrypt) (env : String) (s : DB) (ops : List Op) {u : User}
    (hu : u ∈ s.users) : u ∈ (s.run bc env ops).users := by
  induction ops generalizing s with
  | nil => exact hu
  | cons op ops ih => exact ih _ (Op.apply_users_mono bc env s op hu)

/-- A registration with a taken username fails with
`username already exists` and changes nothing. -/
theorem AuthService.Register_username_taken (bc : Bcrypt) (env : String) (s : DB)
    (req : RegisterRequest) (salt : Nat) (now tokenTime : Time)
    (h : ∃ u ∈ s.users, u.Username = req.Username) :
    AuthService.Register bc env s req salt now tokenTime =
      (.error (.new "username already exists"), s) := by
  obtain ⟨u, hu, hname⟩ := h
  cases hf : s.users.find? (fun u => u.Username = req.Username) with
  | none =>
    rw [List.find?_eq_none] at hf
    exact absurd (by simpa using hname) (hf u hu)
  | some x => simp [AuthService.Register, UserRepository.GetByUsername, hf]

/-- A registration with a free username and a taken email fails with
`email already exists` and changes nothing. -/
theorem AuthService.Register_email_taken (bc : Bcrypt) (env : String) (s : DB)
    (req : RegisterRequest) (salt : Nat) (now tokenTime : Time)
    (hfree : ∀ u ∈ s.users, u.Username ≠ req.Username)
    (h : ∃ u ∈ s.users, u.Email = req.Email) :
    AuthService.Register bc env s req salt now tokenTime =
      (.error (.new "email already exists"), s) := by
  obtain ⟨u, hu, hmail⟩ := h
  have hn : s.users.find? (fun u => u.Username = req.Username) = none := by
    rw [List.find?_eq_none]
    intro v hv
    simpa using hfree v hv
  cases hf : s.users.find? (fun u => u.Email = req.Email) with
  | none =>
    rw [List.find?_eq_none] at hf
    exact absurd (by simpa using hmail) (hf u hu)
  | some x =>
    simp [AuthService.Register, UserRepository.GetByUsername, UserRepository.GetByEmail, hn, hf]

/-- A successful registration stores a user with the request's username and
email. -/
theorem AuthService.Register_success {bc : Bcrypt} {env : String} {s : DB}
    {req : RegisterRequest} {salt : Nat} {now tokenTime : Time} {resp : TokenResponse} {s1 : DB}
    (h : AuthService.Register bc env s req salt now tokenTime = (.ok resp, s1)) :
    ∃ u ∈ s1.users, u.Username = req.Username ∧ u.Email = req.Email := by
  unfold AuthService.Register at h
  split at h
  · simp at h
  · split at h
    · simp at h
    · split at h
      · simp at h
      · rename_i hashedPassword _
        split at h
        · simp at h
        · rename_i user s2 hc
          simp only [AuthService.generateToken, Prod.mk.injEq] at h
          obtain ⟨-, rfl⟩ := h
          unfold UserRepository.Create at hc
          simp only [] at hc
          split at hc
          · simp at hc
          · rename_i id s3 hins
            simp only [Prod.mk.injEq] at hc
            obtain ⟨-, rfl⟩ := hc
            unfold DB.insertUser at hins
            simp only [] at hins
            split_ifs at hins <;> simp only [Prod.mk.injEq, reduceCtorEq, false_and] at hins
            obtain ⟨-, rfl⟩ := hins
            exact ⟨{ ID := s.usersSeq + 1, Username := req.Username, Email := req.Email,
                     Password := hashedPassword, CreatedAt := now, UpdatedAt := now },
              List.mem_append_right _ (List.mem_singleton.mpr rfl), rfl, rfl⟩

/-- C9: in a state that holds a user with username U and email E, `Register`
fails and adds no user (the state is unchanged): with `username already
exists` when the request's username is U, and, when the request's email is E,
with `username already exists` or `email already exists`, the latter exactly
when no user has the request's username.  After a successful `Register`, and
whatever service calls follow it, a `Register` with the same username or the
same email fails with one of these two errors. -/
theorem Register_conflict (bc : Bcrypt) (env : String) (s : DB) (req : RegisterRequest)
    (salt : Nat) (now tokenTime : Time) :
    (∀ u ∈ s.users, u.Username = req.Username →
      AuthService.Register bc env s req salt now tokenTime =
        (.error (.new "username already exists"), s)) ∧
    (∀ u ∈ s.users, u.Email = req.Email →
      (AuthService.Register bc env s req salt now tokenTime =
          (.error (.new "username already exists"), s) ∨
        AuthService.Register bc env s req salt now tokenTime =
          (.error (.new "email already exists"), s)) ∧
      ((∀ v ∈ s.users, v.Username ≠ req.Username) →
        AuthService.Register bc env s req salt now tokenTime =
          (.error (.new "email already exists"), s))) ∧
    (∀ (resp : TokenResponse) (s1 : DB),
      AuthService.Register bc env s req salt now tokenTime = (.ok resp, s1) →
      ∀ (ops : List Op) (req2 : RegisterRequest) (salt2 : Nat) (now2 tokenTime2 : Time),
        req2.Username = req.Username ∨ req2.Email = req.Email →
        AuthService.Register bc env (s1.run bc env ops) req2 salt2 now2 tokenTime2 =
            (.error (.new "username already exists"), s1.run bc env ops) ∨
          AuthService.Register bc env (s1.run bc env ops) req2 salt2 now2 tokenTime2 =
            (.error (.new "email already exists"), s1.run bc env ops)) := by
  have key : ∀ (t : DB) (r : RegisterRequest) (sl : Nat) (n1 n2 : Time),
      (∃ u ∈ t.users, u.Username = r.Username ∨ u.Email = r.Email) →
      AuthService.Register bc env t r sl n1 n2 = (.error (.new "username already exists"), t) ∨
      AuthService.Register bc env t r sl n1 n2 = (.error (.new "email already exists"), t) := by
    intro t r sl n1 n2 ⟨u, hu, h⟩
    by_cases hname : ∃ v ∈ t.users, v.Username = r.Username
    · exact Or.inl (AuthService.Register_username_taken bc env t r sl n1 n2 hname)
    · have hfree : ∀ v ∈ t.users, v.Username ≠ r.Username := fun v hv hv2 => hname ⟨v, hv, hv2⟩
      rcases h with h | h
      · exact absurd h (hfree u hu)
      · exact Or.inr (AuthService.Register_email_taken bc env t r sl n1 n2 hfree ⟨u, hu, h⟩)
  refine ⟨?_, ?_, ?_⟩
  · intro u hu hname
    exact AuthService.Register_username_taken bc env s req salt now tokenTime ⟨u, hu, hname⟩
  · intro u hu hmail
    refine ⟨key s req salt now tokenTime ⟨u, hu, Or.inr hmail⟩, fun hfree => ?_⟩
    exact AuthService.Register_email_taken bc env s req salt now tokenTime hfree ⟨u, hu, hmail⟩
  · intro resp s1 hreg ops req2 salt2 now2 tokenTime2 hsame
    obtain ⟨u, hu, hname, hmail⟩ := AuthService.Register_success hreg
    apply key
    refine ⟨u, DB.run_users_mono bc env s1 ops hu, ?_⟩
    rcases hsame with h | h
    · exact Or.inl (hname.trans h.symm)
    · exact Or.inr (hmail.trans h.symm)

/-- C9 at the sample state: a registration with the username of the first
sample user, and one with a new username and the email of the second. -/
theorem Register_conflict_witness :
    AuthService.Register sampleBcrypt "" sampleDB
        { Username := "alice", Email := "new@example.org", Password := "secret1" } 0 50 50 =
      (.error (.new "username already exists"), sampleDB) ∧
    AuthService.Register sampleBcrypt "" sampleDB
        { Username := "carol", Email := "bob@example.org", Password := "secret2" } 0 50 50 =
      (.error (.new "email already exists"), sampleDB) :=
  ⟨(Register_conflict sampleBcrypt "" sampleDB
      { Username := "alice", Email := "new@example.org", Password := "secret1" } 0 50 50).1
      alice (by decide) (by decide),
   ((Register_conflict sampleBcrypt "" sampleDB
      { Username := "carol", Email := "bob@example.org", Password := "secret2" } 0 50 50).2.1
      bob (by decide) (by decide)).2 (by decide)⟩

/-! ## Numbers: rounding to `float64` and conversion to `int` -/

/-- A whole number rounds to itself. -/
theorem roundHalfEven_intCast (n : Int) : roundHalfEven (n : ℚ) = n := by
  simp [roundHalfEven]

/-- The leading binary digit of a positive natural number. -/
theorem log2Floor_natCast {N : ℕ} (hN : N ≠ 0) : log2Floor (N : ℚ) = (Nat.log2 N : Int) := by
  unfold log2Floor
  have h1 : ((N : ℚ)).num.natAbs = N := by simp
  have h2 : ((N : ℚ)).den = 1 := by simp
  have h3 : Nat.log2 1 = 0 := by
    have := (Nat.log2_lt (n := 1) (k := 1) (by decide)).mpr (by decide)
    omega
  simp only [h1, h2, h3, Nat.cast_zero, sub_zero, zpow_natCast]
  rw [if_pos]
  have := Nat.log2_self_le hN
  exact_mod_cast this

/-- A natural number of at most 53 binary digits, and `2 ^ 53`, is a
`float64`. -/
theorem roundFloat64_natCast {N : ℕ} (h : N ≤ 2 ^ 53) : roundFloat64 (N : ℚ) = N := by
  by_cases hN : N = 0
  · simp [roundFloat64, hN]
  unfold roundFloat64
  have hne : (N : ℚ) ≠ 0 := by exact_mod_cast hN
  have habs : |(N : ℚ)| = N := abs_of_nonneg (by positivity)
  have hpos : ¬ ((N : ℚ) < 0) := by
    have : (0 : ℚ) ≤ N := by positivity
    linarith
  simp only [hne, if_false, habs, hpos, log2Floor_natCast hN]
  have hk : Nat.log2 N ≤ 53 := by
    by_contra hc
    have h54 : ¬ Nat.log2 N < 54 := by omega
    rw [Nat.log2_lt hN] at h54
    have : (2 : ℕ) ^ 53 < 2 ^ 54 := by norm_num
    omega
  have hmax : max ((Nat.log2 N : Int) - 52) (-1074) = (Nat.log2 N : Int) - 52 := by
    apply max_eq_left
    omega
  rw [hmax]
  by_cases hk2 : Nat.log2 N ≤ 52
  · obtain ⟨j, hj⟩ : ∃ j : ℕ, (Nat.log2 N : Int) - 52 = -(j : Int) := ⟨52 - Nat.log2 N, by omega⟩
    rw [hj, zpow_neg, zpow_natCast, div_inv_eq_mul]
    have : ((N : ℚ) * 2 ^ j) = (((N * 2 ^ j : ℕ) : Int) : ℚ) := by push_cast; ring
    rw [this, roundHalfEven_intCast]
    push_cast
    field_simp
  · have hk3 : Nat.log2 N = 53 := by omega
    have hN53 : N = 2 ^ 53 := by
      have h1 := Nat.log2_self_le hN
      rw [hk3] at h1
      omega
    subst hN53
    rw [hk3]
    have : (((2 ^ 53 : ℕ) : ℚ)) / 2 ^ (((53 : ℕ) : Int) - 52) = (((2 ^ 52 : ℕ) : Int) : ℚ) := by
      norm_num
    rw [this, roundHalfEven_intCast]
    norm_num

/-- Rounding commutes with negation. -/
theorem roundFloat64_neg (x : ℚ) : roundFloat64 (-x) = -roundFloat64 x := by
  unfold roundFloat64
  by_cases h0 : x = 0
  · simp [h0]
  · have h0' : -x ≠ 0 := neg_ne_zero.mpr h0
    simp only [h0, h0', if_false, abs_neg]
    rcases lt_or_gt_of_ne h0 with h | h
    · have : ¬ (-x < 0) := by linarith
      simp [h, this]
    · have h1 : ¬ (x < 0) := by linarith
      have h2 : -x < 0 := by linarith
      simp [h1, h2]

/-- Every whole number of magnitude at most `2 ^ 53` is a `float64`. -/
theorem roundFloat64_intCast (n : Int) (h : |n| ≤ 2 ^ 53) : roundFloat64 (n : ℚ) = n := by
  obtain ⟨N, rfl | rfl⟩ := Int.eq_nat_or_neg n
  · have hb : N ≤ 2 ^ 53 := by
      rw [abs_of_nonneg (Int.natCast_nonneg N)] at h
      exact_mod_cast h
    exact_mod_cast roundFloat64_natCast hb
  · have hb : N ≤ 2 ^ 53 := by
      rw [abs_neg, abs_of_nonneg (Int.natCast_nonneg N)] at h
      exact_mod_cast h
    push_cast
    rw [roundFloat64_neg, roundFloat64_natCast hb]

/-- A natural number from `2 ^ 53` on rounds to at least the power of two of
its leading digit. -/
theorem roundFloat64_natCast_ge {N : ℕ} (h : 2 ^ 53 ≤ N) :
    (2 : ℚ) ^ Nat.log2 N ≤ roundFloat64 (N : ℚ) := by
  have hN : N ≠ 0 := by
    intro h0
    subst h0
    norm_num at h
  unfold roundFloat64
  have hne : (N : ℚ) ≠ 0 := by exact_mod_cast hN
  have habs : |(N : ℚ)| = N := abs_of_nonneg (by positivity)
  have hpos : ¬ ((N : ℚ) < 0) := by
    have : (0 : ℚ) ≤ N := by positivity
    linarith
  simp only [hne, if_false, habs, hpos, log2Floor_natCast hN]
  have hk : 53 ≤ Nat.log2 N := by
    by_contra hc
    have h53 : Nat.log2 N < 53 := by omega
    rw [Nat.log2_lt hN] at h53
    omega
  have hmax : max ((Nat.log2 N : Int) - 52) (-1074) = (Nat.log2 N : Int) - 52 := by
    apply max_eq_left
    omega
  rw [hmax]
  obtain ⟨j, hj⟩ : ∃ j : ℕ, Nat.log2 N = j + 53 := ⟨Nat.log2 N - 53, by omega⟩
  have he : ((Nat.log2 N : Int) - 52) = ((j + 1 : ℕ) : Int) := by
    rw [hj]
    push_cast
    ring
  rw [he, zpow_natCast, hj]
  have hle : (2 : ℚ) ^ (j + 53) ≤ N := by
    have := Nat.log2_self_le hN
    rw [hj] at this
    exact_mod_cast this
  have hq : (2 : ℚ) ^ 52 ≤ (N : ℚ) / 2 ^ (j + 1) := by
    rw [le_div_iff₀ (by positivity)]
    calc (2 : ℚ) ^ 52 * 2 ^ (j + 1) = 2 ^ (j + 53) := by ring
      _ ≤ N := hle
  have hfloor : ((2 ^ 52 : ℕ) : Int) ≤ ⌊(N : ℚ) / 2 ^ (j + 1)⌋ := by
    rw [Int.le_floor]
    push_cast
    exact hq
  have hround : ((2 ^ 52 : ℕ) : Int) ≤ roundHalfEven ((N : ℚ) / 2 ^ (j + 1)) := by
    unfold roundHalfEven
    simp only []
    split_ifs <;> omega
  have hround' : (2 : ℚ) ^ 52 ≤ (roundHalfEven ((N : ℚ) / 2 ^ (j + 1)) : ℚ) := by
    exact_mod_cast hround
  calc (2 : ℚ) ^ (j + 53) = 2 ^ 52 * 2 ^ (j + 1) := by ring
    _ ≤ (roundHalfEven ((N : ℚ) / 2 ^ (j + 1)) : ℚ) * 2 ^ (j + 1) :=
      mul_le_mul_of_nonneg_right hround' (by positivity)

/-- The `float64` of an integer that is at most an integer of magnitude at
most `2 ^ 53` is at most that integer. -/
theorem roundFloat64_intCast_le {n E : Int} (hn : n ≤ E) (hE : |E| ≤ 2 ^ 53) :
    roundFloat64 (n : ℚ) ≤ E := by
  have hE' := abs_le.mp hE
  by_cases hlow : -(2 ^ 53) ≤ n
  · have : |n| ≤ 2 ^ 53 := abs_le.mpr ⟨hlow, by omega⟩
    rw [roundFloat64_intCast n this]
    exact_mod_cast hn
  · obtain ⟨N, hN⟩ : ∃ N : ℕ, n = -(N : Int) := ⟨n.natAbs, by omega⟩
    subst hN
    have hb : 2 ^ 53 ≤ N := by
      have : (2 : Int) ^ 53 ≤ N := by omega
      exact_mod_cast this
    have hN0 : N ≠ 0 := by
      intro h0
      subst h0
      norm_num at hb
    have h1 := roundFloat64_natCast_ge hb
    have h3 : (2 : ℚ) ^ 53 ≤ 2 ^ Nat.log2 N := by
      apply pow_le_pow_right₀ (by norm_num)
      by_contra hc
      have h53 : Nat.log2 N < 53 := by omega
      rw [Nat.log2_lt hN0] at h53
      omega
    push_cast
    rw [roundFloat64_neg]
    have h2 : (-(2 : ℚ) ^ 53) ≤ (E : ℚ) := by exact_mod_cast hE'.1
    linarith

/-- The number `2 ^ 53 + 1` is not a `float64`: it rounds to `2 ^ 53`. -/
theorem roundFloat64_two_pow_53_succ :
    roundFloat64 9007199254740993 = 9007199254740992 := by
  have hlog : Nat.log2 9007199254740993 = 53 := by
    have h1 : Nat.log2 9007199254740993 < 54 := (Nat.log2_lt (by norm_num)).mpr (by norm_num)
    have h2 : ¬ Nat.log2 9007199254740993 < 53 := by
      rw [Nat.log2_lt (by norm_num)]
      norm_num
    omega
  have hl : log2Floor (9007199254740993 : ℚ) = 53 := by
    have := log2Floor_natCast (N := 9007199254740993) (by norm_num)
    rw [hlog] at this
    exact_mod_cast this
  unfold roundFloat64
  have habs : |(9007199254740993 : ℚ)| = 9007199254740993 := abs_of_nonneg (by norm_num)
  rw [if_neg (by norm_num), habs, hl]
  have hmax : max ((53 : Int) - 52) (-1074) = 1 := by decide
  simp only [hmax, zpow_one]
  have hr : roundHalfEven ((9007199254740993 : ℚ) / 2) = 4503599627370496 := by
    have hf : ⌊(9007199254740993 : ℚ) / 2⌋ = 4503599627370496 := by
      rw [Int.floor_eq_iff]
      constructor <;> norm_num
    unfold roundHalfEven
    simp only [hf]
    norm_num
  rw [hr]
  norm_num

/-- The number seven and a half is a `float64`. -/
theorem roundFloat64_seven_and_a_half : roundFloat64 (15 / 2) = 15 / 2 := by
  have hnum : ((15 : ℚ) / 2).num = 15 := by
    have : ((15 : ℚ) / 2) = Rat.divInt 15 2 := by norm_num [Rat.divInt_eq_div]
    rw [this]
    rfl
  have hden : ((15 : ℚ) / 2).den = 2 := by
    have : ((15 : ℚ) / 2) = Rat.divInt 15 2 := by norm_num [Rat.divInt_eq_div]
    rw [this]
    rfl
  have hl15 : Nat.log2 15 = 3 := by
    have h1 : Nat.log2 15 < 4 := (Nat.log2_lt (by norm_num)).mpr (by norm_num)
    have h2 : ¬ Nat.log2 15 < 3 := by
      rw [Nat.log2_lt (by norm_num)]
      norm_num
    omega
  have hl2 : Nat.log2 2 = 1 := by
    have h1 : Nat.log2 2 < 2 := (Nat.log2_lt (by norm_num)).mpr (by norm_num)
    have h2 : ¬ Nat.log2 2 < 1 := by
      rw [Nat.log2_lt (by norm_num)]
      norm_num
    omega
  have habs : |(15 : ℚ) / 2| = 15 / 2 := abs_of_nonneg (by norm_num)
  have hl : log2Floor ((15 : ℚ) / 2) = 2 := by
    unfold log2Floor
    have hna : Int.natAbs 15 = 15 := rfl
    simp only [hnum, hden, hna, hl15, hl2]
    norm_num
  unfold roundFloat64
  rw [if_neg (by norm_num), habs, hl]
  have hmax : max ((2 : Int) - 52) (-1074) = -50 := by decide
  simp only [hmax]
  have hq : (15 : ℚ) / 2 / 2 ^ (-50 : Int) = ((8444249301319680 : Int) : ℚ) := by
    rw [zpow_neg]
    norm_num
  rw [hq, roundHalfEven_intCast, zpow_neg]
  norm_num

/-- `int(7.5)` is 7. -/
theorem intOfFloat64_seven_and_a_half : intOfFloat64 (15 / 2) = 7 := by
  have hnum : ((15 : ℚ) / 2).num = 15 := by
    have : ((15 : ℚ) / 2) = Rat.divInt 15 2 := by norm_num [Rat.divInt_eq_div]
    rw [this]
    rfl
  have hden : ((15 : ℚ) / 2).den = 2 := by
    have : ((15 : ℚ) / 2) = Rat.divInt 15 2 := by norm_num [Rat.divInt_eq_div]
    rw [this]
    rfl
  unfold intOfFloat64
  simp only [hnum, hden]
  decide

/-- Every whole number of magnitude at most `2 ^ 53` is in the range of
`float64`. -/
theorem float64_intCast (n : Int) (h : |n| ≤ 2 ^ 53) : float64 (n : ℚ) = some (n : ℚ) := by
  unfold float64
  rw [roundFloat64_intCast n h, if_neg]
  rw [not_le]
  have h1 : |(n : ℚ)| ≤ 2 ^ 53 := by exact_mod_cast h
  calc |(n : ℚ)| ≤ 2 ^ 53 := h1
    _ < 2 ^ 1024 := pow_lt_pow_right₀ (by norm_num) (by norm_num)

/-- The leading binary digit of a power of two. -/
theorem log2_two_pow (n : ℕ) : Nat.log2 (2 ^ n) = n := by
  have h1 : Nat.log2 (2 ^ n) < n + 1 :=
    (Nat.log2_lt (by positivity)).mpr (Nat.pow_lt_pow_right (by decide) (Nat.lt_succ_self n))
  have h2 : ¬ Nat.log2 (2 ^ n) < n := by
    rw [Nat.log2_lt (by positivity)]
    exact lt_irrefl _
  omega

/-- A power of two from `2 ^ 1024` on is out of the range of `float64`. -/
theorem float64_two_pow (k : ℕ) (hk : 1024 ≤ k) : float64 ((2 : ℚ) ^ k) = none := by
  have h := roundFloat64_natCast_ge (N := 2 ^ k)
    (Nat.pow_le_pow_right (by decide) (le_trans (by decide) hk))
  rw [log2_two_pow] at h
  push_cast at h
  have h2 : (2 : ℚ) ^ (1024 : ℕ) ≤ (2 : ℚ) ^ k := pow_le_pow_right₀ (by norm_num) hk
  exact if_pos (h2.trans (h.trans (le_abs_self _)))

/-- The number `2 ^ 1024` is out of the range of `float64`. -/
theorem float64_two_pow_1024 : float64 ((2 : ℚ) ^ (1024 : ℕ)) = none :=
  float64_two_pow 1024 (le_refl _)

/-- The conversion of a `float64` that is a whole number of magnitude at most
`2 ^ 53` to an `int` is that number. -/
theorem intOfFloat64_intCast (n : Int) (h : |n| ≤ 2 ^ 53) : intOfFloat64 (n : ℚ) = n := by
  unfold intOfFloat64
  have h' := abs_le.mp h
  simp only [Rat.num_intCast, Rat.den_intCast, Nat.cast_one, Int.tdiv_one]
  rw [if_pos]
  constructor <;> omega

/-- The instant of a numeric date that is a whole number of seconds. -/
theorem jwt.numericDate_intCast (n : Int) (h : |n| ≤ 2 ^ 53) :
    jwt.numericDate (n : ℚ) = n * Second := by
  unfold jwt.numericDate
  simp only [Rat.num_intCast, Rat.den_intCast, Nat.cast_one, Int.tdiv_one, sub_self, zero_mul]
  have h0 : roundFloat64 0 = 0 := by simp [roundFloat64]
  have h1 : intOfFloat64 0 = 0 := by
    have := intOfFloat64_intCast 0 (by norm_num)
    simpa using this
  rw [h0, h1, intOfFloat64_intCast n h, add_zero]
  exact Int.ediv_mul_cancel (Dvd.intro_left n rfl)

/-- Reading a claim of the decoded claims is decoding the claim read. -/
theorem MapClaims.get_decode (claims : MapClaims) (key : String) :
    MapClaims.get (claims.map fun kv => (kv.1, jwt.decode kv.2)) key =
      (claims.get key).map jwt.decode := by
  unfold MapClaims.get
  induction claims with
  | nil => rfl
  | cons kv rest ih =>
    simp only [List.map_cons, List.find?_cons]
    by_cases hk : kv.1 = key
    · simp [hk]
    · simp only [hk, decide_False]
      exact ih

/-! ## Session tokens -/

/-- What `ValidateToken` does with a token that carries an HMAC signature
made with the server's secret and whose claims decode: the library validates
the decoded claims, and the method then reads the decoded `exp` and `id`. -/
theorem AuthService.ValidateToken_signed (env : String) (t : Token) (parseTime now : Time)
    {m : SigningMethod} (hm : t.Method = some m) (hh : m.isHMAC = true)
    (hs : t.SignedWith = some (AuthService.jwtSecret env))
    (hd : ∀ kv ∈ t.Claims, jwt.decodable kv.2 = true) :
    AuthService.ValidateToken env (.compact t) parseTime now =
      match jwt.Validate (t.Claims.map fun kv => (kv.1, jwt.decode kv.2)) parseTime with
      | some e => .error (.jwt e)
      | none =>
        match (t.Claims.get "exp").map jwt.decode with
        | some (.number exp) =>
          if roundFloat64 (Unix now) > exp then .error (.new "token expired")
          else
            match (t.Claims.get "id").map jwt.decode with
            | some (.number id) => .ok (intOfFloat64 id)
            | _ => .panicked
        | _ => .panicked := by
  have hall : (t.Claims.all fun kv => jwt.decodable kv.2) = true := by
    rw [List.all_eq_true]
    exact hd
  simp only [AuthService.ValidateToken, jwt.Parse, hall, hm, hh, hs, not_true_eq_false,
    if_false, and_self, if_true]
  cases hv : jwt.Validate (t.Claims.map fun kv => (kv.1, jwt.decode kv.2)) parseTime with
  | some e => rfl
  | none =>
    simp only [MapClaims.get_decode]
    rfl

/-- A token that does not carry an HMAC signature made with the server's
secret, or whose claims do not decode, is refused with an error. -/
theorem AuthService.ValidateToken_unsigned (env : String) (t : Token) (parseTime now : Time)
    (h : t.SignedWith ≠ some (AuthService.jwtSecret env) ∨
      (∀ m, t.Method = some m → m.isHMAC = false) ∨
      ¬ (∀ kv ∈ t.Claims, jwt.decodable kv.2 = true)) :
    ∃ e, AuthService.ValidateToken env (.compact t) parseTime now = .error e := by
  by_cases hall : (t.Claims.all fun kv => jwt.decodable kv.2) = true
  swap
  · exact ⟨.jwt .malformed, by simp [AuthService.ValidateToken, jwt.Parse, hall]⟩
  rcases hm : t.Method with _ | m
  · exact ⟨.jwt .unverifiable, by simp [AuthService.ValidateToken, jwt.Parse, hm, hall]⟩
  by_cases hh : m.isHMAC = true
  swap
  · exact ⟨.jwt .unverifiable, by simp [AuthService.ValidateToken, jwt.Parse, hm, hh, hall]⟩
  by_cases hsig : t.SignedWith = some (AuthService.jwtSecret env)
  swap
  · exact ⟨.jwt .signatureInvalid, by
      simp [AuthService.ValidateToken, jwt.Parse, hm, hh, hsig, hall]⟩
  exfalso
  rcases h with h | h | h
  · exact h hsig
  · have := h m hm
    rw [hh] at this
    cases this
  · apply h
    rw [List.all_eq_true] at hall
    exact hall

/-- A token one of whose claims holds a number out of the range of `float64`
is refused as malformed. -/
theorem AuthService.ValidateToken_undecodable (env : String) (t : Token) (parseTime now : Time)
    (h : (t.Claims.all fun kv => jwt.decodable kv.2) = false) :
    AuthService.ValidateToken env (.compact t) parseTime now = .error (.jwt .malformed) := by
  simp [AuthService.ValidateToken, jwt.Parse, h]

/-- The library's validation of claims that carry `exp` and no `nbf`. -/
theorem jwt.Validate_exp_only {claims : MapClaims} {f : ℚ} (parseTime : Time)
    (hexp : claims.get "exp" = some (.number f)) (hnbf : claims.get "nbf" = none) :
    jwt.Validate claims parseTime =
      if f = 0 then none else if parseTime < jwt.numericDate f then none else some .expired := by
  simp only [jwt.Validate, jwt.checkDate, hexp, hnbf]
  split_ifs <;> simp_all

/-- The library's validation of claims that carry numbers for `exp` and
`nbf`. -/
theorem jwt.Validate_exp_nbf {claims : MapClaims} {f g : ℚ} (parseTime : Time)
    (hexp : claims.get "exp" = some (.number f)) (hnbf : claims.get "nbf" = some (.number g)) :
    jwt.Validate claims parseTime =
      if f ≠ 0 ∧ ¬ parseTime < jwt.numericDate f then some .expired
      else if g ≠ 0 ∧ parseTime < jwt.numericDate g then some .notValidYet
      else none := by
  simp only [jwt.Validate, jwt.checkDate, hexp, hnbf]
  by_cases hf : f = 0 <;> by_cases hg : g = 0 <;>
    by_cases h1 : parseTime < jwt.numericDate f <;>
    by_cases h2 : parseTime < jwt.numericDate g <;> simp [hf, hg, h1, h2]

/-- What `ValidateToken` does with a token that carries an HMAC signature made
with the server's secret, whose claims decode, and that has numbers for `exp`
and `id` and no `nbf`: the library refuses it when the decoded `exp` is not
zero and not after the library's clock reading, the method refuses it when the
decoded `exp` is below the Unix seconds of its own reading as a `float64`, and
otherwise the result is the decoded `id` converted to an `int`. -/
theorem AuthService.ValidateToken_exp_id (env : String) (t : Token) (parseTime now : Time)
    {m : SigningMethod} {e i : ℚ} (hm : t.Method = some m) (hh : m.isHMAC = true)
    (hs : t.SignedWith = some (AuthService.jwtSecret env))
    (hd : ∀ kv ∈ t.Claims, jwt.decodable kv.2 = true)
    (hexp : t.Claims.get "exp" = some (.number e)) (hnbf : t.Claims.get "nbf" = none)
    (hid : t.Claims.get "id" = some (.number i)) :
    AuthService.ValidateToken env (.compact t) parseTime now =
      if roundFloat64 e ≠ 0 ∧ ¬ parseTime < jwt.numericDate (roundFloat64 e) then
        .error (.jwt .expired)
      else if roundFloat64 (Unix now) > roundFloat64 e then .error (.new "token expired")
      else .ok (intOfFloat64 (roundFloat64 i)) := by
  rw [AuthService.ValidateToken_signed env _ parseTime now hm hh hs hd]
  have hexpd : MapClaims.get (t.Claims.map fun kv => (kv.1, jwt.decode kv.2)) "exp" =
      some (.number (roundFloat64 e)) := by
    rw [MapClaims.get_decode, hexp]
    rfl
  have hnbfd : MapClaims.get (t.Claims.map fun kv => (kv.1, jwt.decode kv.2)) "nbf" = none := by
    rw [MapClaims.get_decode, hnbf]
    rfl
  rw [jwt.Validate_exp_only parseTime hexpd hnbfd]
  simp only [hexp, hid, Option.map_some', jwt.decode]
  by_cases h0 : roundFloat64 e = 0
  · simp only [h0, if_true, ne_eq, not_true_eq_false, false_and, if_false]
  · by_cases h1 : parseTime < jwt.numericDate (roundFloat64 e)
    · simp only [h0, h1, if_false, if_true, ne_eq, not_false_eq_true, not_true_eq_false,
        and_false]
    · simp only [h0, h1, if_false, ne_eq, not_false_eq_true, and_self, if_true]

/-- What `ValidateToken` does with a token of the form `generateToken` makes,
whatever the numbers of its `id` and `exp` claims, as long as they are in the
range of `float64`. -/
theorem AuthService.ValidateToken_issued (env : String) (id exp : ℚ) (username email : String)
    (parseTime now : Time) (hid : (float64 id).isSome = true)
    (hexp : (float64 exp).isSome = true) :
    AuthService.ValidateToken env
      (.compact
        { Method := some .HS256,
          Claims := [("id", .number id), ("username", .string username),
                     ("email", .string email), ("exp", .number exp)],
          SignedWith := some (AuthService.jwtSecret env) })
      parseTime now =
      if roundFloat64 exp ≠ 0 ∧ ¬ parseTime < jwt.numericDate (roundFloat64 exp) then
        .error (.jwt .expired)
      else if roundFloat64 (Unix now) > roundFloat64 exp then .error (.new "token expired")
      else .ok (intOfFloat64 (roundFloat64 id)) := by
  apply AuthService.ValidateToken_exp_id env _ parseTime now (m := .HS256) rfl rfl rfl
  · intro kv hkv
    simp only [List.mem_cons, List.mem_singleton, List.not_mem_nil, or_false] at hkv
    rcases hkv with rfl | rfl | rfl | rfl
    · exact hid
    · rfl
    · rfl
    · exact hexp
  · simp [MapClaims.get, List.find?]
  · simp [MapClaims.get, List.find?]
  · simp [MapClaims.get, List.find?]

/-- C10 (as amended): `generateToken` at issue time `t` returns the expiry
`t + 24h` and an HS256 token, signed with the server secret, whose claims are
the user's id, username and email and `exp`, the Unix seconds of `t + 24h`.
When the user's id and that `exp` are at most `2 ^ 53` in magnitude,
`ValidateToken` with the same secret returns that user's id whenever the
library's clock reading is strictly before the instant `exp` and the Unix
seconds of the method's own later reading do not exceed `exp`. -/
theorem token_roundtrip (env : String) (user : User) (t parseTime now : Time)
    (hid : |user.ID| ≤ 2 ^ 53) (hexp : |Unix (t + 24 * Hour)| ≤ 2 ^ 53)
    (hparse : parseTime < Unix (t + 24 * Hour) * Second)
    (hnow : Unix now ≤ Unix (t + 24 * Hour)) :
    AuthService.generateToken env user t =
      .ok (.compact
            { Method := some .HS256,
              Claims := [("id", .number user.ID), ("username", .string user.Username),
                         ("email", .string user.Email), ("exp", .number (Unix (t + 24 * Hour)))],
              SignedWith := some (AuthService.jwtSecret env) },
           t + 24 * Hour) ∧
    AuthService.ValidateToken env
      (.compact
        { Method := some .HS256,
          Claims := [("id", .number user.ID), ("username", .string user.Username),
                     ("email", .string user.Email), ("exp", .number (Unix (t + 24 * Hour)))],
          SignedWith := some (AuthService.jwtSecret env) })
      parseTime now = .ok user.ID := by
  refine ⟨rfl, ?_⟩
  rw [AuthService.ValidateToken_issued env _ _ _ _ parseTime now
    (by rw [float64_intCast _ hid]; rfl) (by rw [float64_intCast _ hexp]; rfl)]
  have hle := roundFloat64_intCast_le hnow hexp
  rw [roundFloat64_intCast _ hexp]
  rw [jwt.numericDate_intCast _ hexp, roundFloat64_intCast _ hid, intOfFloat64_intCast _ hid,
    if_neg (fun h => h.2 hparse), if_neg (not_lt.mpr hle)]

/-- C10, the claim as stated fails, in three ways.  A token issued at time 0
has `exp` 86400; at the instant 86400 s the Unix seconds do not exceed `exp`,
yet `ValidateToken` returns the library's expiry error.  A token issued at
time 0 for a user with id `2 ^ 53 + 1` is validated at time 0 with the id
`2 ^ 53`, not the user's.  A token issued 24 hours before second `2 ^ 53 + 1`
is refused as expired at second `2 ^ 53`. -/
theorem token_roundtrip_fails :
    (AuthService.generateToken "" alice 0 =
      .ok (.compact
            { Method := some .HS256,
              Claims := [("id", .number 1), ("username", .string "alice"),
                         ("email", .string "alice@example.org"), ("exp", .number 86400)],
              SignedWith := some (AuthService.jwtSecret "") },
           86400000000000) ∧
    Unix 86400000000000 ≤ 86400 ∧
    AuthService.ValidateToken ""
      (.compact
        { Method := some .HS256,
          Claims := [("id", .number 1), ("username", .string "alice"),
                     ("email", .string "alice@example.org"), ("exp", .number 86400)],
          SignedWith := some (AuthService.jwtSecret "") })
      86400000000000 86400000000000 = .error (.jwt .expired)) ∧
    (AuthService.generateToken "" { alice with ID := 9007199254740993 } 0 =
      .ok (.compact
            { Method := some .HS256,
              Claims := [("id", .number 9007199254740993), ("username", .string "alice"),
                         ("email", .string "alice@example.org"), ("exp", .number 86400)],
              SignedWith := some (AuthService.jwtSecret "") },
           86400000000000) ∧
    Unix 0 ≤ 86400 ∧
    AuthService.ValidateToken ""
      (.compact
        { Method := some .HS256,
          Claims := [("id", .number 9007199254740993), ("username", .string "alice"),
                     ("email", .string "alice@example.org"), ("exp", .number 86400)],
          SignedWith := some (AuthService.jwtSecret "") })
      0 0 = .ok 9007199254740992) ∧
    (AuthService.generateToken "" alice (9007199254740993 * Second - 24 * Hour) =
      .ok (.compact
            { Method := some .HS256,
              Claims := [("id", .number 1), ("username", .string "alice"),
                         ("email", .string "alice@example.org"),
                         ("exp", .number 9007199254740993)],
              SignedWith := some (AuthService.jwtSecret "") },
           9007199254740993 * Second) ∧
    9007199254740992 * Second < 9007199254740993 * Second ∧
    Unix (9007199254740992 * Second) ≤ 9007199254740993 ∧
    AuthService.ValidateToken ""
      (.compact
        { Method := some .HS256,
          Claims := [("id", .number 1), ("username", .string "alice"),
                     ("email", .string "alice@example.org"),
                     ("exp", .number 9007199254740993)],
          SignedWith := some (AuthService.jwtSecret "") })
      (9007199254740992 * Second) (9007199254740992 * Second) = .error (.jwt .expired)) := by
  have hr1 : roundFloat64 (1 : ℚ) = 1 := by
    simpa using roundFloat64_intCast 1 (by norm_num)
  have hf1 : (float64 (1 : ℚ)).isSome = true := by
    have : float64 (1 : ℚ) = some 1 := by simpa using float64_intCast 1 (by norm_num)
    rw [this]
    rfl
  have hrE : roundFloat64 (86400 : ℚ) = 86400 := by
    simpa using roundFloat64_intCast 86400 (by norm_num)
  have hfE : (float64 (86400 : ℚ)).isSome = true := by
    have : float64 (86400 : ℚ) = some 86400 := by simpa using float64_intCast 86400 (by norm_num)
    rw [this]
    rfl
  have hnE : jwt.numericDate (86400 : ℚ) = 86400 * Second := by
    simpa using jwt.numericDate_intCast 86400 (by norm_num)
  have hrB : roundFloat64 (9007199254740993 : ℚ) = 9007199254740992 :=
    roundFloat64_two_pow_53_succ
  have hfB : (float64 (9007199254740993 : ℚ)).isSome = true := by
    unfold float64
    rw [hrB, if_neg]
    · rfl
    rw [not_le, abs_of_nonneg (by norm_num)]
    calc (9007199254740992 : ℚ) = 2 ^ 53 := by norm_num
      _ < 2 ^ 1024 := pow_lt_pow_right₀ (by norm_num) (by decide)
  have hnB : jwt.numericDate (9007199254740992 : ℚ) = 9007199254740992 * Second := by
    simpa using jwt.numericDate_intCast 9007199254740992 (by norm_num)
  have hiB : intOfFloat64 (9007199254740992 : ℚ) = 9007199254740992 := by
    simpa using intOfFloat64_intCast 9007199254740992 (by norm_num)
  have hr0 : roundFloat64 ((Unix 0 : Int) : ℚ) = 0 := by
    have : Unix 0 = 0 := by decide
    rw [this]
    simp [roundFloat64]
  have hE0 : ¬ ((86400 : ℚ) = 0) := by norm_num
  have hB0 : ¬ ((9007199254740992 : ℚ) = 0) := by norm_num
  have hu1 : Unix (0 + 24 * Hour) = 86400 := by decide
  have hu2 : Unix (9007199254740993 * Second - 24 * Hour + 24 * Hour) = 9007199254740993 := by
    decide
  have ht2 : (9007199254740993 * Second - 24 * Hour + 24 * Hour : Time) =
      9007199254740993 * Second := by decide
  refine ⟨⟨?_, by decide, ?_⟩, ⟨?_, by decide, ?_⟩, ⟨?_, by decide, by decide, ?_⟩⟩
  · simp only [AuthService.generateToken, alice, hu1]
    norm_num
    decide
  · rw [AuthService.ValidateToken_issued "" _ _ _ _ _ _ hf1 hfE, hrE, hnE, if_pos]
    exact ⟨hE0, by decide⟩
  · simp only [AuthService.generateToken, alice, hu1]
    norm_num
    decide
  · rw [AuthService.ValidateToken_issued "" _ _ _ _ _ _ hfB hfE, hrE, hnE, hrB, hr0, hiB,
      if_neg, if_neg]
    · norm_num
    · intro h
      exact h.2 (by decide)
  · have hu3 : Unix (9007199254740993 * Second) = 9007199254740993 := by decide
    simp only [AuthService.generateToken, alice, hu2, ht2]
    norm_num [hu3]
  · rw [AuthService.ValidateToken_issued "" _ _ _ _ _ _ hf1 hfB, hrB, hnB, if_pos]
    exact ⟨hB0, by decide⟩

/-- C10, the amended statement for the first sample user and a token issued
at time 0, validated one nanosecond before the instant `exp`. -/
theorem token_roundtrip_witness :
    AuthService.ValidateToken ""
      (.compact
        { Method := some .HS256,
          Claims := [("id", .number alice.ID), ("username", .string alice.Username),
                     ("email", .string alice.Email), ("exp", .number (Unix (0 + 24 * Hour)))],
          SignedWith := some (AuthService.jwtSecret "") })
      86399999999999 86399999999999 = .ok 1 :=
  (token_roundtrip "" alice 0 86399999999999 86399999999999 (by decide) (by decide) (by decide)
    (by decide)).2

/-! ## Token validation -/

/-- The Unix seconds of an instant are past `n` exactly when the instant is
at or after the start of second `n + 1`. -/
theorem lt_Unix_iff (n : Int) (t : Time) : n < Unix t ↔ (n + 1) * Second ≤ t := by
  unfold Unix Second
  omega

/-- C11 (as amended): `ValidateToken` returns an error, and no user id, for
every token whose signature was not made with the server's secret, for every
token whose signing method is not HMAC, and, at a clock reading within
`2 ^ 53` seconds of the epoch, for every token whose `exp`, as the `float64`
the program reads, is earlier than the Unix seconds of the current time.  It
returns the `id` claim as the program reads it, the `float64` of the number
converted to an `int`, which for a whole number of magnitude at most `2 ^ 53`
is that number itself, when the token is signed with the server's secret by an
HMAC method, every number among its claims is in the range of `float64`, its
`exp` is a whole number of magnitude at most `2 ^ 53` that the library's clock
reading is strictly before and that the Unix seconds of the later reading do
not exceed, its `nbf`, if any, is a whole number of magnitude at most `2 ^ 53`
not after the library's reading, and its `id` is a number. -/
theorem ValidateToken_cases (env : String) (t : Token) (parseTime now : Time) :
    (t.SignedWith ≠ some (AuthService.jwtSecret env) →
      ∃ e, AuthService.ValidateToken env (.compact t) parseTime now = .error e) ∧
    ((∀ m, t.Method = some m → m.isHMAC = false) →
      ∃ e, AuthService.ValidateToken env (.compact t) parseTime now = .error e) ∧
    (∀ exp : ℚ, t.Claims.get "exp" = some (.number exp) → roundFloat64 exp < Unix now →
      |Unix now| ≤ 2 ^ 53 →
      ∃ e, AuthService.ValidateToken env (.compact t) parseTime now = .error e) ∧
    (∀ (m : SigningMethod) (exp : Int) (id : ℚ), t.Method = some m → m.isHMAC = true →
      t.SignedWith = some (AuthService.jwtSecret env) →
      (∀ kv ∈ t.Claims, jwt.decodable kv.2 = true) →
      t.Claims.get "exp" = some (.number exp) → |exp| ≤ 2 ^ 53 →
      parseTime < exp * Second → Unix now ≤ exp →
      (∀ c, t.Claims.get "nbf" = some c →
        ∃ n : Int, c = .number n ∧ |n| ≤ 2 ^ 53 ∧ (n = 0 ∨ n * Second ≤ parseTime)) →
      t.Claims.get "id" = some (.number id) →
      AuthService.ValidateToken env (.compact t) parseTime now =
          .ok (intOfFloat64 (roundFloat64 id)) ∧
        ∀ n : Int, id = n → |n| ≤ 2 ^ 53 →
          AuthService.ValidateToken env (.compact t) parseTime now = .ok n) := by
  refine ⟨?_, ?_, ?_, ?_⟩
  · intro hsig
    exact AuthService.ValidateToken_unsigned env t parseTime now (Or.inl hsig)
  · intro hmeth
    exact AuthService.ValidateToken_unsigned env t parseTime now (Or.inr (Or.inl hmeth))
  · intro exp hexp hlt hnow
    by_cases hd : ∀ kv ∈ t.Claims, jwt.decodable kv.2 = true
    swap
    · exact AuthService.ValidateToken_unsigned env t parseTime now (Or.inr (Or.inr hd))
    rcases hm : t.Method with _ | m
    · exact AuthService.ValidateToken_unsigned env t parseTime now
        (Or.inr (Or.inl (fun m h => by rw [hm] at h; cases h)))
    by_cases hh : m.isHMAC = true
    swap
    · refine AuthService.ValidateToken_unsigned env t parseTime now
        (Or.inr (Or.inl (fun m2 h => ?_)))
      rw [hm] at h
      cases h
      simpa using hh
    by_cases hs : t.SignedWith = some (AuthService.jwtSecret env)
    swap
    · exact AuthService.ValidateToken_unsigned env t parseTime now (Or.inl hs)
    rw [AuthService.ValidateToken_signed env t parseTime now hm hh hs hd]
    cases hv : jwt.Validate (t.Claims.map fun kv => (kv.1, jwt.decode kv.2)) parseTime with
    | some e => exact ⟨.jwt e, rfl⟩
    | none =>
      refine ⟨.new "token expired", ?_⟩
      simp only [hexp, Option.map_some', jwt.decode, roundFloat64_intCast _ hnow]
      rw [if_pos hlt]
  · intro m exp id hm hh hs hd hexp hexpb hparse hnow hnbf hid
    have hexpd : MapClaims.get (t.Claims.map fun kv => (kv.1, jwt.decode kv.2)) "exp" =
        some (.number exp) := by
      rw [MapClaims.get_decode, hexp]
      simp [jwt.decode, roundFloat64_intCast _ hexpb]
    have h1 : jwt.checkDate (t.Claims.map fun kv => (kv.1, jwt.decode kv.2)) "exp"
        (fun t => decide (parseTime < t)) .expired = none := by
      simp only [jwt.checkDate, hexpd, jwt.numericDate_intCast _ hexpb]
      split_ifs with h0 h1
      · rfl
      · rfl
      · exact absurd hparse (by simpa using h1)
    have h2 : jwt.checkDate (t.Claims.map fun kv => (kv.1, jwt.decode kv.2)) "nbf"
        (fun t => decide (¬ parseTime < t)) .notValidYet = none := by
      unfold jwt.checkDate
      rw [MapClaims.get_decode]
      cases hc : t.Claims.get "nbf" with
      | none => rfl
      | some c =>
        obtain ⟨n, rfl, hnb, hn0⟩ := hnbf c hc
        simp only [Option.map_some', jwt.decode, roundFloat64_intCast _ hnb,
          jwt.numericDate_intCast _ hnb]
        split_ifs with h0 h1
        · rfl
        · rfl
        · rcases hn0 with hn0 | hn0
          · exact absurd (by exact_mod_cast hn0) h0
          · exact absurd (not_lt.mpr hn0) (by simpa using h1)
    have hv : jwt.Validate (t.Claims.map fun kv => (kv.1, jwt.decode kv.2)) parseTime = none := by
      simp only [jwt.Validate, h1, h2]
    have hle := roundFloat64_intCast_le hnow hexpb
    have hmain : AuthService.ValidateToken env (.compact t) parseTime now =
        .ok (intOfFloat64 (roundFloat64 id)) := by
      rw [AuthService.ValidateToken_signed env t parseTime now hm hh hs hd, hv]
      simp only [hexp, hid, Option.map_some', jwt.decode, roundFloat64_intCast _ hexpb]
      rw [if_neg (not_lt.mpr hle)]
    refine ⟨hmain, ?_⟩
    intro n hn hnb
    rw [hmain, hn, roundFloat64_intCast _ hnb, intOfFloat64_intCast _ hnb]

/-- The numbers of the sample tokens as `float64` values. -/
theorem sampleNumbers_float64 :
    roundFloat64 7 = 7 ∧ (float64 7).isSome = true ∧ intOfFloat64 7 = 7 ∧
    roundFloat64 2000000000 = 2000000000 ∧ (float64 2000000000).isSome = true ∧
    jwt.numericDate 2000000000 = 2000000000 * Second ∧
    roundFloat64 1900000000 = 1900000000 ∧ (float64 1900000000).isSome = true ∧
    jwt.numericDate 1900000000 = 1900000000 * Second ∧
    roundFloat64 9007199254740992 = 9007199254740992 ∧
    (float64 9007199254740992).isSome = true ∧
    jwt.numericDate 9007199254740992 = 9007199254740992 * Second ∧
    intOfFloat64 9007199254740992 = 9007199254740992 ∧
    (float64 9007199254740993).isSome = true ∧
    (float64 (15 / 2)).isSome = true := by
  have some_of_eq : ∀ {x y : ℚ}, float64 x = some y → (float64 x).isSome = true := by
    intro x y h
    rw [h]
    rfl
  have small : ∀ {x y : ℚ}, roundFloat64 x = y → |y| < 2 ^ 1024 →
      (float64 x).isSome = true := by
    intro x y h hy
    unfold float64
    rw [h, if_neg (not_le.mpr hy)]
    rfl
  have hlt : ((2 : ℚ) ^ 53) < 2 ^ 1024 := pow_lt_pow_right₀ (by norm_num) (by decide)
  refine ⟨?_, ?_, ?_, ?_, ?_, ?_, ?_, ?_, ?_, ?_, ?_, ?_, ?_, ?_, ?_⟩
  · simpa using roundFloat64_intCast 7 (by norm_num)
  · exact some_of_eq (by simpa using float64_intCast 7 (by norm_num))
  · simpa using intOfFloat64_intCast 7 (by norm_num)
  · simpa using roundFloat64_intCast 2000000000 (by norm_num)
  · exact some_of_eq (by simpa using float64_intCast 2000000000 (by norm_num))
  · simpa using jwt.numericDate_intCast 2000000000 (by norm_num)
  · simpa using roundFloat64_intCast 1900000000 (by norm_num)
  · exact some_of_eq (by simpa using float64_intCast 1900000000 (by norm_num))
  · simpa using jwt.numericDate_intCast 1900000000 (by norm_num)
  · simpa using roundFloat64_intCast 9007199254740992 (by norm_num)
  · exact some_of_eq (by simpa using float64_intCast 9007199254740992 (by norm_num))
  · simpa using jwt.numericDate_intCast 9007199254740992 (by norm_num)
  · simpa using intOfFloat64_intCast 9007199254740992 (by norm_num)
  · apply small roundFloat64_two_pow_53_succ
    rw [abs_of_nonneg (by norm_num)]
    calc (9007199254740992 : ℚ) = 2 ^ 53 := by norm_num
      _ < 2 ^ 1024 := hlt
  · apply small roundFloat64_seven_and_a_half
    rw [abs_of_nonneg (by norm_num)]
    calc (15 / 2 : ℚ) ≤ 2 ^ 53 := by norm_num
      _ < 2 ^ 1024 := hlt

/-- C11, the claim as stated fails in its last part, in six ways.  Each of
the sample tokens is signed with the server's secret by HS256 and has an
`exp` that is not earlier than the current time, yet `ValidateToken` does not
return the embedded user id: for an `nbf` in the future it returns the
library's error; for the id `2 ^ 53 + 1` it returns `2 ^ 53`; for the id 7.5
it returns 7; for a further claim with the number `2 ^ 1024` it returns the
library's error for an undecodable token; for the `exp` `2 ^ 53 + 1` it
returns the library's expiry error already at second `2 ^ 53`.  And a token
whose `exp`, second `2 ^ 53`, is earlier than the current time, second
`2 ^ 53 + 1`, is accepted. -/
theorem ValidateToken_otherwise_fails :
    (postdatedToken.SignedWith = some (AuthService.jwtSecret "") ∧
      postdatedToken.Method = some .HS256 ∧
      postdatedToken.Claims.get "exp" = some (.number 2000000000) ∧
      postdatedToken.Claims.get "id" = some (.number 7) ∧
      ¬ (2000000000 < Unix 1000000000000) ∧
      AuthService.ValidateToken "" (.compact postdatedToken) 1000000000000 1000000000000 =
        .error (.jwt .notValidYet)) ∧
    (tokenWithBigID.Claims.get "id" = some (.number 9007199254740993) ∧
      AuthService.ValidateToken "" (.compact tokenWithBigID) 1000000000000 1000000000000 =
        .ok 9007199254740992) ∧
    (tokenWithFractionID.Claims.get "id" = some (.number (15 / 2)) ∧
      AuthService.ValidateToken "" (.compact tokenWithFractionID) 1000000000000
        1000000000000 = .ok 7) ∧
    (tokenOutOfRange.Claims.get "exp" = some (.number 2000000000) ∧
      tokenOutOfRange.Claims.get "id" = some (.number 7) ∧
      AuthService.ValidateToken "" (.compact tokenOutOfRange) 1000000000000 1000000000000 =
        .error (.jwt .malformed)) ∧
    (tokenBeyondPrecision.Claims.get "exp" = some (.number 9007199254740993) ∧
      9007199254740992 * Second < 9007199254740993 * Second ∧
      Unix (9007199254740992 * Second) ≤ 9007199254740993 ∧
      AuthService.ValidateToken "" (.compact tokenBeyondPrecision)
        (9007199254740992 * Second) (9007199254740992 * Second) = .error (.jwt .expired)) ∧
    (tokenAtPrecisionEdge.Claims.get "exp" = some (.number 9007199254740992) ∧
      9007199254740992 < Unix (9007199254740993 * Second) ∧
      AuthService.ValidateToken "" (.compact tokenAtPrecisionEdge)
        (9007199254740992 * Second - 1) (9007199254740993 * Second) = .ok 7) := by
  obtain ⟨hr7, hf7, hi7, hrE, hfE, hnE, hrN, hfN, hnN, hrP, hfP, hnP, hiP, hfB, hfH⟩ :=
    sampleNumbers_float64
  have hE0 : ¬ ((2000000000 : ℚ) = 0) := by norm_num
  have hN0 : ¬ ((1900000000 : ℚ) = 0) := by norm_num
  have hP0 : ¬ ((9007199254740992 : ℚ) = 0) := by norm_num
  have hnow : roundFloat64 ((Unix 1000000000000 : Int) : ℚ) = 1000 := by
    have : Unix 1000000000000 = 1000 := by decide
    rw [this]
    simpa using roundFloat64_intCast 1000 (by norm_num)
  refine ⟨⟨by decide, rfl, ?_, ?_, by decide, ?_⟩, ⟨?_, ?_⟩, ⟨?_, ?_⟩, ⟨?_, ?_, ?_⟩,
    ⟨?_, by decide, by decide, ?_⟩, ⟨?_, by decide, ?_⟩⟩
  · simp [postdatedToken, MapClaims.get, List.find?]
  · simp [postdatedToken, MapClaims.get, List.find?]
  · have hd : ∀ kv ∈ postdatedToken.Claims, jwt.decodable kv.2 = true := by
      intro kv hkv
      simp only [postdatedToken, List.mem_cons, List.mem_singleton, List.not_mem_nil,
        or_false] at hkv
      rcases hkv with rfl | rfl | rfl
      · exact hf7
      · exact hfE
      · exact hfN
    rw [AuthService.ValidateToken_signed "" _ _ _ (m := .HS256) rfl rfl (by decide) hd]
    have hexp : MapClaims.get (postdatedToken.Claims.map fun kv => (kv.1, jwt.decode kv.2))
        "exp" = some (.number 2000000000) := by
      rw [MapClaims.get_decode]
      have : postdatedToken.Claims.get "exp" = some (.number 2000000000) := by
        simp [postdatedToken, MapClaims.get, List.find?]
      rw [this]
      simp only [Option.map_some', jwt.decode, hrE]
    have hnbf : MapClaims.get (postdatedToken.Claims.map fun kv => (kv.1, jwt.decode kv.2))
        "nbf" = some (.number 1900000000) := by
      rw [MapClaims.get_decode]
      have : postdatedToken.Claims.get "nbf" = some (.number 1900000000) := by
        simp [postdatedToken, MapClaims.get, List.find?]
      rw [this]
      simp only [Option.map_some', jwt.decode, hrN]
    rw [jwt.Validate_exp_nbf _ hexp hnbf, hnE, hnN, if_neg, if_pos]
    · exact ⟨hN0, by decide⟩
    · intro h
      exact h.2 (by decide)
  · simp [tokenWithBigID, MapClaims.get, List.find?]
  · rw [AuthService.ValidateToken_exp_id "" tokenWithBigID _ _ (m := .HS256)
        (e := 2000000000) (i := 9007199254740993) rfl rfl (by decide)]
    · rw [hrE, hnE, hnow, roundFloat64_two_pow_53_succ, hiP, if_neg, if_neg]
      · norm_num
      · intro h
        exact h.2 (by decide)
    · intro kv hkv
      simp only [tokenWithBigID, List.mem_cons, List.mem_singleton, List.not_mem_nil,
        or_false] at hkv
      rcases hkv with rfl | rfl
      · exact hfB
      · exact hfE
    · simp [tokenWithBigID, MapClaims.get, List.find?]
    · simp [tokenWithBigID, MapClaims.get, List.find?]
    · simp [tokenWithBigID, MapClaims.get, List.find?]
  · simp [tokenWithFractionID, MapClaims.get, List.find?]
  · rw [AuthService.ValidateToken_exp_id "" tokenWithFractionID _ _ (m := .HS256)
        (e := 2000000000) (i := 15 / 2) rfl rfl (by decide)]
    · rw [hrE, hnE, hnow, roundFloat64_seven_and_a_half, intOfFloat64_seven_and_a_half,
        if_neg, if_neg]
      · norm_num
      · intro h
        exact h.2 (by decide)
    · intro kv hkv
      simp only [tokenWithFractionID, List.mem_cons, List.mem_singleton, List.not_mem_nil,
        or_false] at hkv
      rcases hkv with rfl | rfl
      · exact hfH
      · exact hfE
    · simp [tokenWithFractionID, MapClaims.get, List.find?]
    · simp [tokenWithFractionID, MapClaims.get, List.find?]
    · simp [tokenWithFractionID, MapClaims.get, List.find?]
  · simp [tokenOutOfRange, MapClaims.get, List.find?]
  · simp [tokenOutOfRange, MapClaims.get, List.find?]
  · have hall : (tokenOutOfRange.Claims.all fun kv => jwt.decodable kv.2) = false := by
      simp only [tokenOutOfRange, List.all_cons, List.all_nil, jwt.decodable,
        float64_two_pow_1024, Option.isSome_none, Bool.and_false, Bool.and_true]
    exact AuthService.ValidateToken_undecodable "" tokenOutOfRange _ _ hall
  · simp [tokenBeyondPrecision, MapClaims.get, List.find?]
  · rw [AuthService.ValidateToken_exp_id "" tokenBeyondPrecision _ _ (m := .HS256)
        (e := 9007199254740993) (i := 7) rfl rfl (by decide)]
    · rw [roundFloat64_two_pow_53_succ, hnP, if_pos]
      exact ⟨hP0, by decide⟩
    · intro kv hkv
      simp only [tokenBeyondPrecision, List.mem_cons, List.mem_singleton, List.not_mem_nil,
        or_false] at hkv
      rcases hkv with rfl | rfl
      · exact hf7
      · exact hfB
    · simp [tokenBeyondPrecision, MapClaims.get, List.find?]
    · simp [tokenBeyondPrecision, MapClaims.get, List.find?]
    · simp [tokenBeyondPrecision, MapClaims.get, List.find?]
  · simp [tokenAtPrecisionEdge, MapClaims.get, List.find?]
  · have hnow2 : roundFloat64 ((Unix (9007199254740993 * Second) : Int) : ℚ) =
        9007199254740992 := by
      have : Unix (9007199254740993 * Second) = 9007199254740993 := by decide
      rw [this]
      simpa using roundFloat64_two_pow_53_succ
    rw [AuthService.ValidateToken_exp_id "" tokenAtPrecisionEdge _ _ (m := .HS256)
        (e := 9007199254740992) (i := 7) rfl rfl (by decide)]
    · rw [hrP, hnP, hnow2, hr7, hi7, if_neg, if_neg]
      · norm_num
      · intro h
        exact h.2 (by decide)
    · intro kv hkv
      simp only [tokenAtPrecisionEdge, List.mem_cons, List.mem_singleton, List.not_mem_nil,
        or_false] at hkv
      rcases hkv with rfl | rfl
      · exact hf7
      · exact hfP
    · simp [tokenAtPrecisionEdge, MapClaims.get, List.find?]
    · simp [tokenAtPrecisionEdge, MapClaims.get, List.find?]
    · simp [tokenAtPrecisionEdge, MapClaims.get, List.find?]

/-- C11, the amended statement on a token of user 7 forged with another
secret, and on the sample token of user 7 validated at second 1000. -/
theorem ValidateToken_cases_witness :
    (∃ e, AuthService.ValidateToken ""
      (.compact { postdatedToken with SignedWith := some "guessed" }) 0 0 = .error e) ∧
    AuthService.ValidateToken "" (.compact goodToken) 1000000000000 1000000000000 = .ok 7 :=
  ⟨(ValidateToken_cases "" { postdatedToken with SignedWith := some "guessed" } 0 0).1
      (by decide),
   ((ValidateToken_cases "" goodToken 1000000000000 1000000000000).2.2.2 .HS256 2000000000 7
      rfl rfl (by decide)
      (by
        intro kv hkv
        simp only [goodToken, List.mem_cons, List.mem_singleton, List.not_mem_nil,
          or_false] at hkv
        rcases hkv with rfl | rfl
        · exact sampleNumbers_float64.2.1
        · exact sampleNumbers_float64.2.2.2.2.1)
      (by simp [goodToken, MapClaims.get, List.find?])
      (by norm_num) (by decide) (by decide)
      (fun c hc => by simp [goodToken, MapClaims.get, List.find?] at hc)
      (by simp [goodToken, MapClaims.get, List.find?])).2 7 (by norm_num) (by norm_num)⟩

/-! ## Updating an event -/

/-- In a valid state an update that names an existing event and its organizer
and satisfies the two `CHECK` constraints rewrites exactly the rows with that
id. -/
theorem DB.updateEvent_ok {s : DB} (hs : s.Valid) (ev : Event) {old : Event}
    (hold : s.eventByID ev.ID = some old) (horg : old.OrganizerID = ev.OrganizerID)
    (hcap : ev.Capacity > 0) (htime : ev.EndTime > ev.StartTime) :
    s.updateEvent ev =
      (.ok old.ID,
        { s with events := s.events.map fun e => if e.ID = ev.ID then e.assign ev else e }) := by
  have hmem : old ∈ s.events := List.mem_of_find?_eq_some hold
  have hid : old.ID = ev.ID := DB.eventByID_id hold
  have huniq : ∀ e ∈ s.events, e.ID = ev.ID → e = old := fun e he h =>
    hs.event_eq_of_id he hmem (h.trans hid.symm)
  have hfind : s.events.find? (fun e => e.ID = ev.ID ∧ e.OrganizerID = ev.OrganizerID) =
      some old := by
    cases hf : s.events.find? (fun e => e.ID = ev.ID ∧ e.OrganizerID = ev.OrganizerID) with
    | none =>
      rw [List.find?_eq_none] at hf
      exact absurd (by simp [hid, horg]) (hf old hmem)
    | some x =>
      have hx := List.find?_some hf
      simp only [decide_eq_true_eq] at hx
      rw [huniq x (List.mem_of_find?_eq_some hf) hx.1]
  have hmap : (s.events.map fun e =>
        if e.ID = ev.ID ∧ e.OrganizerID = ev.OrganizerID then e.assign ev else e) =
      s.events.map fun e => if e.ID = ev.ID then e.assign ev else e := by
    apply List.map_congr_left
    intro e he
    by_cases h : e.ID = ev.ID
    · have : e = old := huniq e he h
      subst this
      simp [h, horg]
    · simp [h]
  simp only [DB.updateEvent, hfind, hmap]
  rw [if_neg (not_not.mpr hcap), if_neg (not_not.mpr htime)]

/-- After rewriting the rows with a given id by a function that keeps ids,
the lookup of that id finds the rewritten row. -/
theorem DB.eventByID_map_assign (s : DB) (ev old : Event) (id : Int)
    (hold : s.eventByID id = some old) :
    DB.eventByID
      { s with events := s.events.map fun e => if e.ID = ev.ID then e.assign ev else e } id =
      some (if old.ID = ev.ID then old.assign ev else old) := by
  have hcomp : ((fun e : Event => decide (e.ID = id)) ∘
      fun e => if e.ID = ev.ID then e.assign ev else e) = fun e => decide (e.ID = id) := by
    funext e
    simp only [Function.comp]
    split_ifs <;> rfl
  unfold DB.eventByID at hold ⊢
  simp only [List.find?_map, hcomp, hold, Option.map_some']

/-- Rows with another id are left as they were by the rewriting of one id. -/
theorem DB.mem_map_assign_of_ne (s : DB) (ev e : Event) (hne : e.ID ≠ ev.ID) :
    e ∈ (s.events.map fun x => if x.ID = ev.ID then x.assign ev else x) ↔ e ∈ s.events := by
  constructor
  · intro h
    obtain ⟨x, hx, rfl⟩ := List.mem_map.mp h
    by_cases hxid : x.ID = ev.ID
    · exact absurd (by simp only [hxid, if_true]; exact hxid) hne
    · simpa only [hxid, if_false] using hx
  · intro h
    exact List.mem_map.mpr ⟨e, h, by simp only [hne, if_false]⟩

/-! ## Opening and closing -/

/-- In a valid state the repository's update of an existing event by its
organizer, with values that satisfy the `CHECK` constraints, succeeds. -/
theorem EventRepository.Update_ok {s : DB} (hs : s.Valid) (event : Event) {old : Event}
    (now : Time)
    (hold : s.eventByID event.ID = some old) (horg : old.OrganizerID = event.OrganizerID)
    (hcap : event.Capacity > 0) (htime : event.EndTime > event.StartTime) :
    EventRepository.Update s event now =
      (.ok { event with UpdatedAt := now },
        { s with events := s.events.map fun e =>
            if e.ID = event.ID then e.assign { event with UpdatedAt := now } else e }) := by
  have h := DB.updateEvent_ok hs { event with UpdatedAt := now } hold horg hcap htime
  simp only [EventRepository.Update, h]

/-- C12: for an existing event whose status is `open` or `closed` and a
caller who is its organizer, `CloseEvent` succeeds exactly when the status is
`open`, and then the stored status is `closed`, and fails with
`event is already closed` otherwise; `OpenEvent` succeeds exactly when the
status is `closed`, and then the stored status is `open`, and fails with
`event is already open` otherwise.  For a caller who is not the organizer
both fail with `you are not the organizer of this event`, whatever the
status.  A failing call changes nothing. -/
theorem status_machine (s : DB) (hs : s.Valid) (eventID caller : Int) (ev : Event) (now : Time)
    (hev : s.eventByID eventID = some ev) (hst : ev.Status = "open" ∨ ev.Status = "closed") :
    (ev.OrganizerID = caller →
      (ev.Status = "open" →
        (EventService.CloseEvent s caller eventID now).1 =
          .ok ({ ev with Status := "closed", UpdatedAt := now } : Event).toResponse ∧
        (EventService.CloseEvent s caller eventID now).2.eventByID eventID =
          some { ev with Status := "closed", UpdatedAt := now }) ∧
      (ev.Status ≠ "open" →
        EventService.CloseEvent s caller eventID now =
          (.error (.new "event is already closed"), s)) ∧
      (ev.Status = "closed" →
        (EventService.OpenEvent s caller eventID now).1 =
          .ok ({ ev with Status := "open", UpdatedAt := now } : Event).toResponse ∧
        (EventService.OpenEvent s caller eventID now).2.eventByID eventID =
          some { ev with Status := "open", UpdatedAt := now }) ∧
      (ev.Status ≠ "closed" →
        EventService.OpenEvent s caller eventID now =
          (.error (.new "event is already open"), s))) ∧
    (ev.OrganizerID ≠ caller →
      EventService.CloseEvent s caller eventID now =
        (.error (.new "you are not the organizer of this event"), s) ∧
      EventService.OpenEvent s caller eventID now =
        (.error (.new "you are not the organizer of this event"), s)) := by
  have hmem : ev ∈ s.events := List.mem_of_find?_eq_some hev
  have hid : ev.ID = eventID := DB.eventByID_id hev
  have hcap := hs.check_capacity ev hmem
  have htime := hs.check_time ev hmem
  have hev2 : s.eventByID ev.ID = some ev := by rw [hid]; exact hev
  constructor
  · intro horg
    subst horg
    refine ⟨?_, ?_, ?_, ?_⟩
    · intro hopen
      have hu := EventRepository.Update_ok hs { ev with Status := "closed" } now
        hev2 rfl hcap htime
      have hne : ev.Status ≠ "closed" := by rw [hopen]; decide
      have hc : EventService.CloseEvent s ev.OrganizerID eventID now =
          (.ok ({ ev with Status := "closed", UpdatedAt := now } : Event).toResponse,
            { s with events := s.events.map fun e =>
                if e.ID = ev.ID then e.assign { ev with Status := "closed", UpdatedAt := now }
                else e }) := by
        simp only [EventService.CloseEvent, EventRepository.GetByID, hev, hne, hu,
          ne_eq, not_true_eq_false, if_false]
      rw [hc]
      refine ⟨rfl, ?_⟩
      rw [← hid]
      have hm := DB.eventByID_map_assign s { ev with Status := "closed", UpdatedAt := now } ev
        ev.ID hev2
      simpa [Event.assign] using hm
    · intro hno
      have hcl : ev.Status = "closed" := hst.resolve_left hno
      simp [EventService.CloseEvent, EventRepository.GetByID, hev, hcl]
    · intro hclosed
      have hu := EventRepository.Update_ok hs { ev with Status := "open" } now
        hev2 rfl hcap htime
      have hne : ev.Status ≠ "open" := by rw [hclosed]; decide
      have hc : EventService.OpenEvent s ev.OrganizerID eventID now =
          (.ok ({ ev with Status := "open", UpdatedAt := now } : Event).toResponse,
            { s with events := s.events.map fun e =>
                if e.ID = ev.ID then e.assign { ev with Status := "open", UpdatedAt := now }
                else e }) := by
        simp only [EventService.OpenEvent, EventRepository.GetByID, hev, hne, hu,
          ne_eq, not_true_eq_false, if_false]
      rw [hc]
      refine ⟨rfl, ?_⟩
      rw [← hid]
      have hm := DB.eventByID_map_assign s { ev with Status := "open", UpdatedAt := now } ev
        ev.ID hev2
      simpa [Event.assign] using hm
    · intro hno
      have hop : ev.Status = "open" := hst.resolve_right hno
      simp [EventService.OpenEvent, EventRepository.GetByID, hev, hop]
  · intro hne
    constructor
    · simp [EventService.CloseEvent, EventRepository.GetByID, hev, hne]
    · simp [EventService.OpenEvent, EventRepository.GetByID, hev, hne]

/-- C12 at the sample state: the organizer 1 closes the open event 1, and
cannot open it. -/
theorem status_machine_witness :
    (EventService.CloseEvent sampleDB 1 1 70).1 =
      .ok ({ picnic with Status := "closed", UpdatedAt := 70 } : Event).toResponse ∧
    EventService.OpenEvent sampleDB 1 1 70 = (.error (.new "event is already open"), sampleDB) :=
  have h := (status_machine sampleDB sampleDB_valid 1 1 picnic 70 (by decide)
    (Or.inl (by decide))).1 (by decide)
  ⟨(h.1 (by decide)).1, h.2.2.2 (by decide)⟩

/-- A successful update statement has passed the two `CHECK` constraints. -/
theorem DB.updateEvent_success {s s1 : DB} {ev : Event} {i : Int}
    (h : s.updateEvent ev = (.ok i, s1)) : ev.Capacity > 0 ∧ ev.EndTime > ev.StartTime := by
  unfold DB.updateEvent at h
  split at h
  · simp at h
  · split_ifs at h with h1 h2
    · exact ⟨h1, h2⟩
    · simp at h
    · simp at h

/-- A successful repository update is a successful update statement. -/
theorem EventRepository.Update_success {s : DB} {event ev : Event} {now : Time}
    (h : (EventRepository.Update s event now).1 = .ok ev) :
    ∃ i s1, s.updateEvent { event with UpdatedAt := now } = (.ok i, s1) := by
  unfold EventRepository.Update at h
  simp only [] at h
  split at h
  · simp at h
  · simp at h
  · rename_i i s1 heq
    exact ⟨i, s1, heq⟩

/-- C13: in a state that satisfies the schema, a successful `UpdateEvent` of
an existing event is made by its organizer; it sets name, description,
location, start time, end time and capacity to the request's values (and
`updated_at` to the clock reading), leaves the event's id, organizer, status
and `created_at` as they were, returns the event so updated, and leaves every
other event, every participant row and every user unchanged. -/
theorem UpdateEvent_frame (s : DB) (hs : s.Valid) (id : Int) (req : EventRequest)
    (caller : Int) (now : Time) (ev : Event) (resp : EventResponse)
    (hev : s.eventByID id = some ev)
    (h : (EventService.UpdateEvent s id req caller now).1 = .ok resp) :
    ev.OrganizerID = caller ∧
    (EventService.UpdateEvent s id req caller now).2.eventByID id =
      some { ID := ev.ID, Name := req.Name, Description := req.Description,
             Location := req.Location, StartTime := req.StartTime, EndTime := req.EndTime,
             Capacity := req.Capacity, OrganizerID := ev.OrganizerID, Status := ev.Status,
             CreatedAt := ev.CreatedAt, UpdatedAt := now } ∧
    resp = { ID := ev.ID, Name := req.Name, Description := req.Description,
             Location := req.Location, StartTime := req.StartTime, EndTime := req.EndTime,
             Capacity := req.Capacity, OrganizerID := ev.OrganizerID, Status := ev.Status,
             CreatedAt := ev.CreatedAt, UpdatedAt := now } ∧
    (∀ e, e.ID ≠ id →
      (e ∈ (EventService.UpdateEvent s id req caller now).2.events ↔ e ∈ s.events)) ∧
    (EventService.UpdateEvent s id req caller now).2.events.length = s.events.length ∧
    (EventService.UpdateEvent s id req caller now).2.participants = s.participants ∧
    (EventService.UpdateEvent s id req caller now).2.users = s.users := by
  have hid : ev.ID = id := DB.eventByID_id hev
  have hev2 : s.eventByID ev.ID = some ev := by rw [hid]; exact hev
  have horg : ev.OrganizerID = caller := by
    by_contra hne
    simp [EventService.UpdateEvent, EventRepository.GetByID, hev, hne] at h
  subst horg
  have hupd : ∃ e1, (EventRepository.Update s
      { ev with
        Name := req.Name, Description := req.Description, Location := req.Location,
        StartTime := req.StartTime, EndTime := req.EndTime, Capacity := req.Capacity } now).1 =
      .ok e1 := by
    simp only [EventService.UpdateEvent, EventRepository.GetByID, hev, ne_eq,
      not_true_eq_false, if_false] at h
    split at h
    · simp at h
    · rename_i e1 s1 heq
      exact ⟨e1, by rw [heq]⟩
  obtain ⟨e1, he1⟩ := hupd
  obtain ⟨i, s1, hok⟩ := EventRepository.Update_success he1
  obtain ⟨hcap, htime⟩ := DB.updateEvent_success hok
  have hu := EventRepository.Update_ok hs
    { ev with
      Name := req.Name, Description := req.Description, Location := req.Location,
      StartTime := req.StartTime, EndTime := req.EndTime, Capacity := req.Capacity }
    now hev2 rfl hcap htime
  have hc : EventService.UpdateEvent s id req ev.OrganizerID now =
      (.ok ({ ev with
          Name := req.Name, Description := req.Description, Location := req.Location,
          StartTime := req.StartTime, EndTime := req.EndTime, Capacity := req.Capacity,
          UpdatedAt := now } : Event).toResponse,
        { s with events := s.events.map fun e =>
            if e.ID = ev.ID then
              e.assign { ev with
                Name := req.Name, Description := req.Description, Location := req.Location,
                StartTime := req.StartTime, EndTime := req.EndTime, Capacity := req.Capacity,
                UpdatedAt := now }
            else e }) := by
    simp only [EventService.UpdateEvent, EventRepository.GetByID, hev, hu,
      ne_eq, not_true_eq_false, if_false]
  rw [hc] at h ⊢
  refine ⟨rfl, ?_, ?_, ?_, ?_, rfl, rfl⟩
  · rw [← hid]
    have hm := DB.eventByID_map_assign s
      { ev with
        Name := req.Name, Description := req.Description, Location := req.Location,
        StartTime := req.StartTime, EndTime := req.EndTime, Capacity := req.Capacity,
        UpdatedAt := now } ev ev.ID hev2
    simpa [Event.assign] using hm
  · simp only [Except.ok.injEq] at h
    rw [← h]
    rfl
  · intro e hne
    exact DB.mem_map_assign_of_ne s
      { ev with
        Name := req.Name, Description := req.Description, Location := req.Location,
        StartTime := req.StartTime, EndTime := req.EndTime, Capacity := req.Capacity,
        UpdatedAt := now } e (by rw [hid]; exact hne)
  · simp

/-- C13 at the sample state: the organizer 1 updates event 1 to capacity 5
at clock reading 80. -/
theorem UpdateEvent_frame_witness :
    (EventService.UpdateEvent sampleDB 1 (picnicRequest 5) 1 80).2.eventByID 1 =
      some { picnic with Capacity := 5, UpdatedAt := 80 } ∧
    (EventService.UpdateEvent sampleDB 1 (picnicRequest 5) 1 80).2.participants =
      sampleDB.participants :=
  have h := UpdateEvent_frame sampleDB sampleDB_valid 1 (picnicRequest 5) 1 80 picnic
    ({ picnic with Capacity := 5, UpdatedAt := 80 } : Event).toResponse (by decide) (by decide)
  ⟨h.2.1, h.2.2.2.2.2.1⟩

/-! ## Creating an event -/

/-- A successful insert into `events` hands out the next id of the sequence,
which no row has yet, and appends the row. -/
theorem DB.insertEvent_success {s s1 : DB} {ev : Event} {i : Int}
    (h : s.insertEvent ev = (.ok i, s1)) :
    i = s.eventsSeq + 1 ∧
    s1 = { s with eventsSeq := s.eventsSeq + 1,
                  events := s.events ++ [{ ev with ID := s.eventsSeq + 1 }] } ∧
    (∀ e ∈ s.events, e.ID ≠ s.eventsSeq + 1) := by
  unfold DB.insertEvent at h
  simp only [] at h
  split_ifs at h with h1 h2 h3 h4 <;> simp only [Prod.mk.injEq, reduceCtorEq, false_and] at h
  obtain ⟨hi, hs⟩ := h
  refine ⟨(Except.ok.inj hi).symm, hs.symm, ?_⟩
  intro e he heq
  exact h3 (List.any_eq_true.mpr ⟨e, he, by simpa using heq⟩)

/-- C14: a successful `CreateEvent` appends one row to `events`, with a new
id, the caller as organizer, status `open`, the request's name, description,
location, start time, end time and capacity, and both timestamps the clock
reading; the response is the copy of that row; the rows that existed, in all
three tables, are unchanged. -/
theorem CreateEvent_stores (s : DB) (req : EventRequest) (caller : Int) (now : Time)
    (resp : EventResponse) (h : (EventService.CreateEvent s req caller now).1 = .ok resp) :
    (EventService.CreateEvent s req caller now).2.events =
      s.events ++
        [{ ID := s.eventsSeq + 1, Name := req.Name, Description := req.Description,
           Location := req.Location, StartTime := req.StartTime, EndTime := req.EndTime,
           Capacity := req.Capacity, OrganizerID := caller, Status := "open",
           CreatedAt := now, UpdatedAt := now }] ∧
    resp = { ID := s.eventsSeq + 1, Name := req.Name, Description := req.Description,
             Location := req.Location, StartTime := req.StartTime, EndTime := req.EndTime,
             Capacity := req.Capacity, OrganizerID := caller, Status := "open",
             CreatedAt := now, UpdatedAt := now } ∧
    (∀ e ∈ s.events, e.ID ≠ s.eventsSeq + 1) ∧
    (EventService.CreateEvent s req caller now).2.users = s.users ∧
    (EventService.CreateEvent s req caller now).2.participants = s.participants := by
  have hst : EventRepository.stamped (EventService.newEvent req caller) now =
      { ID := 0, Name := req.Name, Description := req.Description, Location := req.Location,
        StartTime := req.StartTime, EndTime := req.EndTime, Capacity := req.Capacity,
        OrganizerID := caller, Status := "open", CreatedAt := now, UpdatedAt := now } := by
    simp [EventRepository.stamped, EventService.newEvent]
  rcases hins : s.insertEvent (EventRepository.stamped (EventService.newEvent req caller) now)
    with ⟨r, s1⟩
  cases r with
  | error e =>
    simp [EventService.CreateEvent, EventRepository.Create, hins] at h
  | ok i =>
    obtain ⟨hi, hs1, hnew⟩ := DB.insertEvent_success hins
    subst hi
    simp only [EventService.CreateEvent, EventRepository.Create, hins, Except.ok.injEq] at h ⊢
    rw [hst] at h hs1
    refine ⟨hs1 ▸ rfl, h.symm, hnew, hs1 ▸ rfl, hs1 ▸ rfl⟩

/-- C14 at the sample state: user 2 creates an event of capacity three at
clock reading 90. -/
theorem CreateEvent_stores_witness :
    (EventService.CreateEvent sampleDB (picnicRequest 3) 2 90).2.events =
      sampleDB.events ++
        [{ picnic with ID := 2, Capacity := 3, OrganizerID := 2,
                       CreatedAt := 90, UpdatedAt := 90 }] :=
  (CreateEvent_stores sampleDB (picnicRequest 3) 2 90
    ({ picnic with ID := 2, Capacity := 3, OrganizerID := 2,
                   CreatedAt := 90, UpdatedAt := 90 } : Event).toResponse (by decide)).1

/-! ## Leaving an event -/

/-- In a valid state the rows of `participants` are determined by their
user and event. -/
theorem DB.Valid.participant_eq_of_pair {s : DB} (hs : s.Valid) {a b : Participant}
    (ha : a ∈ s.participants) (hb : b ∈ s.participants)
    (hu : a.UserID = b.UserID) (he : a.EventID = b.EventID) : a = b := by
  have hsym : Symmetric
      (fun x y : Participant => ¬ (x.UserID = y.UserID ∧ x.EventID = y.EventID)) :=
    fun x y hxy hyx => hxy ⟨hyx.1.symm, hyx.2.symm⟩
  by_contra hne
  exact hs.unique_participant.forall hsym ha hb hne ⟨hu, he⟩

/-- In a valid state no row of `participants` occurs twice. -/
theorem DB.Valid.participants_nodup {s : DB} (hs : s.Valid) : s.participants.Nodup :=
  hs.participants_pkey.imp (fun {_ _} hab heq => hab (congrArg Participant.ID heq))

/-- In a valid state the delete statement of `LeaveEvent` removes the one row
of the pair. -/
theorem DB.Valid.filter_pair_eq_erase {s : DB} (hs : s.Valid) {p : Participant}
    (hp : p ∈ s.participants) :
    s.participants.filter (fun q => ¬ (q.UserID = p.UserID ∧ q.EventID = p.EventID)) =
      s.participants.erase p := by
  rw [hs.participants_nodup.erase_eq_filter]
  apply List.filter_congr
  intro q hq
  by_cases hqp : q = p
  · subst hqp
    simp
  · have : ¬ (q.UserID = p.UserID ∧ q.EventID = p.EventID) := fun h =>
      hqp (hs.participant_eq_of_pair hq hp h.1 h.2)
    simp [hqp, this]

/-- C15: in a state that satisfies the schema, `LeaveEvent` fails with
`user is not a participant of this event`, changing nothing, when no
participant row of the user and event exists; otherwise it returns no error
and deletes exactly that row, so that afterwards `IsParticipant` is false, the
participant count of the event is one less, and the other participant rows,
the events and the users are unchanged.  Neither the status nor the times of
the event are read. -/
theorem LeaveEvent_effect (s : DB) (hs : s.Valid) (userID eventID : Int) :
    ((¬ ∃ p ∈ s.participants, p.UserID = userID ∧ p.EventID = eventID) →
      ParticipantService.LeaveEvent s userID eventID =
        (some (.new "user is not a participant of this event"), s)) ∧
    (∀ p ∈ s.participants, p.UserID = userID → p.EventID = eventID →
      (ParticipantService.LeaveEvent s userID eventID).1 = none ∧
      (ParticipantService.LeaveEvent s userID eventID).2.participants = s.participants.erase p ∧
      ParticipantService.IsParticipant
        (ParticipantService.LeaveEvent s userID eventID).2 userID eventID = .ok false ∧
      (∃ n : Int,
        ParticipantService.GetParticipantCount
          (ParticipantService.LeaveEvent s userID eventID).2 eventID = .ok n ∧
        ParticipantService.GetParticipantCount s eventID = .ok (n + 1)) ∧
      (ParticipantService.LeaveEvent s userID eventID).2.events = s.events ∧
      (ParticipantService.LeaveEvent s userID eventID).2.users = s.users) := by
  constructor
  · intro hno
    have hnone : s.participantRow userID eventID = none := by
      unfold DB.participantRow
      rw [List.find?_eq_none]
      intro q hq hmatch
      exact hno ⟨q, hq, by simpa using hmatch⟩
    simp [ParticipantService.LeaveEvent, ParticipantRepository.LeaveEvent, hnone]
  · intro p hp hu he
    subst hu he
    have hrow : s.participantRow p.UserID p.EventID = some p := by
      cases hf : s.participantRow p.UserID p.EventID with
      | none =>
        unfold DB.participantRow at hf
        rw [List.find?_eq_none] at hf
        exact absurd (by simp) (hf p hp)
      | some q =>
        unfold DB.participantRow at hf
        have hq := List.find?_some hf
        simp only [decide_eq_true_eq] at hq
        rw [hs.participant_eq_of_pair (List.mem_of_find?_eq_some hf) hp hq.1 hq.2]
    have hstate : ParticipantService.LeaveEvent s p.UserID p.EventID =
        (none, { s with participants := s.participants.erase p }) := by
      simp only [ParticipantService.LeaveEvent, ParticipantRepository.LeaveEvent, hrow,
        DB.deleteParticipant, hs.filter_pair_eq_erase hp]
    rw [hstate]
    refine ⟨rfl, rfl, ?_, ?_, rfl, rfl⟩
    · have hnone : DB.participantRow { s with participants := s.participants.erase p }
          p.UserID p.EventID = none := by
        unfold DB.participantRow
        rw [List.find?_eq_none]
        intro q hq hmatch
        simp only [decide_eq_true_eq] at hmatch
        have hq2 := hs.participants_nodup.mem_erase_iff.mp hq
        exact hq2.1 (hs.participant_eq_of_pair hq2.2 hp hmatch.1 hmatch.2)
      simp [ParticipantService.IsParticipant, ParticipantRepository.IsParticipant, hnone]
    · refine ⟨_, rfl, ?_⟩
      have hperm := (List.perm_cons_erase hp).countP_eq (fun q => decide (q.EventID = p.EventID))
      simp only [ParticipantService.GetParticipantCount,
        ParticipantRepository.GetParticipantCount, DB.participantCount, hperm,
        List.countP_cons, decide_True, if_true]
      push_cast
      rfl

/-- C15 on the run in which user 1 has joined event 1: user 1 leaves, and
user 2, who has not joined, cannot. -/
theorem LeaveEvent_effect_witness :
    (ParticipantService.LeaveEvent (DB.empty.run sampleBcrypt "" fullRun) 1 1).1 = none ∧
    ParticipantService.LeaveEvent (DB.empty.run sampleBcrypt "" fullRun) 2 1 =
      (some (.new "user is not a participant of this event"),
        DB.empty.run sampleBcrypt "" fullRun) :=
  have hv : (DB.empty.run sampleBcrypt "" fullRun).Valid :=
    (ReachableBy.run
      (ReachableBy.empty : ReachableBy sampleBcrypt "" (fun _ _ => True) DB.empty) fullRun).valid
  ⟨((LeaveEvent_effect _ hv 1 1).2 { ID := 1, UserID := 1, EventID := 1, JoinedAt := 40 }
      (by decide) (by decide) (by decide)).1,
   (LeaveEvent_effect _ hv 2 1).1 (by decide)⟩

/-! ## The end-to-end scenario -/

/-- C16: starting from the empty database, for every time `now` and whatever
the clock reads at each call, for users A, B and C with distinct usernames and
distinct emails whose passwords bcrypt hashes: after A registers and creates
an event of capacity one from `now + 1h` to `now + 2h` and B and C register,
B's join succeeds, C's join fails with `event is at full capacity`, B's leave
succeeds and C's second join succeeds. -/
theorem end_to_end_scenario (bc : Bcrypt) (env : String) (reqA reqB reqC : RegisterRequest)
    (now : Time) (clock : Nat → Time)
    (hab : reqA.Username ≠ reqB.Username) (hac : reqA.Username ≠ reqC.Username)
    (hbc : reqB.Username ≠ reqC.Username)
    (eab : reqA.Email ≠ reqB.Email) (eac : reqA.Email ≠ reqC.Email)
    (ebc : reqB.Email ≠ reqC.Email)
    (ha : ∃ h, bc.GenerateFromPassword reqA.Password 0 = some h)
    (hb : ∃ h, bc.GenerateFromPassword reqB.Password 0 = some h)
    (hc : ∃ h, bc.GenerateFromPassword reqC.Password 0 = some h) :
    endToEnd bc env reqA reqB reqC now clock =
      some [none, some (.new "event is at full capacity"), none, none] := by
  obtain ⟨pa, hpa⟩ := ha
  obtain ⟨pb, hpb⟩ := hb
  obtain ⟨pc, hpc⟩ := hc
  have htime : now + 2 * Hour > now + Hour := by
    have h : (0 : Int) < Hour := by decide
    linarith
  simp [endToEnd, AuthService.Register, UserRepository.GetByUsername, UserRepository.GetByEmail,
    UserRepository.Create, AuthService.newUser, AuthService.generateToken,
    AuthService.userResponse, DB.insertUser, DB.empty, hab, hac, hbc, eab, eac, ebc,
    hpa, hpb, hpc, EventService.CreateEvent, EventRepository.Create, EventRepository.stamped,
    EventService.newEvent, DB.insertEvent, scenarioRequest, htime, DB.hasUser, DB.hasEvent,
    Event.toResponse, ParticipantService.JoinEvent, ParticipantRepository.JoinEvent,
    ParticipantService.LeaveEvent, ParticipantRepository.LeaveEvent, DB.eventByID,
    DB.participantCount, DB.participantRow, DB.activeEventsCount, DB.insertParticipant,
    DB.deleteParticipant]

/-- C16 with the sample bcrypt and the three sample users, `now` = 5 and the
clock reading `100 + k` at call `k`. -/
theorem end_to_end_scenario_witness :
    endToEnd sampleBcrypt "" aliceRequest bobRequest carolRequest 5 (fun k => 100 + k) =
      some [none, some (.new "event is at full capacity"), none, none] :=
  end_to_end_scenario sampleBcrypt "" aliceRequest bobRequest carolRequest 5 (fun k => 100 + k)
    (by decide) (by decide) (by decide) (by decide) (by decide) (by decide)
    ⟨_, rfl⟩ ⟨_, rfl⟩ ⟨_, rfl⟩

/-! ## The public listing -/

/-- C17: `GetAllPublicEvents` returns no error and a list of responses that
is, up to order, the field-by-field copy of the stored events whose status is
`open`, each once; every response in it has status `open`; and the list is in
non-decreasing order of start time. -/
theorem GetAllPublicEvents_open_sorted (s : DB) :
    ∃ resp, EventService.GetAllPublicEvents s = .ok resp ∧
      resp.Perm ((s.events.filter (fun e => e.Status = "open")).map Event.toResponse) ∧
      (∀ r ∈ resp, r.Status = "open") ∧
      resp.Sorted (fun a b => a.StartTime ≤ b.StartTime) := by
  haveI : IsTotal Event (fun a b => a.StartTime ≤ b.StartTime) := ⟨fun a b => le_total _ _⟩
  haveI : IsTrans Event (fun a b => a.StartTime ≤ b.StartTime) :=
    ⟨fun _ _ _ hab hbc => le_trans hab hbc⟩
  refine ⟨s.openEventsByStart.map Event.toResponse, rfl, ?_, ?_, ?_⟩
  · exact (List.perm_insertionSort _ _).map _
  · intro r hr
    obtain ⟨e, he, rfl⟩ := List.mem_map.mp hr
    have he2 : e ∈ s.events.filter (fun e => e.Status = "open") :=
      (List.mem_insertionSort _).mp he
    simpa [Event.toResponse] using (List.mem_filter.mp he2).2
  · have hsorted := List.sorted_insertionSort (fun a b : Event => a.StartTime ≤ b.StartTime)
      (s.events.filter (fun e => e.Status = "open"))
    unfold List.Sorted at hsorted ⊢
    rw [List.pairwise_map]
    exact hsorted

/-! ## Validation in the event handlers -/

/-- The state the `CreateEvent` handler leaves is the given one or the one the
service call leaves. -/
theorem EventController.CreateEvent_handler_state (s : DB) (userID : Option Int)
    (body : Except String EventRequest) (now : Time) :
    (EventController.CreateEvent s userID body now).2 = s ∨
    ∃ req uid, (EventController.CreateEvent s userID body now).2 =
      (EventService.CreateEvent s req uid now).2 := by
  unfold EventController.CreateEvent
  rcases userID with _ | uid
  · exact Or.inl rfl
  · rcases body with err | req
    · exact Or.inl rfl
    · simp only []
      split_ifs
      · exact Or.inl rfl
      · refine Or.inr ⟨req, uid, ?_⟩
        split <;> simp [*]
      · exact Or.inl rfl

/-- The state the `UpdateEvent` handler leaves is the given one or the one the
service call leaves. -/
theorem EventController.UpdateEvent_handler_state (s : DB) (userID : Option Int)
    (id : Option Int) (body : Except String EventRequest) (now : Time) :
    (EventController.UpdateEvent s userID id body now).2 = s ∨
    ∃ i req uid, (EventController.UpdateEvent s userID id body now).2 =
      (EventService.UpdateEvent s i req uid now).2 := by
  unfold EventController.UpdateEvent
  rcases userID with _ | uid
  · exact Or.inl rfl
  · rcases id with _ | i
    · exact Or.inl rfl
    · rcases body with err | req
      · exact Or.inl rfl
      · simp only []
        split_ifs
        · exact Or.inl rfl
        · refine Or.inr ⟨i, req, uid, ?_⟩
          split <;> simp [*]
        · exact Or.inl rfl

/-- The middleware lets the request with the header `Bearer good` pass at
second 1000, with the user id 7 of the sample token. -/
theorem middleware.Protected_good :
    middleware.Protected "" sampleDecode "Bearer good" 1000000000000 1000000000000 = .next 7 := by
  have htrim : strings.TrimPrefix "Bearer good" "Bearer " = "good" := by decide
  have hdec : sampleDecode (strings.TrimPrefix "Bearer good" "Bearer ") = .compact goodToken := by
    rw [htrim]
    simp [sampleDecode]
  obtain ⟨hr7, hf7, hi7, hrE, hfE, hnE, -⟩ := sampleNumbers_float64
  have hnow : roundFloat64 ((Unix 1000000000000 : Int) : ℚ) = 1000 := by
    have : Unix 1000000000000 = 1000 := by decide
    rw [this]
    simpa using roundFloat64_intCast 1000 (by norm_num)
  have hvt : AuthService.ValidateToken "" (.compact goodToken) 1000000000000 1000000000000 =
      .ok 7 := by
    rw [AuthService.ValidateToken_exp_id "" goodToken _ _ (m := .HS256)
        (e := 2000000000) (i := 7) rfl rfl (by decide)]
    · rw [hrE, hnE, hnow, hr7, hi7, if_neg, if_neg]
      · norm_num
      · intro h
        exact h.2 (by decide)
    · intro kv hkv
      simp only [goodToken, List.mem_cons, List.mem_singleton, List.not_mem_nil,
        or_false] at hkv
      rcases hkv with rfl | rfl
      · exact hf7
      · exact hfE
    · simp [goodToken, MapClaims.get, List.find?]
    · simp [goodToken, MapClaims.get, List.find?]
    · simp [goodToken, MapClaims.get, List.find?]
  have h1 : ¬ (("Bearer good" : String) = "") := by decide
  have h2 : strings.HasPrefix "Bearer good" "Bearer " = true := by decide
  simp only [middleware.Protected, h1, h2, if_false, not_true_eq_false, hdec, hvt]

/-- C18: the `CreateEvent` and `UpdateEvent` handlers reject with status 400,
without calling the service and leaving the state as it is, every request
whose capacity is not positive or whose end time is not after its start time.
On the routes of `SetupRoutes` the two handlers run behind the middleware,
which hands them the user id of the token: whenever the middleware lets a
request with such a body pass, the answer of the route is that rejection.
Every state reachable by service calls, and so every state the two handlers
lead to from such a state, holds only events whose end time is after their
start time and whose capacity is positive. -/
theorem event_handlers_validate (bc : Bcrypt) (env : String) :
    (∀ (s : DB) (uid : Int) (id : Option Int) (req : EventRequest) (now : Time),
      req.Capacity ≤ 0 ∨ ¬ (req.EndTime > req.StartTime) →
      (∃ msg, EventController.CreateEvent s (some uid) (.ok req) now =
        (.error { Code := 400, Message := msg }, s)) ∧
      (∃ msg, EventController.UpdateEvent s (some uid) id (.ok req) now =
        (.error { Code := 400, Message := msg }, s))) ∧
    (∀ (decode : String → TokenString) (authorization : String) (parseTime tokenNow : Time)
      (s : DB) (id : Option Int) (req : EventRequest) (now : Time) (uid : Int),
      req.Capacity ≤ 0 ∨ ¬ (req.EndTime > req.StartTime) →
      middleware.Protected env decode authorization parseTime tokenNow = .next uid →
      (∃ msg, routes.CreateEvent env decode authorization parseTime tokenNow s (.ok req) now =
        .answered (.error { Code := 400, Message := msg }) s) ∧
      (∃ msg, routes.UpdateEvent env decode authorization parseTime tokenNow s id (.ok req)
        now = .answered (.error { Code := 400, Message := msg }) s)) ∧
    (∀ s, Reachable bc env s →
      ∀ e ∈ s.events, e.EndTime > e.StartTime ∧ e.Capacity > 0) ∧
    (∀ s, Reachable bc env s →
      ∀ (userID id : Option Int) (body : Except String EventRequest) (now : Time),
        Reachable bc env (EventController.CreateEvent s userID body now).2 ∧
        Reachable bc env (EventController.UpdateEvent s userID id body now).2) := by
  have hcreate : ∀ (s : DB) (uid : Int) (req : EventRequest) (now : Time),
      req.Capacity ≤ 0 ∨ ¬ (req.EndTime > req.StartTime) →
      ∃ msg, EventController.CreateEvent s (some uid) (.ok req) now =
        (.error { Code := 400, Message := msg }, s) := by
    intro s uid req now hbad
    unfold EventController.CreateEvent
    simp only []
    split_ifs with h1 h2
    · exact ⟨_, rfl⟩
    · exfalso
      rcases hbad with hb | hb
      · exact h1 (Or.inr (Or.inr (Or.inr hb)))
      · exact hb h2
    · exact ⟨_, rfl⟩
  have hupdate : ∀ (s : DB) (uid : Int) (id : Option Int) (req : EventRequest) (now : Time),
      req.Capacity ≤ 0 ∨ ¬ (req.EndTime > req.StartTime) →
      ∃ msg, EventController.UpdateEvent s (some uid) id (.ok req) now =
        (.error { Code := 400, Message := msg }, s) := by
    intro s uid id req now hbad
    unfold EventController.UpdateEvent
    rcases id with _ | i
    · exact ⟨_, rfl⟩
    · simp only []
      split_ifs with h1 h2
      · exact ⟨_, rfl⟩
      · exfalso
        rcases hbad with hb | hb
        · exact h1 (Or.inr (Or.inr (Or.inr hb)))
        · exact hb h2
      · exact ⟨_, rfl⟩
  refine ⟨fun s uid id req now hbad => ⟨hcreate s uid req now hbad, hupdate s uid id req now hbad⟩,
    ?_, ?_, ?_⟩
  · intro decode authorization parseTime tokenNow s id req now uid hbad hnext
    obtain ⟨m1, h1⟩ := hcreate s uid req now hbad
    obtain ⟨m2, h2⟩ := hupdate s uid id req now hbad
    constructor
    · exact ⟨m1, by simp only [routes.CreateEvent, hnext, h1]⟩
    · exact ⟨m2, by simp only [routes.UpdateEvent, hnext, h2]⟩
  · intro s hr e he
    have hv := ReachableBy.valid hr
    exact ⟨hv.check_time e he, hv.check_capacity e he⟩
  · intro s hr userID id body now
    constructor
    · rcases EventController.CreateEvent_handler_state s userID body now with h | ⟨req, uid, h⟩
      · rw [h]; exact hr
      · rw [h]; exact ReachableBy.step s (.CreateEvent req uid now) hr trivial
    · rcases EventController.UpdateEvent_handler_state s userID id body now with
        h | ⟨i, req, uid, h⟩
      · rw [h]; exact hr
      · rw [h]; exact ReachableBy.step s (.UpdateEvent i req uid now) hr trivial

/-- C18 at the sample state: user 1 asks for an event of capacity 0, and for
an update of event 1 that ends before it starts; and the request for an event
of capacity 0 that carries the sample token of user 7 is answered with 400 by
the route. -/
theorem event_handlers_validate_witness :
    (∃ msg, EventController.CreateEvent sampleDB (some 1) (.ok (picnicRequest 0)) 50 =
      (.error { Code := 400, Message := msg }, sampleDB)) ∧
    (∃ msg, EventController.UpdateEvent sampleDB (some 1) (some 1) (.ok (talkRequest 50 10)) 50 =
      (.error { Code := 400, Message := msg }, sampleDB)) ∧
    (∃ msg, routes.CreateEvent "" sampleDecode "Bearer good" 1000000000000 1000000000000
        sampleDB (.ok (picnicRequest 0)) 50 =
      .answered (.error { Code := 400, Message := msg }) sampleDB) :=
  ⟨((event_handlers_validate sampleBcrypt "").1 sampleDB 1 none (picnicRequest 0) 50
      (Or.inl (by decide))).1,
   ((event_handlers_validate sampleBcrypt "").1 sampleDB 1 (some 1) (talkRequest 50 10) 50
      (Or.inr (by decide))).2,
   ((event_handlers_validate sampleBcrypt "").2.1 sampleDecode "Bearer good" 1000000000000
      1000000000000 sampleDB none (picnicRequest 0) 50 7 (Or.inl (by decide))
      middleware.Protected_good).1⟩

/-! ## One row per user and event -/

/-- A list whose elements are pairwise unrelated holds at most one element of
a set any two elements of which are related. -/
theorem pairwise_countP_le_one {α : Type} {R : α → α → Prop} {l : List α}
    (h : l.Pairwise (fun a b => ¬ R a b)) (P : α → Bool)
    (hP : ∀ a b, P a = true → P b = true → R a b) : l.countP P ≤ 1 := by
  induction l with
  | nil => simp
  | cons a l ih =>
    rw [List.pairwise_cons] at h
    by_cases ha : P a = true
    · have hzero : l.countP P = 0 := by
        rw [List.countP_eq_zero]
        intro b hb hPb
        exact h.1 b hb (hP a b ha hPb)
      simp [List.countP_cons, ha, hzero]
    · have := ih h.2
      simpa [List.countP_cons, ha] using this

/-- C19: in every state reachable from the empty database by service calls,
each pair of a user id and an event id occurs in at most one participant row;
and in any state a `JoinEvent` for a pair that already has a row returns an
error and changes nothing. -/
theorem participant_pairs_unique (bc : Bcrypt) (env : String) :
    (∀ s, Reachable bc env s → ∀ userID eventID : Int,
      s.participants.countP (fun p => p.UserID = userID ∧ p.EventID = eventID) ≤ 1) ∧
    (∀ (s : DB) (userID eventID : Int) (now insertTime : Time),
      (∃ p ∈ s.participants, p.UserID = userID ∧ p.EventID = eventID) →
      (ParticipantService.JoinEvent s userID eventID now insertTime).1 ≠ none ∧
      (ParticipantService.JoinEvent s userID eventID now insertTime).2 = s) := by
  constructor
  · intro s hr userID eventID
    have hv := ReachableBy.valid hr
    apply pairwise_countP_le_one
      (R := fun a b : Participant => a.UserID = b.UserID ∧ a.EventID = b.EventID)
      hv.unique_participant
    intro a b ha hb
    simp only [decide_eq_true_eq] at ha hb
    exact ⟨ha.1.trans hb.1.symm, ha.2.trans hb.2.symm⟩
  · intro s userID eventID now insertTime hrow
    have hsome : (s.participantRow userID eventID).isSome = true := by
      simpa [DB.participantRow] using hrow
    unfold ParticipantService.JoinEvent ParticipantRepository.JoinEvent
    cases hev : s.eventByID eventID with
    | none => simp
    | some ev =>
      simp only []
      split_ifs with h1 h2
      · simp
      · simp
      · simp

/-- C19 on the run in which user 1 has joined event 1: the pair occurs once
and a second join changes nothing. -/
theorem participant_pairs_unique_witness :
    (DB.empty.run sampleBcrypt "" fullRun).participants.countP
      (fun p => p.UserID = 1 ∧ p.EventID = 1) ≤ 1 ∧
    (ParticipantService.JoinEvent (DB.empty.run sampleBcrypt "" fullRun) 1 1 50 50).2 =
      DB.empty.run sampleBcrypt "" fullRun :=
  ⟨(participant_pairs_unique sampleBcrypt "").1 _
      (ReachableBy.run ReachableBy.empty fullRun) 1 1,
   ((participant_pairs_unique sampleBcrypt "").2 _ 1 1 50 50 (by decide)).2⟩

/-! ## The limit of five active events -/

/-- The count of active events does not grow when participant rows are only
removed and no remaining row joins with more events that end after the
instant. -/
theorem DB.activeEventsCount_le {s s1 : DB} {userID : Int} {t t1 : Time}
    (hp : s1.participants.Sublist s.participants)
    (he : ∀ p ∈ s1.participants,
      s1.events.countP (fun e => p.EventID = e.ID ∧ e.EndTime > t1) ≤
        s.events.countP (fun e => p.EventID = e.ID ∧ e.EndTime > t)) :
    s1.activeEventsCount userID t1 ≤ s.activeEventsCount userID t := by
  unfold DB.activeEventsCount
  refine le_trans (List.sum_le_sum fun p hp1 => ?_)
    ((hp.map _).sum_le_sum fun a _ => Nat.zero_le a)
  split_ifs
  · exact he p hp1
  · exact le_refl _

/-- The count of a user's active events at a later instant is at most the
count at an earlier one. -/
theorem DB.activeEventsCount_antitone (s : DB) (userID : Int) {t1 t2 : Time} (h : t1 ≤ t2) :
    s.activeEventsCount userID t2 ≤ s.activeEventsCount userID t1 := by
  apply DB.activeEventsCount_le (List.Sublist.refl _)
  intro p _
  apply List.countP_mono_left
  intro e _ he
  simp only [decide_eq_true_eq] at he ⊢
  exact ⟨he.1, lt_of_le_of_lt h he.2⟩

theorem DB.insertUser_active (s : DB) (username email password : String)
    (createdAt updatedAt : Time) (userID : Int) (t : Time) :
    (s.insertUser username email password createdAt updatedAt).2.activeEventsCount userID t =
      s.activeEventsCount userID t := by
  unfold DB.insertUser
  simp only []
  split_ifs <;> rfl

theorem DB.insertEvent_active {s : DB} (hs : s.Valid) (ev : Event) (userID : Int) (t : Time) :
    (s.insertEvent ev).2.activeEventsCount userID t ≤ s.activeEventsCount userID t := by
  unfold DB.insertEvent
  simp only []
  split_ifs with h1 h2 h3 h4
  · exact le_refl _
  · exact le_refl _
  rotate_left
  · exact le_refl _
  · exact le_refl _
  · refine DB.activeEventsCount_le (by exact List.Sublist.refl _) ?_
    intro p hp
    have hfk := hs.participants_event_id_fkey p hp
    rw [DB.hasEvent_iff] at hfk
    obtain ⟨e, he, hid⟩ := hfk
    have hseq := hs.events_seq e he
    have hne : p.EventID ≠ s.eventsSeq + 1 := by omega
    simp [List.countP_append, List.countP_cons, hne]

theorem DB.updateEvent_active {s : DB} (ev : Event) (userID : Int) (t : Time)
    (hend : ∀ e ∈ s.events, e.ID = ev.ID →
      ev.EndTime ≤ e.EndTime ∨ s.participantCount ev.ID = 0) :
    (s.updateEvent ev).2.activeEventsCount userID t ≤ s.activeEventsCount userID t := by
  unfold DB.updateEvent
  split
  · exact le_refl _
  · split_ifs with h1 h2
    rotate_left
    · exact le_refl _
    · exact le_refl _
    · refine DB.activeEventsCount_le (by exact List.Sublist.refl _) ?_
      intro p hp
      simp only [List.countP_map]
      apply List.countP_mono_left
      intro e he hpred
      simp only [Function.comp, decide_eq_true_eq] at hpred ⊢
      by_cases hhit : e.ID = ev.ID ∧ e.OrganizerID = ev.OrganizerID
      · simp only [hhit, and_self, if_true] at hpred
        have hpid : p.EventID = e.ID := hpred.1
        refine ⟨hpid, ?_⟩
        rcases hend e he hhit.1 with hle | hzero
        · exact lt_of_lt_of_le hpred.2 hle
        · exfalso
          have hpos : 0 < s.participantCount ev.ID :=
            List.countP_pos_iff.mpr ⟨p, hp, by simpa using hpid.trans hhit.1⟩
          omega
      · simpa only [hhit, if_false] using hpred

theorem DB.deleteEvent_active (s : DB) (id organizerID userID : Int) (t : Time) :
    (s.deleteEvent id organizerID).2.activeEventsCount userID t ≤
      s.activeEventsCount userID t := by
  unfold DB.deleteEvent
  split
  · exact le_refl _
  · split_ifs
    · exact le_refl _
    · refine DB.activeEventsCount_le (by exact List.Sublist.refl _) ?_
      intro p _
      exact (List.filter_sublist _).countP_le _

theorem DB.deleteParticipant_active (s : DB) (userID eventID u : Int) (t : Time) :
    (s.deleteParticipant userID eventID).2.activeEventsCount u t ≤ s.activeEventsCount u t := by
  unfold DB.deleteParticipant
  split
  · exact le_refl _
  · refine DB.activeEventsCount_le (by exact List.filter_sublist _) ?_
    intro p _
    exact le_refl _

/-- A new participant row adds at most one to the count of its user's active
events, and nothing to the count of another user. -/
theorem DB.insertParticipant_active {s : DB} (hs : s.Valid) (userID eventID : Int)
    (joinedAt : Time) (u : Int) (t : Time) :
    (s.insertParticipant userID eventID joinedAt).2.activeEventsCount u t ≤
      s.activeEventsCount u t + (if userID = u then 1 else 0) := by
  unfold DB.insertParticipant
  simp only []
  split_ifs with h1 h2 h3 h4 h5 h6 h7 h8 h9
  all_goals first
    | exact Nat.le_add_right _ _
    | exact le_refl _
    | skip
  · simp only [DB.activeEventsCount, List.map_append, List.sum_append, List.map_cons,
      List.map_nil, List.sum_cons, List.sum_nil, h9, if_true, add_zero]
    apply Nat.add_le_add_left
    apply pairwise_countP_le_one (R := fun a b : Event => a.ID = b.ID) hs.events_pkey
    intro a b ha hb
    simp only [decide_eq_true_eq] at ha hb
    exact ha.1.symm.trans hb.1
  · simp only [DB.activeEventsCount, List.map_append, List.sum_append, List.map_cons,
      List.map_nil, List.sum_cons, List.sum_nil, h9, if_false, add_zero]
    exact le_refl _

/-- A service call that satisfies `keepsQuota t` preserves the limit of five
active events at instant `t`. -/
theorem Op.apply_quota (bc : Bcrypt) (env : String) {s : DB} (hs : s.Valid) (t : Time)
    (hq : ∀ u, s.activeEventsCount u t ≤ 5) (op : Op) (hop : op.keepsQuota t s) (u : Int) :
    (op.apply bc env s).activeEventsCount u t ≤ 5 := by
  cases op with
  | Register req salt now tokenTime =>
    rcases AuthService.Register_state bc env s req salt now tokenTime with h | ⟨hp, -, h⟩
    · simpa only [Op.apply, h] using hq u
    · simpa only [Op.apply, h, DB.insertUser_active] using hq u
  | CreateEvent req organizerID now =>
    simp only [Op.apply, EventService.CreateEvent_state]
    exact le_trans (DB.insertEvent_active hs _ u t) (hq u)
  | UpdateEvent id req organizerID now =>
    rcases EventService.UpdateEvent_state s id req organizerID now with h | ⟨old, hold, -, h⟩
    · simpa only [Op.apply, h] using hq u
    · simp only [Op.apply, h]
      refine le_trans (DB.updateEvent_active _ u t ?_) (hq u)
      intro e he hid
      have hoid : old.ID = id := DB.eventByID_id hold
      have heq : e = old :=
        hs.event_eq_of_id he (List.mem_of_find?_eq_some hold) hid
      subst heq
      have := hop e hold
      simpa only [hoid] using this
  | CloseEvent organizerID eventID now =>
    rcases EventService.CloseEvent_state s organizerID eventID now with h | ⟨old, hold, -, h⟩
    · simpa only [Op.apply, h] using hq u
    · simp only [Op.apply, h]
      refine le_trans (DB.updateEvent_active _ u t ?_) (hq u)
      intro e he hid
      have heq : e = old :=
        hs.event_eq_of_id he (List.mem_of_find?_eq_some hold) hid
      subst heq
      exact Or.inl (le_refl _)
  | OpenEvent organizerID eventID now =>
    rcases EventService.OpenEvent_state s organizerID eventID now with h | ⟨old, hold, -, h⟩
    · simpa only [Op.apply, h] using hq u
    · simp only [Op.apply, h]
      refine le_trans (DB.updateEvent_active _ u t ?_) (hq u)
      intro e he hid
      have heq : e = old :=
        hs.event_eq_of_id he (List.mem_of_find?_eq_some hold) hid
      subst heq
      exact Or.inl (le_refl _)
  | DeleteEvent id organizerID =>
    rcases EventRepository.Delete_state s id organizerID with h | ⟨-, h⟩
    · simpa only [Op.apply, EventService.DeleteEvent, h] using hq u
    · simp only [Op.apply, EventService.DeleteEvent, h]
      exact le_trans (DB.deleteEvent_active s _ _ u t) (hq u)
  | JoinEvent userID eventID now insertTime =>
    rcases ParticipantRepository.JoinEvent_state s userID eventID now insertTime with h | ⟨hg, h⟩
    · simpa only [Op.apply, ParticipantService.JoinEvent, h] using hq u
    · simp only [Op.apply, ParticipantService.JoinEvent, h]
      have hins := DB.insertParticipant_active hs userID eventID insertTime u t
      by_cases hu : userID = u
      · subst hu
        obtain ⟨-, -, -, -, -, hact⟩ := hg
        have hanti := DB.activeEventsCount_antitone s userID (show now ≤ t from hop)
        simp only [if_true] at hins
        omega
      · simp only [hu, if_false, add_zero] at hins
        exact le_trans hins (hq u)
  | LeaveEvent userID eventID =>
    simp only [Op.apply, ParticipantService.LeaveEvent, ParticipantRepository.LeaveEvent_state]
    exact le_trans (DB.deleteParticipant_active s _ _ u t) (hq u)

/-- In a valid state the count that the active-events query of `JoinEvent`
returns is the number of participant rows of the user in events that end
after the instant. -/
theorem DB.Valid.activeEventsCount_eq_activeRows {s : DB} (hs : s.Valid) (userID : Int)
    (t : Time) : s.activeEventsCount userID t = s.activeRows userID t := by
  have hpoint : ∀ p : Participant,
      (if p.UserID = userID then
        s.events.countP (fun e => p.EventID = e.ID ∧ e.EndTime > t) else 0) =
      if (decide (p.UserID = userID ∧
          s.events.any (fun e => e.ID = p.EventID ∧ e.EndTime > t) = true)) = true
        then 1 else 0 := by
    intro p
    by_cases hu : p.UserID = userID
    · have hle : s.events.countP (fun e => p.EventID = e.ID ∧ e.EndTime > t) ≤ 1 := by
        apply pairwise_countP_le_one (R := fun a b : Event => a.ID = b.ID) hs.events_pkey
        intro a b ha hb
        simp only [decide_eq_true_eq] at ha hb
        exact ha.1.symm.trans hb.1
      by_cases hany : s.events.any (fun e => e.ID = p.EventID ∧ e.EndTime > t) = true
      · have hpos : 0 < s.events.countP (fun e => p.EventID = e.ID ∧ e.EndTime > t) := by
          obtain ⟨e, he, hpe⟩ := List.any_eq_true.mp hany
          simp only [decide_eq_true_eq] at hpe
          exact List.countP_pos_iff.mpr ⟨e, he, by simpa using ⟨hpe.1.symm, hpe.2⟩⟩
        simp only [hu, hany, and_self, decide_True, if_true]
        omega
      · have hzero : s.events.countP (fun e => p.EventID = e.ID ∧ e.EndTime > t) = 0 := by
          rw [List.countP_eq_zero]
          intro e he hpe
          simp only [decide_eq_true_eq] at hpe
          exact hany (List.any_eq_true.mpr ⟨e, he, by simpa using ⟨hpe.1.symm, hpe.2⟩⟩)
        simp only [hu, hany, and_false, decide_False, if_true, hzero]
        rfl
    · simp [hu]
  unfold DB.activeEventsCount DB.activeRows
  generalize s.participants = l
  induction l with
  | nil => rfl
  | cons p l ih =>
    rw [List.map_cons, List.sum_cons, List.countP_cons, ih, hpoint p]
    omega

/-- C20 (as amended): at every instant `t`, in every state reachable from the
empty database by service calls in which every `JoinEvent` read the clock no
later than `t` and no `UpdateEvent` moved the end of an event that had
participant rows to a later time, no user has more than five participant rows
in events whose end time is after `t`. -/
theorem active_events_limit (bc : Bcrypt) (env : String) (t : Time) (s : DB)
    (h : ReachableBy bc env (Op.keepsQuota t) s) (userID : Int) :
    s.activeRows userID t ≤ 5 := by
  rw [← h.valid.activeEventsCount_eq_activeRows]
  induction h generalizing userID with
  | empty => simp [DB.activeEventsCount, DB.empty]
  | step s op hr hop ih =>
    exact Op.apply_quota bc env hr.valid t (fun u => ih u) op hop userID

/-- C20, the claim as stated fails: user 1 joins, at time 100, an event that
ended at time 50 and five events that end at time 2000; the organizer then
moves the end of the first event to time 3000, and at time 120 the user has
six participant rows in events that end later. -/
theorem six_active_events_after_update :
    Reachable sampleBcrypt "" (DB.empty.run sampleBcrypt "" extendedRun) ∧
    (DB.empty.run sampleBcrypt "" extendedRun).activeRows 1 120 = 6 := by
  refine ⟨ReachableBy.run ReachableBy.empty _, ?_⟩
  decide

/-- C20, the amended statement on the run in which user 1 joins event 1 at
time 40, seen at time 100. -/
theorem active_events_limit_witness :
    (DB.empty.run sampleBcrypt "" fullRun).activeRows 1 100 ≤ 5 :=
  active_events_limit sampleBcrypt "" 100 _
    (ReachableBy.step _ (.JoinEvent 1 1 40 40)
      (ReachableBy.step _ (.CreateEvent (picnicRequest 1) 1 30)
        (ReachableBy.step _ (.Register aliceRequest 0 10 10) ReachableBy.empty trivial)
        trivial)
      (by unfold Op.keepsQuota; decide)) 1

/-! ## The two statuses -/

theorem DB.insertUser_events (s : DB) (username email password : String)
    (createdAt updatedAt : Time) :
    (s.insertUser username email password createdAt updatedAt).2.events = s.events := by
  unfold DB.insertUser
  simp only []
  split_ifs <;> rfl

theorem DB.insertParticipant_events (s : DB) (userID eventID : Int) (joinedAt : Time) :
    (s.insertParticipant userID eventID joinedAt).2.events = s.events := by
  unfold DB.insertParticipant
  simp only []
  split_ifs <;> rfl

theorem DB.deleteParticipant_events (s : DB) (userID eventID : Int) :
    (s.deleteParticipant userID eventID).2.events = s.events := by
  unfold DB.deleteParticipant
  split <;> rfl

theorem DB.insertEvent_statusKnown {s : DB} (hk : s.StatusKnown) (ev : Event)
    (hev : ev.Status = "open" ∨ ev.Status = "closed") : (s.insertEvent ev).2.StatusKnown := by
  unfold DB.insertEvent
  simp only []
  split_ifs
  · exact hk
  · exact hk
  rotate_left
  · exact hk
  · exact hk
  · intro e he
    simp only [List.mem_append, List.mem_singleton] at he
    rcases he with he | rfl
    · exact hk e he
    · exact hev

theorem DB.updateEvent_statusKnown {s : DB} (hk : s.StatusKnown) (ev : Event)
    (hev : ev.Status = "open" ∨ ev.Status = "closed") : (s.updateEvent ev).2.StatusKnown := by
  unfold DB.updateEvent
  split
  · exact hk
  · split_ifs
    rotate_left
    · exact hk
    · exact hk
    · intro e he
      obtain ⟨e0, he0, rfl⟩ := List.mem_map.mp he
      split_ifs
      · exact hev
      · exact hk e0 he0

theorem DB.deleteEvent_statusKnown {s : DB} (hk : s.StatusKnown) (id organizerID : Int) :
    (s.deleteEvent id organizerID).2.StatusKnown := by
  unfold DB.deleteEvent
  split
  · exact hk
  · split_ifs
    · exact hk
    · intro e he
      exact hk e (List.mem_of_mem_filter he)

/-- Every service call leaves the status of every event `open` or `closed`. -/
theorem Op.apply_statusKnown (bc : Bcrypt) (env : String) {s : DB} (hk : s.StatusKnown)
    (op : Op) : (op.apply bc env s).StatusKnown := by
  cases op with
  | Register req salt now tokenTime =>
    rcases AuthService.Register_state bc env s req salt now tokenTime with h | ⟨hp, -, h⟩
    · simpa only [Op.apply, h] using hk
    · simp only [Op.apply, h]
      intro e he
      rw [DB.insertUser_events] at he
      exact hk e he
  | CreateEvent req organizerID now =>
    simp only [Op.apply, EventService.CreateEvent_state]
    apply DB.insertEvent_statusKnown hk
    left
    simp [EventRepository.stamped, EventService.newEvent]
  | UpdateEvent id req organizerID now =>
    rcases EventService.UpdateEvent_state s id req organizerID now with h | ⟨old, hold, -, h⟩
    · simpa only [Op.apply, h] using hk
    · simp only [Op.apply, h]
      exact DB.updateEvent_statusKnown hk _ (hk old (List.mem_of_find?_eq_some hold))
  | CloseEvent organizerID eventID now =>
    rcases EventService.CloseEvent_state s organizerID eventID now with h | ⟨old, hold, -, h⟩
    · simpa only [Op.apply, h] using hk
    · simp only [Op.apply, h]
      exact DB.updateEvent_statusKnown hk _ (Or.inr rfl)
  | OpenEvent organizerID eventID now =>
    rcases EventService.OpenEvent_state s organizerID eventID now with h | ⟨old, hold, -, h⟩
    · simpa only [Op.apply, h] using hk
    · simp only [Op.apply, h]
      exact DB.updateEvent_statusKnown hk _ (Or.inl rfl)
  | DeleteEvent id organizerID =>
    rcases EventRepository.Delete_state s id organizerID with h | ⟨-, h⟩
    · simpa only [Op.apply, EventService.DeleteEvent, h] using hk
    · simpa only [Op.apply, EventService.DeleteEvent, h] using
        DB.deleteEvent_statusKnown hk _ _
  | JoinEvent userID eventID now insertTime =>
    rcases ParticipantRepository.JoinEvent_state s userID eventID now insertTime with h | ⟨-, h⟩
    · simpa only [Op.apply, ParticipantService.JoinEvent, h] using hk
    · simp only [Op.apply, ParticipantService.JoinEvent, h]
      intro e he
      rw [DB.insertParticipant_events] at he
      exact hk e he
  | LeaveEvent userID eventID =>
    simp only [Op.apply, ParticipantService.LeaveEvent, ParticipantRepository.LeaveEvent_state]
    intro e he
    rw [DB.deleteParticipant_events] at he
    exact hk e he

/-- In every state the service can reach, the status of every event is
`open` or `closed`. -/
theorem ReachableBy.statusKnown {bc : Bcrypt} {env : String} {allowed : DB → Op → Prop}
    {s : DB} (h : ReachableBy bc env allowed s) : s.StatusKnown := by
  induction h with
  | empty => intro e he; simp [DB.empty] at he
  | step s op _ _ ih => exact Op.apply_statusKnown bc env ih op

/-! ## The statuses the operations write -/

/-- A row of `events` after an insert is a row from before it, or carries the
status of the inserted event. -/
theorem DB.insertEvent_status (s : DB) (ev : Event) :
    ∀ e ∈ (s.insertEvent ev).2.events, e ∈ s.events ∨ e.Status = ev.Status := by
  intro e he
  unfold DB.insertEvent at he
  simp only [] at he
  split_ifs at he
  · exact Or.inl he
  · exact Or.inl he
  rotate_left
  · exact Or.inl he
  · exact Or.inl he
  · simp only [List.mem_append, List.mem_singleton] at he
    rcases he with he | rfl
    · exact Or.inl he
    · exact Or.inr rfl

/-- A row of `events` after an update is a row from before it, or a row of
the updated id with the status the statement sets. -/
theorem DB.updateEvent_status (s : DB) (ev : Event) :
    ∀ e ∈ (s.updateEvent ev).2.events, e ∈ s.events ∨ (e.ID = ev.ID ∧ e.Status = ev.Status) := by
  intro e he
  unfold DB.updateEvent at he
  split at he
  · exact Or.inl he
  · split_ifs at he
    rotate_left
    · exact Or.inl he
    · exact Or.inl he
    · obtain ⟨e0, he0, rfl⟩ := List.mem_map.mp he
      split_ifs with hc
      · exact Or.inr ⟨hc.1, rfl⟩
      · exact Or.inl he0

/-- A row of `events` after a delete is a row from before it. -/
theorem DB.deleteEvent_status (s : DB) (id organizerID : Int) :
    ∀ e ∈ (s.deleteEvent id organizerID).2.events, e ∈ s.events := by
  intro e he
  unfold DB.deleteEvent at he
  split at he
  · exact he
  · split_ifs at he
    · exact he
    · exact List.mem_of_mem_filter he

/-- After any service call, every event either has status `open` or `closed`
or has the status that an event of the same id had before the call. -/
theorem Op.apply_status (bc : Bcrypt) (env : String) (s : DB) (op : Op) :
    ∀ ev ∈ (op.apply bc env s).events,
      ev.Status = "open" ∨ ev.Status = "closed" ∨
        ∃ old ∈ s.events, old.ID = ev.ID ∧ old.Status = ev.Status := by
  have keep : ∀ ev : Event, ev ∈ s.events →
      ev.Status = "open" ∨ ev.Status = "closed" ∨
        ∃ old ∈ s.events, old.ID = ev.ID ∧ old.Status = ev.Status :=
    fun ev h => Or.inr (Or.inr ⟨ev, h, rfl, rfl⟩)
  intro ev hev
  cases op with
  | Register req salt now tokenTime =>
    rcases AuthService.Register_state bc env s req salt now tokenTime with h | ⟨hp, -, h⟩
    · simp only [Op.apply, h] at hev
      exact keep ev hev
    · simp only [Op.apply, h, DB.insertUser_events] at hev
      exact keep ev hev
  | CreateEvent req organizerID now =>
    simp only [Op.apply, EventService.CreateEvent_state] at hev
    rcases DB.insertEvent_status s _ ev hev with h | h
    · exact keep ev h
    · left
      rw [h]
      simp [EventRepository.stamped, EventService.newEvent]
  | UpdateEvent id req organizerID now =>
    rcases EventService.UpdateEvent_state s id req organizerID now with h | ⟨old, hold, -, h⟩
    · simp only [Op.apply, h] at hev
      exact keep ev hev
    · simp only [Op.apply, h] at hev
      rcases DB.updateEvent_status s _ ev hev with h1 | ⟨h1, h2⟩
      · exact keep ev h1
      · exact Or.inr (Or.inr ⟨old, List.mem_of_find?_eq_some hold, h1.symm, h2.symm⟩)
  | CloseEvent organizerID eventID now =>
    rcases EventService.CloseEvent_state s organizerID eventID now with h | ⟨old, hold, -, h⟩
    · simp only [Op.apply, h] at hev
      exact keep ev hev
    · simp only [Op.apply, h] at hev
      rcases DB.updateEvent_status s _ ev hev with h1 | ⟨-, h2⟩
      · exact keep ev h1
      · exact Or.inr (Or.inl h2)
  | OpenEvent organizerID eventID now =>
    rcases EventService.OpenEvent_state s organizerID eventID now with h | ⟨old, hold, -, h⟩
    · simp only [Op.apply, h] at hev
      exact keep ev hev
    · simp only [Op.apply, h] at hev
      rcases DB.updateEvent_status s _ ev hev with h1 | ⟨-, h2⟩
      · exact keep ev h1
      · exact Or.inl h2
  | DeleteEvent id organizerID =>
    rcases EventRepository.Delete_state s id organizerID with h | ⟨-, h⟩
    · simp only [Op.apply, EventService.DeleteEvent, h] at hev
      exact keep ev hev
    · simp only [Op.apply, EventService.DeleteEvent, h] at hev
      exact keep ev (DB.deleteEvent_status s _ _ ev hev)
  | JoinEvent userID eventID now insertTime =>
    rcases ParticipantRepository.JoinEvent_state s userID eventID now insertTime with h | ⟨-, h⟩
    · simp only [Op.apply, ParticipantService.JoinEvent, h] at hev
      exact keep ev hev
    · simp only [Op.apply, ParticipantService.JoinEvent, h, DB.insertParticipant_events] at hev
      exact keep ev hev
  | LeaveEvent userID eventID =>
    simp only [Op.apply, ParticipantService.LeaveEvent, ParticipantRepository.LeaveEvent_state,
      DB.deleteParticipant_events] at hev
    exact keep ev hev

/-- The response of a successful repository update carries the status of the
event it was given. -/
theorem EventRepository.Update_response_status {s : DB} {event ev : Event} {now : Time}
    (h : (EventRepository.Update s event now).1 = .ok ev) : ev.Status = event.Status := by
  unfold EventRepository.Update at h
  simp only [] at h
  split at h
  · simp at h
  · simp at h
  · simp only [Except.ok.injEq] at h
    rw [← h]

/-- C21: in every state reachable from the empty database by the service
operations, the status of every stored event is `open` or `closed`.  After any
single operation, from any state, every stored event has status `open` or
`closed` or the status an event of the same id had before the operation; and a
successful `CreateEvent` answers with status `open`, a successful `CloseEvent`
with `closed`, a successful `OpenEvent` with `open`. -/
theorem status_open_or_closed (bc : Bcrypt) (env : String) :
    (∀ s, Reachable bc env s → ∀ ev ∈ s.events, ev.Status = "open" ∨ ev.Status = "closed") ∧
    (∀ (s : DB) (op : Op), ∀ ev ∈ (op.apply bc env s).events,
      ev.Status = "open" ∨ ev.Status = "closed" ∨
        ∃ old ∈ s.events, old.ID = ev.ID ∧ old.Status = ev.Status) ∧
    (∀ (s : DB) (req : EventRequest) (organizerID : Int) (now : Time) (r : EventResponse),
      (EventService.CreateEvent s req organizerID now).1 = .ok r → r.Status = "open") ∧
    (∀ (s : DB) (organizerID eventID : Int) (now : Time) (r : EventResponse),
      (EventService.CloseEvent s organizerID eventID now).1 = .ok r → r.Status = "closed") ∧
    (∀ (s : DB) (organizerID eventID : Int) (now : Time) (r : EventResponse),
      (EventService.OpenEvent s organizerID eventID now).1 = .ok r → r.Status = "open") := by
  refine ⟨fun s h => h.statusKnown, Op.apply_status bc env, ?_, ?_, ?_⟩
  · intro s req organizerID now r h
    unfold EventService.CreateEvent EventRepository.Create at h
    simp only [] at h
    split at h
    · simp at h
    · rename_i ev s1 hc
      split at hc
      · simp at hc
      · simp only [Prod.mk.injEq, Except.ok.injEq] at hc
        simp only [Except.ok.injEq] at h
        rw [← h, ← hc.1]
        simp [Event.toResponse, EventRepository.stamped, EventService.newEvent]
  · intro s organizerID eventID now r h
    unfold EventService.CloseEvent at h
    split at h
    · simp at h
    · split_ifs at h
      split at h
      · simp at h
      · rename_i ev s1 hu
        simp only [Except.ok.injEq] at h
        have := EventRepository.Update_response_status (congrArg Prod.fst hu)
        rw [← h]
        simpa [Event.toResponse] using this
  · intro s organizerID eventID now r h
    unfold EventService.OpenEvent at h
    split at h
    · simp at h
    · split_ifs at h
      split at h
      · simp at h
      · rename_i ev s1 hu
        simp only [Except.ok.injEq] at h
        have := EventRepository.Update_response_status (congrArg Prod.fst hu)
        rw [← h]
        simpa [Event.toResponse] using this

/-- C21 on the state after one user has registered, created an event and
joined it, and on closing the sample event. -/
theorem status_open_or_closed_witness :
    (∀ ev ∈ (DB.empty.run sampleBcrypt "" fullRun).events,
      ev.Status = "open" ∨ ev.Status = "closed") ∧
    (∀ r, (EventService.CloseEvent sampleDB 1 1 70).1 = .ok r → r.Status = "closed") :=
  ⟨(status_open_or_closed sampleBcrypt "").1 _
      (ReachableBy.step _ (.JoinEvent 1 1 40 40)
        (ReachableBy.step _ (.CreateEvent (picnicRequest 1) 1 30)
          (ReachableBy.step _ (.Register aliceRequest 0 10 10) ReachableBy.empty trivial)
          trivial)
        trivial),
    fun r h => (status_open_or_closed sampleBcrypt "").2.2.2.1 sampleDB 1 1 70 r h⟩

/-! ## The authentication middleware -/

/-- The middleware calls the next handler with user id `id` exactly when the
header is not empty, starts with `Bearer ` and `ValidateToken` returns `id` for
the rest of the header. -/
theorem middleware.Protected_next_iff (env : String) (decode : String → TokenString)
    (authorization : String) (parseTime now : Time) (id : Int) :
    middleware.Protected env decode authorization parseTime now = .next id ↔
      authorization ≠ "" ∧ strings.HasPrefix authorization "Bearer " = true ∧
      AuthService.ValidateToken env (decode (strings.TrimPrefix authorization "Bearer "))
        parseTime now = .ok id := by
  unfold middleware.Protected
  by_cases h1 : authorization = ""
  · simp [h1]
  · by_cases h2 : strings.HasPrefix authorization "Bearer " = true
    · simp only [h1, h2, if_false, not_true_eq_false, ne_eq, not_false_eq_true, true_and]
      cases AuthService.ValidateToken env
        (decode (strings.TrimPrefix authorization "Bearer ")) parseTime now <;> simp
    · simp [h1, h2]

/-- Whenever `ValidateToken` returns, with a user id or with an error, the
middleware either calls the next handler or answers 401 with the message of
the case. -/
theorem middleware.Protected_rejects (env : String) (decode : String → TokenString)
    (authorization : String) (parseTime now : Time) :
    (authorization = "" →
      middleware.Protected env decode authorization parseTime now =
        .error { Code := 401, Message := "Unauthorized" }) ∧
    (authorization ≠ "" → strings.HasPrefix authorization "Bearer " = false →
      middleware.Protected env decode authorization parseTime now =
        .error { Code := 401, Message := "Invalid authorization format" }) ∧
    (authorization ≠ "" → strings.HasPrefix authorization "Bearer " = true →
      ∀ e, AuthService.ValidateToken env (decode (strings.TrimPrefix authorization "Bearer "))
          parseTime now = .error e →
        middleware.Protected env decode authorization parseTime now =
          .error { Code := 401, Message := "Invalid or expired token" }) := by
  refine ⟨?_, ?_, ?_⟩
  · intro h
    simp [middleware.Protected, h]
  · intro h1 h2
    simp [middleware.Protected, h1, h2]
  · intro h1 h2 e he
    simp [middleware.Protected, h1, h2, he]

/-- A token that carries an HMAC signature made with the server's secret,
whose claims decode, and that has neither `exp` nor `nbf` makes
`ValidateToken` panic in the type assertion on `exp`. -/
theorem AuthService.ValidateToken_without_exp (env : String) (t : Token) (parseTime now : Time)
    {m : SigningMethod} (hm : t.Method = some m) (hh : m.isHMAC = true)
    (hs : t.SignedWith = some (AuthService.jwtSecret env))
    (hd : ∀ kv ∈ t.Claims, jwt.decodable kv.2 = true)
    (hexp : t.Claims.get "exp" = none) (hnbf : t.Claims.get "nbf" = none) :
    AuthService.ValidateToken env (.compact t) parseTime now = .panicked := by
  rw [AuthService.ValidateToken_signed env t parseTime now hm hh hs hd]
  have hv : jwt.Validate (t.Claims.map fun kv => (kv.1, jwt.decode kv.2)) parseTime = none := by
    simp only [jwt.Validate, jwt.checkDate, MapClaims.get_decode, hexp, hnbf, Option.map_none']
  rw [hv]
  simp only [hexp, Option.map_none']

/-- A token that carries an HMAC signature made with the server's secret,
whose claims decode, that the library accepts and whose `exp` is not below the
Unix seconds of the method's clock reading, and whose `id` is absent or not a
number, makes `ValidateToken` panic in the type assertion on `id`. -/
theorem AuthService.ValidateToken_without_id (env : String) (t : Token) (parseTime now : Time)
    {m : SigningMethod} {e : ℚ} (hm : t.Method = some m) (hh : m.isHMAC = true)
    (hs : t.SignedWith = some (AuthService.jwtSecret env))
    (hd : ∀ kv ∈ t.Claims, jwt.decodable kv.2 = true)
    (hexp : t.Claims.get "exp" = some (.number e)) (hnbf : t.Claims.get "nbf" = none)
    (hid : ∀ x, t.Claims.get "id" ≠ some (.number x))
    (hparse : roundFloat64 e = 0 ∨ parseTime < jwt.numericDate (roundFloat64 e))
    (hnow : ¬ roundFloat64 (Unix now) > roundFloat64 e) :
    AuthService.ValidateToken env (.compact t) parseTime now = .panicked := by
  rw [AuthService.ValidateToken_signed env t parseTime now hm hh hs hd]
  have hexpd : MapClaims.get (t.Claims.map fun kv => (kv.1, jwt.decode kv.2)) "exp" =
      some (.number (roundFloat64 e)) := by
    rw [MapClaims.get_decode, hexp]
    rfl
  have hnbfd : MapClaims.get (t.Claims.map fun kv => (kv.1, jwt.decode kv.2)) "nbf" = none := by
    rw [MapClaims.get_decode, hnbf]
    rfl
  have hv : jwt.Validate (t.Claims.map fun kv => (kv.1, jwt.decode kv.2)) parseTime = none := by
    rw [jwt.Validate_exp_only parseTime hexpd hnbfd]
    rcases hparse with h | h
    · rw [if_pos h]
    · by_cases h0 : roundFloat64 e = 0
      · rw [if_pos h0]
      · rw [if_neg h0, if_pos h]
  rw [hv]
  simp only [hexp, Option.map_some', jwt.decode, if_neg hnow]
  cases hc : t.Claims.get "id" with
  | none => rfl
  | some c =>
    cases c with
    | number x => exact absurd hc (hid x)
    | string s => rfl
    | other => rfl

/-- C22, the code at the failing input: the header `Bearer no-exp` is not
empty and starts with `Bearer `, the rest of it is a token signed with the
server's secret by HS256 that carries no `exp` claim, and `ValidateToken` does
not succeed on it; yet the middleware does not answer 401: it panics. -/
theorem Protected_panics_without_exp :
    ("Bearer no-exp" : String) ≠ "" ∧
    strings.HasPrefix "Bearer no-exp" "Bearer " = true ∧
    sampleDecode (strings.TrimPrefix "Bearer no-exp" "Bearer ") = .compact tokenWithoutExp ∧
    tokenWithoutExp.SignedWith = some (AuthService.jwtSecret "") ∧
    (∀ id, AuthService.ValidateToken "" (.compact tokenWithoutExp) 0 0 ≠ .ok id) ∧
    middleware.Protected "" sampleDecode "Bearer no-exp" 0 0 = .panicked ∧
    (∀ e, middleware.Protected "" sampleDecode "Bearer no-exp" 0 0 ≠ .error e) ∧
    (∀ id, middleware.Protected "" sampleDecode "Bearer no-exp" 0 0 ≠ .next id) := by
  have htrim : strings.TrimPrefix "Bearer no-exp" "Bearer " = "no-exp" := by decide
  have hdec : sampleDecode (strings.TrimPrefix "Bearer no-exp" "Bearer ") =
      .compact tokenWithoutExp := by
    rw [htrim]
    simp [sampleDecode]
  have hvt : AuthService.ValidateToken "" (.compact tokenWithoutExp) 0 0 = .panicked := by
    apply AuthService.ValidateToken_without_exp "" tokenWithoutExp 0 0 (m := .HS256) rfl rfl
      (by decide)
    · intro kv hkv
      simp only [tokenWithoutExp, List.mem_singleton] at hkv
      rw [hkv]
      exact sampleNumbers_float64.2.1
    · simp [tokenWithoutExp, MapClaims.get, List.find?]
    · simp [tokenWithoutExp, MapClaims.get, List.find?]
  have hp : middleware.Protected "" sampleDecode "Bearer no-exp" 0 0 = .panicked := by
    have h1 : ¬ (("Bearer no-exp" : String) = "") := by decide
    have h2 : strings.HasPrefix "Bearer no-exp" "Bearer " = true := by decide
    simp only [middleware.Protected, h1, h2, if_false, not_true_eq_false, hdec, hvt]
  refine ⟨by decide, by decide, hdec, by decide, ?_, hp, ?_, ?_⟩
  · intro id h
    rw [hvt] at h
    cases h
  · intro e h
    rw [hp] at h
    cases h
  · intro id h
    rw [hp] at h
    cases h

/-! ## The registration handler -/

/-- C23, the code at two failing inputs: on the empty database the handler
answers 201 to a registration with the two-character username `ab` and stores
the user; on the sample state it answers 201 to a registration with the
five-character password `12345` and stores the user. -/
theorem Register_handler_accepts_short_fields :
    shortNameRequest.Username.length = 2 ∧
    (∃ r, (AuthController.Register sampleBcrypt "" DB.empty (some shortNameRequest) 0 10 10).1 =
      .ok (201, r)) ∧
    (AuthController.Register sampleBcrypt "" DB.empty (some shortNameRequest) 0 10 10).2.users =
      [{ ID := 1, Username := "ab", Email := "ab@example.org", Password := "$2a$secret1",
         CreatedAt := 10, UpdatedAt := 10 }] ∧
    shortPasswordRequest.Password.length = 5 ∧
    (∃ r, (AuthController.Register sampleBcrypt "" sampleDB (some shortPasswordRequest)
      0 10 10).1 = .ok (201, r)) ∧
    (AuthController.Register sampleBcrypt "" sampleDB (some shortPasswordRequest)
      0 10 10).2.users =
      sampleDB.users ++
        [{ ID := 3, Username := "carol", Email := "carol@example.org", Password := "$2a$12345",
           CreatedAt := 10, UpdatedAt := 10 }] := by
  refine ⟨by decide, ⟨_, rfl⟩, by decide, by decide, ⟨_, rfl⟩, by decide⟩

/-! ## The error handler -/

/-- C24 (as amended): `ErrorHandler` answers with the status code of the
error when the error is a `*fiber.Error` whose code is not zero, with 200 when
it is a `*fiber.Error` whose code is zero, and with 500 when it is any other
error; in every case the body is a JSON object whose `error` field is true and
whose `message` field is the text of the error. -/
theorem ErrorHandler_response :
    (∀ e : FiberError, e.Code ≠ 0 →
      config.ErrorHandler (.fiber e) =
        { Status := e.Code, Body := { error := true, message := e.Message } }) ∧
    (∀ e : FiberError, e.Code = 0 →
      config.ErrorHandler (.fiber e) =
        { Status := 200, Body := { error := true, message := e.Message } }) ∧
    (∀ message : String,
      config.ErrorHandler (.other message) =
        { Status := 500, Body := { error := true, message := message } }) ∧
    (∀ err : HandlerError,
      (config.ErrorHandler err).Body.error = true ∧
      (config.ErrorHandler err).Body.message = err.Error) := by
  refine ⟨?_, ?_, ?_, ?_⟩
  · intro e he
    simp [config.ErrorHandler, fasthttp.StatusCode, he, HandlerError.Error]
  · intro e he
    simp [config.ErrorHandler, fasthttp.StatusCode, he, HandlerError.Error]
  · intro message
    simp [config.ErrorHandler, fasthttp.StatusCode, HandlerError.Error]
  · intro err
    exact ⟨rfl, rfl⟩

/-- C24, the claim as stated fails: for the `*fiber.Error` with code 0 the
response carries the status 200, not the code of the error. -/
theorem ErrorHandler_zero_code :
    (config.ErrorHandler (.fiber { Code := 0, Message := "unset" })).Status = 200 ∧
    (config.ErrorHandler (.fiber { Code := 0, Message := "unset" })).Status ≠
      ({ Code := 0, Message := "unset" } : FiberError).Code := by
  constructor <;> decide

/-- C24, the amended statement on a `*fiber.Error` with code 404 and on one
with code 0. -/
theorem ErrorHandler_response_witness :
    config.ErrorHandler (.fiber { Code := 404, Message := "event not found" }) =
      { Status := 404, Body := { error := true, message := "event not found" } } ∧
    config.ErrorHandler (.fiber { Code := 0, Message := "unset" }) =
      { Status := 200, Body := { error := true, message := "unset" } } :=
  ⟨ErrorHandler_response.1 { Code := 404, Message := "event not found" } (by decide),
   ErrorHandler_response.2.1 { Code := 0, Message := "unset" } rfl⟩

/-! ## The type assertions of the token check -/

/-- C26, the code at three failing inputs: on a token signed with the
server's secret by HS256 that has no `exp` claim, on one that has no `id`
claim, and on one whose `id` claim is a string, `ValidateToken` returns neither
a user id nor an error: it panics in a type assertion. -/
theorem ValidateToken_panics :
    tokenWithoutExp.SignedWith = some (AuthService.jwtSecret "") ∧
    tokenWithoutExp.Claims.get "exp" = none ∧
    AuthService.ValidateToken "" (.compact tokenWithoutExp) 0 0 = .panicked ∧
    tokenWithoutID.SignedWith = some (AuthService.jwtSecret "") ∧
    tokenWithoutID.Claims.get "id" = none ∧
    AuthService.ValidateToken "" (.compact tokenWithoutID) 0 0 = .panicked ∧
    tokenWithTextID.SignedWith = some (AuthService.jwtSecret "") ∧
    tokenWithTextID.Claims.get "id" = some (.string "7") ∧
    AuthService.ValidateToken "" (.compact tokenWithTextID) 0 0 = .panicked := by
  obtain ⟨hr7, hf7, hi7, hrE, hfE, hnE, -⟩ := sampleNumbers_float64
  have hparse : roundFloat64 2000000000 = 0 ∨
      (0 : Time) < jwt.numericDate (roundFloat64 2000000000) := by
    right
    rw [hrE, hnE]
    decide
  have hnow : ¬ roundFloat64 ((Unix 0 : Int) : ℚ) > roundFloat64 2000000000 := by
    have h0 : Unix 0 = 0 := by decide
    have hz : roundFloat64 0 = 0 := by simp [roundFloat64]
    rw [hrE, h0]
    simp only [Int.cast_zero, hz]
    norm_num
  refine ⟨by decide, ?_, ?_, by decide, ?_, ?_, by decide, ?_, ?_⟩
  · simp [tokenWithoutExp, MapClaims.get, List.find?]
  · apply AuthService.ValidateToken_without_exp "" tokenWithoutExp 0 0 (m := .HS256) rfl rfl
      (by decide)
    · intro kv hkv
      simp only [tokenWithoutExp, List.mem_singleton] at hkv
      rw [hkv]
      exact hf7
    · simp [tokenWithoutExp, MapClaims.get, List.find?]
    · simp [tokenWithoutExp, MapClaims.get, List.find?]
  · simp [tokenWithoutID, MapClaims.get, List.find?]
  · apply AuthService.ValidateToken_without_id "" tokenWithoutID 0 0 (m := .HS256)
      (e := 2000000000) rfl rfl (by decide)
    · intro kv hkv
      simp only [tokenWithoutID, List.mem_singleton] at hkv
      rw [hkv]
      exact hfE
    · simp [tokenWithoutID, MapClaims.get, List.find?]
    · simp [tokenWithoutID, MapClaims.get, List.find?]
    · intro x
      simp [tokenWithoutID, MapClaims.get, List.find?]
    · exact hparse
    · exact hnow
  · simp [tokenWithTextID, MapClaims.get, List.find?]
  · apply AuthService.ValidateToken_without_id "" tokenWithTextID 0 0 (m := .HS256)
      (e := 2000000000) rfl rfl (by decide)
    · intro kv hkv
      simp only [tokenWithTextID, List.mem_cons, List.mem_singleton, List.not_mem_nil,
        or_false] at hkv
      rcases hkv with rfl | rfl
      · rfl
      · exact hfE
    · simp [tokenWithTextID, MapClaims.get, List.find?]
    · simp [tokenWithTextID, MapClaims.get, List.find?]
    · intro x
      simp [tokenWithTextID, MapClaims.get, List.find?]
    · exact hparse
    · exact hnow

/-! ## An event with its participants -/

/-- Collecting at most one value per element is filtering and mapping. -/
theorem flatMap_ite_singleton {α β : Type} (l : List α) (c : α → Bool) (f : α → β) :
    (l.flatMap fun a => if c a then [f a] else []) = (l.filter c).map f := by
  induction l with
  | nil => rfl
  | cons a l ih =>
    rw [List.flatMap_cons, ih, List.filter_cons]
    cases c a <;> simp

/-- A constant map over the rows that pass a test which at most one row
passes. -/
theorem map_const_filter_of_countP_le_one {α β : Type} (l : List α) (q : α → Bool) (y : β)
    (h : l.countP q ≤ 1) :
    (l.filter q).map (fun _ => y) = if l.any q then [y] else [] := by
  have hlen : (l.filter q).length = l.countP q := (List.countP_eq_length_filter q l).symm
  split_ifs with hany
  · have hpos : 0 < l.countP q := by
      rw [List.countP_pos_iff]
      simpa using hany
    have h1 : (l.filter q).length = 1 := by omega
    obtain ⟨a, ha⟩ := List.length_eq_one.mp h1
    rw [ha]
    rfl
  · have h0 : l.countP q = 0 := by
      rw [List.countP_eq_zero]
      simpa using hany
    have h1 : (l.filter q).length = 0 := by omega
    rw [List.length_eq_zero.mp h1]
    rfl

/-- In a valid state the participant listing of an event is the list of the
users that have a row for it, each once. -/
theorem EventRepository.GetParticipantsByEventID_valid {s : DB} (hs : s.Valid) (eventID : Int) :
    EventRepository.GetParticipantsByEventID s eventID =
      .ok ((s.users.filter fun u =>
              s.participants.any fun p => u.ID = p.UserID ∧ p.EventID = eventID).map
            fun u =>
              { ID := u.ID, Username := u.Username, Email := u.Email, CreatedAt := u.CreatedAt }) := by
  unfold EventRepository.GetParticipantsByEventID
  rw [← flatMap_ite_singleton]
  congr 1
  apply List.flatMap_congr
  intro u _
  apply map_const_filter_of_countP_le_one
  apply pairwise_countP_le_one hs.unique_participant
  intro a b ha hb
  simp only [decide_eq_true_eq] at ha hb
  exact ⟨ha.1.symm.trans hb.1, ha.2.trans hb.2.symm⟩

/-- C25: for every state, event id and caller, `GetEventWithParticipants`
fails with `event not found` when no event has the id, and with `you are not
the organizer of this event` when the event's organizer is not the caller;
otherwise it returns the fields of the event unchanged, together with the id,
username, email and creation time of exactly the users that have a participant
row for the event, and in a state that satisfies the constraints of the schema
each of these users is listed once.  The method returns no new state. -/
theorem GetEventWithParticipants_result (s : DB) (id caller : Int) :
    ((∀ e ∈ s.events, e.ID ≠ id) →
      EventService.GetEventWithParticipants s id caller = .error (.new "event not found")) ∧
    (∀ ev, s.eventByID id = some ev → ev.OrganizerID ≠ caller →
      EventService.GetEventWithParticipants s id caller =
        .error (.new "you are not the organizer of this event")) ∧
    (∀ ev, s.eventByID id = some ev → ev.OrganizerID = caller →
      ∃ r, EventService.GetEventWithParticipants s id caller = .ok r ∧
        r.Event = ev.toResponse ∧
        (∀ x, x ∈ r.Participants ↔
          ∃ u ∈ s.users, (∃ p ∈ s.participants, p.UserID = u.ID ∧ p.EventID = id) ∧
            x = { ID := u.ID, Username := u.Username, Email := u.Email,
                  CreatedAt := u.CreatedAt }) ∧
        (s.Valid →
          r.Participants =
            (s.users.filter fun u =>
                s.participants.any fun p => u.ID = p.UserID ∧ p.EventID = id).map
              fun u =>
                { ID := u.ID, Username := u.Username, Email := u.Email,
                  CreatedAt := u.CreatedAt })) := by
  refine ⟨?_, ?_, ?_⟩
  · intro hno
    have hnone : s.eventByID id = none := by
      unfold DB.eventByID
      rw [List.find?_eq_none]
      intro e he
      simpa using hno e he
    simp [EventService.GetEventWithParticipants, EventRepository.GetByID, hnone]
  · intro ev hev hne
    simp [EventService.GetEventWithParticipants, EventRepository.GetByID, hev, hne]
  · intro ev hev horg
    refine ⟨{ Event := ev.toResponse,
              Participants := s.users.flatMap fun u =>
                (s.participants.filter fun p => u.ID = p.UserID ∧ p.EventID = id).map fun _ =>
                  { ID := u.ID, Username := u.Username, Email := u.Email,
                    CreatedAt := u.CreatedAt } }, ?_, rfl, ?_, ?_⟩
    · simp [EventService.GetEventWithParticipants, EventRepository.GetByID, hev, horg,
        EventRepository.GetParticipantsByEventID]
    · intro x
      simp only [List.mem_flatMap, List.mem_map, List.mem_filter, decide_eq_true_eq]
      constructor
      · rintro ⟨u, hu, p, ⟨hp, hup, hpe⟩, rfl⟩
        exact ⟨u, hu, ⟨p, hp, hup.symm, hpe⟩, rfl⟩
      · rintro ⟨u, hu, ⟨p, hp, hup, hpe⟩, rfl⟩
        exact ⟨u, hu, p, ⟨hp, hup.symm, hpe⟩, rfl⟩
    · intro hs
      have h := EventRepository.GetParticipantsByEventID_valid hs id
      unfold EventRepository.GetParticipantsByEventID at h
      exact Except.ok.inj h

/-- C25 at the sample state after the second sample user has joined the
sample event: the organizer gets the event with that user, another caller is
refused, and an unknown event is not found. -/
theorem GetEventWithParticipants_result_witness :
    EventService.GetEventWithParticipants joinedDB 7 1 = .error (.new "event not found") ∧
    EventService.GetEventWithParticipants joinedDB 1 2 =
      .error (.new "you are not the organizer of this event") ∧
    ∃ r, EventService.GetEventWithParticipants joinedDB 1 1 = .ok r ∧
      r.Event = picnic.toResponse ∧
      r.Participants =
        [{ ID := 2, Username := "bob", Email := "bob@example.org", CreatedAt := 20 }] :=
  ⟨(GetEventWithParticipants_result joinedDB 7 1).1 (by decide),
   (GetEventWithParticipants_result joinedDB 1 2).2.1 picnic (by decide) (by decide),
   by
    obtain ⟨r, hr, hev, -, hp⟩ :=
      (GetEventWithParticipants_result joinedDB 1 1).2.2 picnic (by decide) (by decide)
    refine ⟨r, hr, hev, ?_⟩
    rw [hp (by constructor <;> decide)]
    decide⟩

/-! ## Failing calls leave the tables alone -/

/-- An insert into `participants` that fails stores no row. -/
theorem DB.insertParticipant_error_tables {s : DB} {userID eventID : Int} {joinedAt : Time}
    {e : Error} (h : (s.insertParticipant userID eventID joinedAt).1 = .error e) :
    s.SameTables (s.insertParticipant userID eventID joinedAt).2 := by
  unfold DB.insertParticipant at h ⊢
  simp only [] at h ⊢
  split_ifs at h ⊢
  · exact ⟨rfl, rfl, rfl⟩
  · exact ⟨rfl, rfl, rfl⟩
  · exact ⟨rfl, rfl, rfl⟩
  · exact ⟨rfl, rfl, rfl⟩

/-- An update statement that fails changes nothing. -/
theorem DB.updateEvent_error {s : DB} {ev : Event} {e : Error}
    (h : (s.updateEvent ev).1 = .error e) : (s.updateEvent ev).2 = s := by
  unfold DB.updateEvent at h ⊢
  split
  · rfl
  · rename_i old hfind
    simp only [hfind] at h
    split_ifs at h ⊢
    · rfl
    · rfl

/-- A repository update that fails changes nothing. -/
theorem EventRepository.Update_error {s : DB} {event : Event} {now : Time} {e : Error}
    (h : (EventRepository.Update s event now).1 = .error e) :
    (EventRepository.Update s event now).2 = s := by
  rw [EventRepository.Update_state]
  cases hu : (s.updateEvent { event with UpdatedAt := now }).1 with
  | error e2 => exact DB.updateEvent_error hu
  | ok i =>
    exfalso
    unfold EventRepository.Update at h
    simp only [] at h
    split at h
    · rename_i heq
      rw [heq] at hu
      simp at hu
    · rename_i heq
      rw [heq] at hu
      simp at hu
    · simp at h

/-- A delete statement that fails changes nothing. -/
theorem DB.deleteEvent_error {s : DB} {id organizerID : Int} {e : Error}
    (h : (s.deleteEvent id organizerID).1 = .error e) : (s.deleteEvent id organizerID).2 = s := by
  unfold DB.deleteEvent at h ⊢
  split
  · rfl
  · rename_i old hfind
    simp only [hfind] at h
    split_ifs at h ⊢
    rfl

/-- C27: whenever `JoinEvent`, `LeaveEvent`, `DeleteEvent`, `UpdateEvent`,
`CloseEvent` or `OpenEvent` returns an error, raised by one of its guards or
by the database, the `users`, `events` and `participants` tables hold the same
rows as before the call. -/
theorem failure_is_atomic (s : DB) :
    (∀ (userID eventID : Int) (now insertTime : Time) (e : Error),
      (ParticipantService.JoinEvent s userID eventID now insertTime).1 = some e →
      s.SameTables (ParticipantService.JoinEvent s userID eventID now insertTime).2) ∧
    (∀ (userID eventID : Int) (e : Error),
      (ParticipantService.LeaveEvent s userID eventID).1 = some e →
      s.SameTables (ParticipantService.LeaveEvent s userID eventID).2) ∧
    (∀ (id organizerID : Int) (e : Error),
      (EventService.DeleteEvent s id organizerID).1 = some e →
      s.SameTables (EventService.DeleteEvent s id organizerID).2) ∧
    (∀ (id : Int) (req : EventRequest) (organizerID : Int) (now : Time) (e : Error),
      (EventService.UpdateEvent s id req organizerID now).1 = .error e →
      s.SameTables (EventService.UpdateEvent s id req organizerID now).2) ∧
    (∀ (organizerID eventID : Int) (now : Time) (e : Error),
      (EventService.CloseEvent s organizerID eventID now).1 = .error e →
      s.SameTables (EventService.CloseEvent s organizerID eventID now).2) ∧
    (∀ (organizerID eventID : Int) (now : Time) (e : Error),
      (EventService.OpenEvent s organizerID eventID now).1 = .error e →
      s.SameTables (EventService.OpenEvent s organizerID eventID now).2) := by
  have same : s.SameTables s := ⟨rfl, rfl, rfl⟩
  refine ⟨?_, ?_, ?_, ?_, ?_, ?_⟩
  · intro userID eventID now insertTime e h
    rcases ParticipantRepository.JoinEvent_state s userID eventID now insertTime with hs | ⟨hg, hs⟩
    · simp only [ParticipantService.JoinEvent, hs]
      exact same
    · simp only [ParticipantService.JoinEvent] at h ⊢
      rw [hs]
      rw [ParticipantRepository.JoinEvent_of_guards insertTime hg] at h
      split at h
      · rename_i e2 s1 heq
        exact DB.insertParticipant_error_tables (congrArg Prod.fst heq)
      · simp at h
  · intro userID eventID e h
    unfold ParticipantService.LeaveEvent ParticipantRepository.LeaveEvent at h ⊢
    split at h
    · rename_i hrow
      simp only [hrow]
      exact same
    · rename_i p hrow
      exfalso
      simp [DB.deleteParticipant, hrow] at h
  · intro id organizerID e h
    unfold EventService.DeleteEvent EventRepository.Delete at h ⊢
    split_ifs at h ⊢
    · exact same
    · split at h
      · rename_i s1 heq
        have hst := DB.deleteEvent_error (congrArg Prod.fst heq)
        rw [heq] at hst
        simp only at hst ⊢
        rw [hst]
        exact same
      · rename_i e2 s1 hne heq
        have hst := DB.deleteEvent_error (congrArg Prod.fst heq)
        rw [heq] at hst
        simp only at hst ⊢
        rw [hst]
        exact same
      · simp at h
  · intro id req organizerID now e h
    unfold EventService.UpdateEvent at h ⊢
    split at h
    · rename_i e1 hget
      simp only [hget]
      exact same
    · rename_i existingEvent hget
      simp only [hget]
      split_ifs at h ⊢
      · exact same
      · simp only [] at h ⊢
        split at h
        · rename_i e2 s1 heq
          have hst := EventRepository.Update_error (congrArg Prod.fst heq)
          rw [heq] at hst
          simp only at hst ⊢
          rw [hst]
          exact same
        · simp at h
  · intro organizerID eventID now e h
    unfold EventService.CloseEvent at h ⊢
    split at h
    · rename_i e1 hget
      simp only [hget]
      exact same
    · rename_i existingEvent hget
      try simp only [hget]
      split_ifs at h ⊢
      · exact same
      · exact same
      · split at h
        · rename_i e2 s1 heq
          have hst := EventRepository.Update_error (congrArg Prod.fst heq)
          rw [heq] at hst
          simp only at hst ⊢
          rw [hst]
          exact same
        · simp at h
  · intro organizerID eventID now e h
    unfold EventService.OpenEvent at h ⊢
    split at h
    · rename_i e1 hget
      simp only [hget]
      exact same
    · rename_i existingEvent hget
      try simp only [hget]
      split_ifs at h ⊢
      · exact same
      · exact same
      · split at h
        · rename_i e2 s1 heq
          have hst := EventRepository.Update_error (congrArg Prod.fst heq)
          rw [heq] at hst
          simp only at hst ⊢
          rw [hst]
          exact same
        · simp at h

/-- C27 at the sample state: a join of an unknown event, a join by an unknown
user, which the database refuses, and a close by a user who is not the
organizer all leave the three tables as they were. -/
theorem failure_is_atomic_witness :
    sampleDB.SameTables (ParticipantService.JoinEvent sampleDB 2 7 0 0).2 ∧
    sampleDB.SameTables (ParticipantService.JoinEvent sampleDB 7 1 0 0).2 ∧
    sampleDB.SameTables (EventService.CloseEvent sampleDB 2 1 70).2 :=
  ⟨(failure_is_atomic sampleDB).1 2 7 0 0 (.new "event not found") (by decide),
   (failure_is_atomic sampleDB).1 7 1 0 0
      (.storage (.foreignKeyViolation "participants_user_id_fkey")) (by decide),
   (failure_is_atomic sampleDB).2.2.2.2.1 2 1 70
      (.new "you are not the organizer of this event") (by decide)⟩

/-! ## Joining, leaving and joining again -/

/-- Leaving right after a successful join removes the row the join stored:
what remains of the join is the advanced sequence. -/
theorem ParticipantRepository.LeaveEvent_after_join {s : DB} {userID eventID : Int}
    (joinedAt : Time) (hrow : s.participantRow userID eventID = none) :
    ParticipantRepository.LeaveEvent
        { s with
          participantsSeq := s.participantsSeq + 1,
          participants := s.participants ++
            [{ ID := s.participantsSeq + 1, UserID := userID, EventID := eventID,
               JoinedAt := joinedAt }] }
        userID eventID =
      (none, { s with participantsSeq := s.participantsSeq + 1 }) := by
  have hnone : ∀ p ∈ s.participants, ¬ (p.UserID = userID ∧ p.EventID = eventID) := by
    intro p hp
    have := List.find?_eq_none.mp hrow p hp
    simpa using this
  have hfind : (s.participants ++
      [({ ID := s.participantsSeq + 1, UserID := userID, EventID := eventID,
          JoinedAt := joinedAt } : Participant)]).find?
        (fun p => p.UserID = userID ∧ p.EventID = eventID) =
      some { ID := s.participantsSeq + 1, UserID := userID, EventID := eventID,
             JoinedAt := joinedAt } := by
    unfold DB.participantRow at hrow
    rw [List.find?_append, hrow]
    simp
  have hfilter : (s.participants ++
      [({ ID := s.participantsSeq + 1, UserID := userID, EventID := eventID,
          JoinedAt := joinedAt } : Participant)]).filter
        (fun q => ¬ (q.UserID = userID ∧ q.EventID = eventID)) = s.participants := by
    rw [List.filter_append, List.filter_eq_self.mpr]
    · simp
    · intro p hp
      have := hnone p hp
      simp only [decide_not, Bool.not_eq_true', decide_eq_false_iff_not]
      exact this
  simp only [ParticipantRepository.LeaveEvent, DB.deleteParticipant, DB.participantRow, hfind,
    hfilter]

/-- The guards of a join read the `events` and `participants` tables only. -/
theorem JoinGuardsPass_congr {s s1 : DB} {userID eventID : Int} {now : Time}
    (he : s1.events = s.events) (hp : s1.participants = s.participants)
    (h : JoinGuardsPass s userID eventID now) : JoinGuardsPass s1 userID eventID now := by
  unfold JoinGuardsPass DB.eventByID DB.participantCount DB.participantRow
    DB.activeEventsCount at h ⊢
  rw [he, hp]
  exact h

/-- A successful join was made by a user that has a row in `users`. -/
theorem ParticipantRepository.JoinEvent_success_user {s : DB} (hs : s.Valid)
    {userID eventID : Int} {now insertTime : Time}
    (h : (ParticipantRepository.JoinEvent s userID eventID now insertTime).1 = none) :
    s.hasUser userID = true := by
  obtain ⟨hg, -⟩ := ParticipantRepository.JoinEvent_success h
  by_contra hu
  have hu2 : s.hasUser userID = false := by simpa using hu
  obtain ⟨ev, -, -, -, hrow, -⟩ := hg
  have hins := DB.insertParticipant_no_user hs insertTime hrow hu2
  rw [ParticipantRepository.JoinEvent_of_guards insertTime
    (ParticipantRepository.JoinEvent_success h).1, hins] at h
  simp at h

/-- C28: in every state that satisfies the constraints of the schema, when
`JoinEvent(u, e)` succeeds, a `LeaveEvent(u, e)` right after it succeeds and
leaves the `participants` table, and so the set of its (user id, event id)
pairs, the `events` table and the `users` table as they were before the join;
after that a further `JoinEvent(u, e)` with the same clock reading succeeds
again. -/
theorem join_leave_join (s : DB) (hs : s.Valid) (userID eventID : Int) (now insertTime : Time)
    (h : (ParticipantService.JoinEvent s userID eventID now insertTime).1 = none) :
    (ParticipantService.LeaveEvent
      (ParticipantService.JoinEvent s userID eventID now insertTime).2 userID eventID).1 = none ∧
    (ParticipantService.LeaveEvent
      (ParticipantService.JoinEvent s userID eventID now insertTime).2
        userID eventID).2.participants = s.participants ∧
    (∀ a b : Int,
      (∃ p ∈ (ParticipantService.LeaveEvent
          (ParticipantService.JoinEvent s userID eventID now insertTime).2
            userID eventID).2.participants, p.UserID = a ∧ p.EventID = b) ↔
        ∃ p ∈ s.participants, p.UserID = a ∧ p.EventID = b) ∧
    (ParticipantService.LeaveEvent
      (ParticipantService.JoinEvent s userID eventID now insertTime).2
        userID eventID).2.events = s.events ∧
    (ParticipantService.LeaveEvent
      (ParticipantService.JoinEvent s userID eventID now insertTime).2
        userID eventID).2.users = s.users ∧
    (∀ insertTime2 : Time,
      (ParticipantService.JoinEvent
        (ParticipantService.LeaveEvent
          (ParticipantService.JoinEvent s userID eventID now insertTime).2 userID eventID).2
        userID eventID now insertTime2).1 = none) := by
  simp only [ParticipantService.JoinEvent, ParticipantService.LeaveEvent] at h ⊢
  obtain ⟨hg, hst⟩ := ParticipantRepository.JoinEvent_success h
  have hu := ParticipantRepository.JoinEvent_success_user hs h
  have hrow : s.participantRow userID eventID = none := by
    obtain ⟨ev, -, -, -, hrow, -⟩ := hg
    exact hrow
  have hv1 : (ParticipantRepository.JoinEvent s userID eventID now insertTime).2.Valid :=
    Op.apply_valid sampleBcrypt "" hs (.JoinEvent userID eventID now insertTime)
  have hv2 : (ParticipantRepository.LeaveEvent
      (ParticipantRepository.JoinEvent s userID eventID now insertTime).2
        userID eventID).2.Valid :=
    Op.apply_valid sampleBcrypt "" hv1 (.LeaveEvent userID eventID)
  rw [hst] at hv2 ⊢
  rw [ParticipantRepository.LeaveEvent_after_join insertTime hrow] at hv2 ⊢
  refine ⟨rfl, rfl, fun a b => Iff.rfl, rfl, rfl, ?_⟩
  intro insertTime2
  have hg2 : JoinGuardsPass { s with participantsSeq := s.participantsSeq + 1 }
      userID eventID now := JoinGuardsPass_congr rfl rfl hg
  have hrow2 : DB.participantRow { s with participantsSeq := s.participantsSeq + 1 }
      userID eventID = none := hrow
  have hev2 : DB.hasEvent { s with participantsSeq := s.participantsSeq + 1 } eventID = true := by
    obtain ⟨ev, hev, -⟩ := hg
    exact DB.eventByID_hasEvent hev
  rw [ParticipantRepository.JoinEvent_of_guards insertTime2 hg2,
    DB.insertParticipant_ok hv2 insertTime2 hrow2 hu hev2]

/-- C28 at the sample state: the second sample user joins the sample event,
leaves it and joins it again. -/
theorem join_leave_join_witness :
    (ParticipantService.LeaveEvent (ParticipantService.JoinEvent sampleDB 2 1 0 40).2 2 1).1 =
      none ∧
    (ParticipantService.LeaveEvent
      (ParticipantService.JoinEvent sampleDB 2 1 0 40).2 2 1).2.participants =
        sampleDB.participants ∧
    (ParticipantService.JoinEvent
      (ParticipantService.LeaveEvent (ParticipantService.JoinEvent sampleDB 2 1 0 40).2 2 1).2
      2 1 0 50).1 = none :=
  have h := join_leave_join sampleDB sampleDB_valid 2 1 0 40 (by decide)
  ⟨h.1, h.2.1, h.2.2.2.2.2 50⟩

/-! ## Participant rows point at events -/

/-- A row of `participants` after an insert is a row from before it, or the
row of the inserted pair. -/
theorem DB.insertParticipant_mem (s : DB) (userID eventID : Int) (joinedAt : Time) :
    ∀ p ∈ (s.insertParticipant userID eventID joinedAt).2.participants,
      p ∈ s.participants ∨ (p.UserID = userID ∧ p.EventID = eventID) := by
  intro p hp
  unfold DB.insertParticipant at hp
  simp only [] at hp
  split_ifs at hp
  · exact Or.inl hp
  · exact Or.inl hp
  · exact Or.inl hp
  · exact Or.inl hp
  · simp only [List.mem_append, List.mem_singleton] at hp
    rcases hp with hp | rfl
    · exact Or.inl hp
    · exact Or.inr ⟨rfl, rfl⟩

/-- The delete statement removes only rows of the given id. -/
theorem DB.deleteEvent_mem_of_ne (s : DB) (id organizerID : Int) {ev : Event}
    (hev : ev ∈ s.events) (hne : ev.ID ≠ id) : ev ∈ (s.deleteEvent id organizerID).2.events := by
  unfold DB.deleteEvent
  split
  · exact hev
  · split_ifs
    · exact hev
    · simp only [List.mem_filter]
      exact ⟨hev, by simp [hne]⟩

/-- C29: in every state reachable from the empty database by the service
operations, the `event_id` of every participant row is the id of a stored
event.  A successful `JoinEvent` was called for an event that exists, a row
that `JoinEvent` adds, from any state, is a row for an event that exists, and
`DeleteEvent` removes, from any state, no event that has participant rows. -/
theorem participant_event_exists (bc : Bcrypt) (env : String) :
    (∀ s, Reachable bc env s → ∀ p ∈ s.participants, ∃ ev ∈ s.events, ev.ID = p.EventID) ∧
    (∀ (s : DB) (userID eventID : Int) (now insertTime : Time),
      (ParticipantService.JoinEvent s userID eventID now insertTime).1 = none →
      ∃ ev ∈ s.events, ev.ID = eventID) ∧
    (∀ (s : DB) (userID eventID : Int) (now insertTime : Time),
      ∀ p ∈ (ParticipantService.JoinEvent s userID eventID now insertTime).2.participants,
        p ∈ s.participants ∨ (p.EventID = eventID ∧ ∃ ev ∈ s.events, ev.ID = eventID)) ∧
    (∀ (s : DB) (id organizerID : Int), ∀ ev ∈ s.events,
      (∃ p ∈ s.participants, p.EventID = ev.ID) →
      ev ∈ (EventService.DeleteEvent s id organizerID).2.events) := by
  refine ⟨?_, ?_, ?_, ?_⟩
  · intro s hr p hp
    exact DB.hasEvent_iff.mp (hr.valid.participants_event_id_fkey p hp)
  · intro s userID eventID now insertTime h
    obtain ⟨⟨ev, hev, -⟩, -⟩ := ParticipantRepository.JoinEvent_success h
    exact ⟨ev, List.mem_of_find?_eq_some hev, DB.eventByID_id hev⟩
  · intro s userID eventID now insertTime p hp
    simp only [ParticipantService.JoinEvent] at hp
    rcases ParticipantRepository.JoinEvent_state s userID eventID now insertTime with
      hst | ⟨⟨ev, hev, -⟩, hst⟩
    · rw [hst] at hp
      exact Or.inl hp
    · rw [hst] at hp
      rcases DB.insertParticipant_mem s userID eventID insertTime p hp with h1 | ⟨-, h2⟩
      · exact Or.inl h1
      · exact Or.inr ⟨h2, ev, List.mem_of_find?_eq_some hev, DB.eventByID_id hev⟩
  · intro s id organizerID ev hev hp
    simp only [EventService.DeleteEvent]
    rcases EventRepository.Delete_state s id organizerID with hst | ⟨hc, hst⟩
    · rw [hst]
      exact hev
    · rw [hst]
      apply DB.deleteEvent_mem_of_ne s id organizerID hev
      intro hid
      obtain ⟨p, hp, hpe⟩ := hp
      have hz := List.countP_eq_zero.mp hc p hp
      simp [hpe, hid] at hz

/-- C29 on the state after one user has registered, created an event and
joined it: the participant row points at the event, and a delete by the
organizer leaves the event in place. -/
theorem participant_event_exists_witness :
    (∀ p ∈ (DB.empty.run sampleBcrypt "" fullRun).participants,
      ∃ ev ∈ (DB.empty.run sampleBcrypt "" fullRun).events, ev.ID = p.EventID) ∧
    (∃ ev ∈ sampleDB.events, ev.ID = 1) ∧
    picnic ∈ (EventService.DeleteEvent joinedDB 1 1).2.events :=
  ⟨(participant_event_exists sampleBcrypt "").1 _
      (ReachableBy.step _ (.JoinEvent 1 1 40 40)
        (ReachableBy.step _ (.CreateEvent (picnicRequest 1) 1 30)
          (ReachableBy.step _ (.Register aliceRequest 0 10 10) ReachableBy.empty trivial)
          trivial)
        trivial),
   (participant_event_exists sampleBcrypt "").2.1 sampleDB 2 1 0 40 (by decide),
   (participant_event_exists sampleBcrypt "").2.2.2 joinedDB 1 1 picnic (by decide)
      ⟨{ ID := 1, UserID := 2, EventID := 1, JoinedAt := 40 }, by decide, by decide⟩⟩

/-! ## Registering and logging in -/

/-- The bcrypt stand-in has the two properties the program relies on. -/
theorem sampleBcrypt_sound : sampleBcrypt.Sound := by
  constructor
  · intro password salt hash h
    simp only [sampleBcrypt, Option.some.injEq] at h
    simp [sampleBcrypt, h]
  · intro password salt hash h heq
    simp only [sampleBcrypt, Option.some.injEq] at h
    rw [← h] at heq
    have := congrArg String.length heq
    simp only [String.length_append, add_left_eq_self] at this
    exact absurd this (by decide)

/-- What a successful registration has done: it has hashed the password,
found no user with the email, appended one row to `users`, and answered with
the public fields of that row. -/
theorem AuthService.Register_success_row {bc : Bcrypt} {env : String} {s : DB}
    {req : RegisterRequest} {salt : Nat} {now tokenTime : Time} {resp : TokenResponse} {s1 : DB}
    (h : AuthService.Register bc env s req salt now tokenTime = (.ok resp, s1)) :
    ∃ hash, bc.GenerateFromPassword req.Password salt = some hash ∧
      (∀ v ∈ s.users, v.Email ≠ req.Email) ∧
      s1.users = s.users ++
        [{ ID := s.usersSeq + 1, Username := req.Username, Email := req.Email,
           Password := hash, CreatedAt := now, UpdatedAt := now }] ∧
      resp.User =
        { ID := s.usersSeq + 1, Username := req.Username, Email := req.Email,
          CreatedAt := now } := by
  unfold AuthService.Register at h
  split at h
  · simp at h
  · split at h
    · simp at h
    · split at h
      · simp at h
      · rename_i hashedPassword hgen
        split at h
        · simp at h
        · rename_i user s2 hc
          simp only [AuthService.generateToken, Prod.mk.injEq, Except.ok.injEq] at h
          obtain ⟨hresp, rfl⟩ := h
          unfold UserRepository.Create at hc
          simp only [] at hc
          split at hc
          · simp at hc
          · rename_i id s3 hins
            simp only [Prod.mk.injEq, Except.ok.injEq] at hc
            obtain ⟨huser, rfl⟩ := hc
            unfold DB.insertUser at hins
            simp only [] at hins
            split_ifs at hins with h1 h2 h3 <;>
              simp only [Prod.mk.injEq, reduceCtorEq, false_and, Except.ok.injEq] at hins
            obtain ⟨hid, rfl⟩ := hins
            refine ⟨hashedPassword, hgen, ?_, rfl, ?_⟩
            · intro v hv hve
              apply h3
              simp only [List.any_eq_true, decide_eq_true_eq]
              exact ⟨v, hv, by simpa [AuthService.newUser] using hve⟩
            · rw [← hresp, ← huser, ← hid]
              simp [AuthService.userResponse, AuthService.newUser]

/-- C30: for every state and every request on which `Register` succeeds, with
a bcrypt whose hashes match the password they were made from and differ from
it, the stored password is the hash and not the plaintext; a following `Login`
with the same email and password succeeds and returns the same user id,
username and email that `Register` returned; a `Login` with the same email and
a password that the hash does not match fails with `invalid email or
password`. -/
theorem register_then_login (bc : Bcrypt) (hbc : bc.Sound) (env : String) (s : DB)
    (req : RegisterRequest) (salt : Nat) (now tokenTime : Time) (resp : TokenResponse) (s1 : DB)
    (h : AuthService.Register bc env s req salt now tokenTime = (.ok resp, s1)) :
    ∃ hash, bc.GenerateFromPassword req.Password salt = some hash ∧
      (∃ u ∈ s1.users, u.ID = resp.User.ID ∧ u.Username = req.Username ∧
        u.Email = req.Email ∧ u.Password = hash ∧ u.Password ≠ req.Password) ∧
      (∀ loginTime : Time, ∃ r,
        AuthService.Login bc env s1 { Email := req.Email, Password := req.Password } loginTime =
          .ok r ∧
        r.User.ID = resp.User.ID ∧ r.User.Username = resp.User.Username ∧
        r.User.Email = resp.User.Email ∧
        resp.User.Username = req.Username ∧ resp.User.Email = req.Email) ∧
      (∀ (password : String) (loginTime : Time),
        bc.CompareHashAndPassword hash password = false →
        AuthService.Login bc env s1 { Email := req.Email, Password := password } loginTime =
          .error (.new "invalid email or password")) := by
  obtain ⟨hash, hgen, hfree, husers, hresp⟩ := AuthService.Register_success_row h
  have hfind : UserRepository.GetByEmail s1 req.Email =
      .ok { ID := s.usersSeq + 1, Username := req.Username, Email := req.Email,
            Password := hash, CreatedAt := now, UpdatedAt := now } := by
    have hnone : s.users.find? (fun u => u.Email = req.Email) = none := by
      rw [List.find?_eq_none]
      intro v hv
      simpa using hfree v hv
    simp [UserRepository.GetByEmail, husers, List.find?_append, hnone]
  refine ⟨hash, hgen, ?_, ?_, ?_⟩
  · refine ⟨{ ID := s.usersSeq + 1, Username := req.Username, Email := req.Email,
              Password := hash, CreatedAt := now, UpdatedAt := now },
      ?_, ?_, rfl, rfl, rfl, hbc.hash_ne_password _ _ _ hgen⟩
    · rw [husers]
      exact List.mem_append_right _ (List.mem_singleton.mpr rfl)
    · rw [hresp]
  · intro loginTime
    have hcmp := hbc.compare_generated _ _ _ hgen
    have hl : AuthService.Login bc env s1 { Email := req.Email, Password := req.Password }
        loginTime =
        .ok { Token := .compact
                { Method := some .HS256,
                  Claims := [("id", .number (s.usersSeq + 1)), ("username", .string req.Username),
                             ("email", .string req.Email),
                             ("exp", .number (Unix (loginTime + 24 * Hour)))],
                  SignedWith := some (AuthService.jwtSecret env) },
              ExpiresAt := loginTime + 24 * Hour,
              User := resp.User } := by
      simp only [AuthService.Login, hfind, hcmp, AuthService.generateToken, hresp,
        AuthService.userResponse]
      simp
    exact ⟨_, hl, rfl, rfl, rfl, by rw [hresp], by rw [hresp]⟩
  · intro password loginTime hno
    simp [AuthService.Login, hfind, hno]

/-- C30 on the registration of the third sample user in the sample state:
the stored password is not the plaintext, a login with the password succeeds
for user 3, and a login with another password fails. -/
theorem register_then_login_witness :
    ∃ hash, sampleBcrypt.GenerateFromPassword carolRequest.Password 0 = some hash ∧
      (∃ u ∈ (AuthService.Register sampleBcrypt "" sampleDB carolRequest 0 50 50).2.users,
        u.ID = 3 ∧ u.Username = carolRequest.Username ∧ u.Email = carolRequest.Email ∧
        u.Password = hash ∧ u.Password ≠ carolRequest.Password) ∧
      (∃ r, AuthService.Login sampleBcrypt ""
          (AuthService.Register sampleBcrypt "" sampleDB carolRequest 0 50 50).2
          { Email := carolRequest.Email, Password := carolRequest.Password } 60 = .ok r ∧
        r.User.ID = 3) ∧
      AuthService.Login sampleBcrypt ""
          (AuthService.Register sampleBcrypt "" sampleDB carolRequest 0 50 50).2
          { Email := carolRequest.Email, Password := "guess" } 60 =
        .error (.new "invalid email or password") := by
  obtain ⟨hash, hgen, hu, hlogin, hbad⟩ :=
    register_then_login sampleBcrypt sampleBcrypt_sound "" sampleDB carolRequest 0 50 50
      { Token := .compact
          { Method := some .HS256,
            Claims := [("id", .number 3), ("username", .string "carol"),
                       ("email", .string "carol@example.org"), ("exp", .number 86400)],
            SignedWith := some "your-secret-key" },
        ExpiresAt := 50 + 24 * Hour,
        User := { ID := 3, Username := "carol", Email := "carol@example.org", CreatedAt := 50 } }
      (AuthService.Register sampleBcrypt "" sampleDB carolRequest 0 50 50).2 (by decide)
  have hh : hash = "$2a$singing" := by
    have : sampleBcrypt.GenerateFromPassword carolRequest.Password 0 = some "$2a$singing" := by
      decide
    rw [this] at hgen
    exact (Option.some.inj hgen).symm
  refine ⟨hash, hgen, hu, ?_, hbad "guess" 60 (by rw [hh]; decide)⟩
  obtain ⟨r, hr, hid, -⟩ := hlogin 60
  exact ⟨r, hr, hid⟩

end EventSystem
